import Mathlib

/-!
# nnForge: backward propagation executor (CUDA back end)

A shallow embedding of `backward_propagation_cuda::actual_run`,
`backward_propagation_cuda::run_kernels` and the set-up functions
`setup_streams_and_events`, `setup_fixed_buffer_sizes` and `setup_per_entry_buffer_sizes`
(`src/nnforge/cuda/backward_propagation_cuda.cpp`), of the shape functions of the untile
layer (`src/nnforge/untile_layer.cpp`) and of the plain entry convolution
(`src/nnforge/plain/entry_convolution_layer_updater_plain.cpp`).

Conventions of the embedding:

* `unsigned int` values are natural numbers; every arithmetic operation of the
  source that can wrap is written with an explicit reduction modulo `2 ^ 32`.
* a `float` normalizer is kept as the expression the source evaluates,
  `0.0F` or `1.0F / static_cast<float>(n)`; `normalizer.value` is its exact value
  (rounding is outside the model).
* The compute worker and the control thread exchange exactly one command at a
  time, so the hand-shake is embedded as a synchronous call of the worker's loop
  body at the point where the control thread sets the command.
* a `std::map` is an association list in insertion order with unique keys; only look-ups
  are made on it.
* the `float` values of the entry convolution are elements of a commutative ring (exact
  arithmetic).
-/

namespace nnforge

/-! ## Machine integers -/

/-- Number of values of an `unsigned int`. -/
def uint_range : Nat := 2 ^ 32

/-- Unsigned addition. -/
def uadd (a b : Nat) : Nat := (a + b) % uint_range

/-- Unsigned subtraction. -/
def usub (a b : Nat) : Nat := (a % uint_range + (uint_range - b % uint_range)) % uint_range

/-- Unsigned multiplication. -/
def umul (a b : Nat) : Nat := (a * b) % uint_range

/-! ## Chunk sizing (`actual_run`, lines 190-215) -/

/-- The call `std::vector::resize(n)` on an empty vector of `unsigned int`. -/
def resize (n : Nat) : List Nat := List.replicate n 0

/-- The call `std::fill_n(v.begin() + first, n, value)`. -/
def fill_n (v : List Nat) (first n value : Nat) : List Nat :=
  v.take first ++ List.replicate n value ++ v.drop (first + n)

/-- Value of `chunk_count`, line 195. -/
def chunk_count (batch_size max_entry_count : Nat) : Nat :=
  usub (uadd batch_size max_entry_count) 1 / max_entry_count

/-- Value of `chunk_min_size`, line 196. -/
def chunk_min_size (batch_size max_entry_count : Nat) : Nat :=
  batch_size / chunk_count batch_size max_entry_count

/-- Value of `plus1_chunk_count`, line 197. -/
def plus1_chunk_count (batch_size max_entry_count : Nat) : Nat :=
  batch_size % chunk_count batch_size max_entry_count

/-- The vector `entry_read_count_list` as built by lines 190-201. -/
def entry_read_count_list (batch_size max_entry_count : Nat) : List Nat :=
  if batch_size ≤ max_entry_count then
    [batch_size]
  else
    let cc := chunk_count batch_size max_entry_count
    let cmin := chunk_min_size batch_size max_entry_count
    let p1 := plus1_chunk_count batch_size max_entry_count
    let v0 := resize cc
    let v1 := fill_n v0 0 p1 (uadd cmin 1)
    fill_n v1 p1 (cc - p1) cmin

/-- Value of `max_chunk_size`, line 215 (`std::max_element`). -/
def max_chunk_size (batch_size max_entry_count : Nat) : Nat :=
  (entry_read_count_list batch_size max_entry_count).foldl max 0

/-! ## Momentum, actions, errors -/

/-- The enumeration `training_momentum::momentum_type`. -/
inductive training_momentum_type
  | no_momentum
  | vanilla_momentum
  | nesterov_momentum
  | adam_momentum
deriving DecidableEq

/-- The action kinds of `layer_action`. -/
inductive layer_action
  | forward
  | backward_data (backprop_index : Nat)
  | backward_weights
  | backward_data_and_weights
  | update_weights
deriving DecidableEq

/-- A scheduled unit of work: layer name and action. -/
structure layer_name_with_action where
  name : String
  action : layer_action
deriving DecidableEq

/-- The exceptions `actual_run` throws.
* `insufficient_memory`: line 188;
* `entry_count_not_reported`: line 248;
* `message m`: `neural_network_exception(params.error_message)`, lines 354, 414, 438. -/
inductive run_exception
  | insufficient_memory
  | entry_count_not_reported
  | message (m : String)
deriving DecidableEq

/-- The float expression stored in `gradient_normalizer`:
`zero` is `0.0F`, `reciprocal n` is `1.0F / static_cast<float>(n)`. -/
inductive normalizer
  | zero
  | reciprocal (n : Nat)
deriving DecidableEq

/-- Exact value of a normalizer expression. -/
def normalizer.value : normalizer → ℚ
  | .zero => 0
  | .reciprocal n => 1 / (n : ℚ)

/-! ## Adam iteration counter (`actual_run`, lines 241-249) -/

/-- Lines 241-249: `base_iteration_count`, or the exception of line 248.
`epoch_entry_count` is the `int` returned by `reader.get_entry_count()`; in the
branch where it is used it is non-negative, so its conversion to `unsigned int`
is `Int.toNat`. -/
def base_iteration_count (momentum : training_momentum_type) (epoch_id batch_size : Nat)
    (epoch_entry_count : Int) : Except run_exception Nat :=
  if momentum = training_momentum_type.adam_momentum then
    if 0 ≤ epoch_entry_count then
      Except.ok (umul epoch_id
        (usub (uadd epoch_entry_count.toNat batch_size) 1 / batch_size))
    else
      Except.error run_exception.entry_count_not_reported
  else
    Except.ok 0

/-! ## Gradient accumulator (`run_kernels`, lines 483-500) -/

/-- Values of the worker's variables after lines 483-500. -/
structure gradient_step where
  gradient_accumulated_entry_count : Nat
  gradient_normalizer : normalizer
  apply_gradient : Bool
  gradient_applied_count : Nat
deriving DecidableEq

/-- Lines 483-500 for a command of `n` entries
(`n` is `run_kernels_thread_entry_to_process_count`). -/
def accumulate (batch_size acc applied n : Nat) : gradient_step :=
  let acc1 := uadd acc n
  let na : normalizer × Bool :=
    if batch_size ≤ acc1 then
      (normalizer.reciprocal acc1, true)
    else if n = 0 ∧ 0 < acc1 then
      (normalizer.reciprocal batch_size, true)
    else
      (normalizer.zero, false)
  if na.2 then
    { gradient_accumulated_entry_count := 0
      gradient_normalizer := na.1
      apply_gradient := true
      gradient_applied_count := uadd applied 1 }
  else
    { gradient_accumulated_entry_count := acc1
      gradient_normalizer := na.1
      apply_gradient := false
      gradient_applied_count := applied }

/-! ## Observable events -/

/-- What a run does, in the order in which the embedding performs it.
Events of the worker are placed where the control thread hands over the command. -/
inductive event
  | thread_start
  | command (entry_to_process_count io_set : Nat)
  | apply_gradient (layer_name : String) (gradient_normalizer : normalizer) (iteration_id : Nat)
  | copy_device_to_host (io_set entry_count : Nat)
  | read (entry_id : Nat)
  | copy_host_to_device (io_set entry_count : Nat)
  | write (entry_id : Nat)
  | thread_interrupt
  | thread_join
deriving DecidableEq

/-! ## Compute worker (`run_kernels`) -/

/-- State of the worker between two commands: its local counter and the fields of
`run_kernels_params` it writes. `exited` records that the loop was left (line 538). -/
structure run_kernels_state where
  gradient_accumulated_entry_count : Nat
  gradient_applied_count : Nat
  error_message : String
  exited : Bool
deriving DecidableEq

/-- Initial worker state: line 471 and the constructor of `run_kernels_params` (line 1089). -/
def run_kernels_state.init : run_kernels_state :=
  { gradient_accumulated_entry_count := 0
    gradient_applied_count := 0
    error_message := ""
    exited := false }

/-- Lines 509-536: on a zero-count command the update is enqueued for every key of
`update_accum_buffers`. -/
def flush_calls (update_accum_layers : List String) (nrm : normalizer) (iteration_id : Nat) :
    List event :=
  update_accum_layers.map (fun layer_name => event.apply_gradient layer_name nrm iteration_id)

/-- Lines 541-975 restricted to what is observed: walking `actions_in_execution_order`, an
`update_weights` action enqueues the update when `apply_gradient` holds (lines 945-973); the
layer kernels of the other actions leave no event. -/
def action_calls (actions_in_execution_order : List layer_name_with_action)
    (apply_gradient : Bool) (nrm : normalizer) (iteration_id : Nat) : List event :=
  actions_in_execution_order.filterMap (fun a =>
    match a.action with
    | layer_action.update_weights =>
        if apply_gradient then some (event.apply_gradient a.name nrm iteration_id) else none
    | _ => none)

/-- One pass of the worker's loop body (lines 476-1013) for a command of `n` entries. -/
def run_kernels_command (actions_in_execution_order : List layer_name_with_action)
    (update_accum_layers : List String) (batch_size base_iteration_count : Nat)
    (w : run_kernels_state) (n : Nat) : run_kernels_state × List event :=
  let g := accumulate batch_size w.gradient_accumulated_entry_count w.gradient_applied_count n
  let iteration_id := uadd base_iteration_count g.gradient_applied_count
  if n = 0 then
    ({ gradient_accumulated_entry_count := g.gradient_accumulated_entry_count
       gradient_applied_count := g.gradient_applied_count
       error_message := w.error_message
       exited := true },
     if g.apply_gradient then flush_calls update_accum_layers g.gradient_normalizer iteration_id
     else [])
  else
    ({ gradient_accumulated_entry_count := g.gradient_accumulated_entry_count
       gradient_applied_count := g.gradient_applied_count
       error_message := w.error_message
       exited := false },
     action_calls actions_in_execution_order g.apply_gradient g.gradient_normalizer iteration_id)

/-- The worker's loop (lines 474-1014) over the commands it receives, keeping the values of
lines 483-500 at each command; the loop is left at the first zero-count command. -/
def run_kernels_steps (batch_size : Nat) : Nat → Nat → List Nat → List gradient_step
  | _, _, [] => []
  | acc, applied, n :: rest =>
      let g := accumulate batch_size acc applied n
      if n = 0 then [g]
      else g :: run_kernels_steps batch_size g.gradient_accumulated_entry_count
        g.gradient_applied_count rest

/-- The `iteration_id` arguments of the `enqueue_apply_gradient` calls made for one layer. -/
def iteration_ids (layer_name : String) (trace : List event) : List Nat :=
  trace.filterMap (fun e =>
    match e with
    | event.apply_gradient l _ iteration_id => if l = layer_name then some iteration_id else none
    | _ => none)

/-! ## Control thread (`actual_run`) -/

/-- Outcome of one read task (`read_input_data_static`): the flag returned by
`reader.read`, or the message of the exception it threw. -/
inductive read_result
  | entry_read (flag : Bool)
  | failure (error_message : String)
deriving DecidableEq

/-- The reader capability: `read(entry_id)` and `get_entry_count()`. -/
structure structured_data_bunch_reader where
  read : Nat → read_result
  get_entry_count : Int

/-- Parameters of a run that the embedding observes. -/
structure run_config where
  batch_size : Nat
  max_entry_count : Nat
  momentum : training_momentum_type
  epoch_id : Nat
  output_layers_tiling_factor : Nat
  actions_in_execution_order : List layer_name_with_action
  update_accum_layers : List String

/-- Lines 333-363: the control thread inspects the slots in order. `none` is the
exception of line 354 (a slot holds a non-empty error message); otherwise the
pair is `entry_read_count` and `entry_not_read_encountered`. A read task that threw
with an empty message passes the test of line 343; its slot is taken as not read. -/
def wait_for_reads : List read_result → Nat → Bool → Option (Nat × Bool)
  | [], entry_read_count, encountered => some (entry_read_count, encountered)
  | read_result.failure m :: rest, entry_read_count, _ =>
      if m ≠ "" then none
      else wait_for_reads rest entry_read_count true
  | read_result.entry_read flag :: rest, entry_read_count, encountered =>
      if !encountered then
        if flag then wait_for_reads rest (uadd entry_read_count 1) encountered
        else wait_for_reads rest entry_read_count true
      else wait_for_reads rest entry_read_count encountered

/-- Local variables of the control loop (lines 236-237, 269-276), the worker, and the
events so far. -/
structure control_state where
  run_kernels_thread_io_set : Nat
  initial_iteration : Bool
  run_kernels_thread_stopped : Bool
  entry_not_read_encountered : Bool
  entry_to_process_count : Nat
  entry_to_write_count : Nat
  base_entry_to_read_id : Nat
  entry_processed_count : Nat
  chunk_index : Nat
  worker : run_kernels_state
  trace : List event

/-- How an iteration of the `while(true)` loop ends. -/
inductive loop_control
  | next
  | leave
  | throw (e : run_exception)
deriving DecidableEq

/-- Values at the start of the loop (lines 236-237, 269-276), after the worker thread has
been created (line 266). -/
def control_state.init : control_state :=
  { run_kernels_thread_io_set := 0
    initial_iteration := true
    run_kernels_thread_stopped := false
    entry_not_read_encountered := false
    entry_to_process_count := 0
    entry_to_write_count := 0
    base_entry_to_read_id := 0
    entry_processed_count := 0
    chunk_index := 0
    worker := run_kernels_state.init
    trace := [event.thread_start] }

/-- Entry ids of the read tasks posted for a chunk, lines 325-331. -/
def posted_entry_ids (base_entry_to_read_id count : Nat) : List Nat :=
  (List.range count).map (fun i => uadd base_entry_to_read_id i)

/-- Entry ids written for a chunk, lines 387-398. -/
def written_entry_ids (entry_processed_count entry_to_write_count tiling : Nat) : List Nat :=
  (List.range (umul entry_to_write_count tiling)).map (fun i => uadd entry_processed_count i)

/-- Lines 290-302: the command handed to the worker, if any. -/
structure command_result where
  worker : run_kernels_state
  events : List event
  run_kernels_thread_stopped : Bool
  wait_for_kernels_to_finish : Bool

/-- Lines 289-302. The worker's pass over the command is performed here. -/
def set_command (cfg : run_config) (base : Nat) (s : control_state) : command_result :=
  if !s.initial_iteration && !s.run_kernels_thread_stopped then
    let r := run_kernels_command cfg.actions_in_execution_order cfg.update_accum_layers
      cfg.batch_size base s.worker s.entry_to_process_count
    let stopped := decide (s.entry_to_process_count = 0)
    { worker := r.1
      events := event.command s.entry_to_process_count s.run_kernels_thread_io_set :: r.2
      run_kernels_thread_stopped := stopped
      wait_for_kernels_to_finish := !stopped }
  else
    { worker := s.worker
      events := []
      run_kernels_thread_stopped := s.run_kernels_thread_stopped
      wait_for_kernels_to_finish := false }

/-- Lines 320-365: the read tasks posted, and what the control thread finds:
`none` is the exception of line 354, otherwise `entry_read_count` and
`entry_not_read_encountered`. -/
def read_input_data (chunks : List Nat) (reader : structured_data_bunch_reader)
    (s : control_state) : List Nat × Option (Nat × Bool) :=
  if s.entry_not_read_encountered then ([], some (0, true))
  else
    let ids := posted_entry_ids s.base_entry_to_read_id (chunks.getD s.chunk_index 0)
    (ids, wait_for_reads (ids.map reader.read) 0 false)

/-- One iteration of the `while(true)` loop, lines 288-426. -/
def actual_run_iteration (cfg : run_config) (chunks : List Nat) (base : Nat)
    (reader : structured_data_bunch_reader) (s : control_state) :
    control_state × loop_control :=
  let copy_data_thread_io_set := usub 1 s.run_kernels_thread_io_set
  -- lines 289-302
  let cmd := set_command cfg base s
  -- lines 304-318: device-to-host copy of the outputs
  let ev_d2h : List event :=
    if 0 < s.entry_to_write_count then
      [event.copy_device_to_host copy_data_thread_io_set s.entry_to_write_count]
    else []
  -- lines 320-365: read the inputs of the chunk
  let rd := read_input_data chunks reader s
  let ev_read : List event := rd.1.map event.read
  match rd.2 with
  | none =>
      ({ s with
          worker := cmd.worker
          run_kernels_thread_stopped := cmd.run_kernels_thread_stopped
          trace := s.trace ++ cmd.events ++ ev_d2h ++ ev_read },
       loop_control.throw (run_exception.message cmd.worker.error_message))
  | some (entry_read_count, encountered) =>
      -- lines 370-384: host-to-device copy of the inputs
      let ev_h2d : List event :=
        if 0 < entry_read_count then
          [event.copy_host_to_device copy_data_thread_io_set entry_read_count]
        else []
      -- lines 386-398: write the outputs
      let ev_write : List event :=
        if 0 < s.entry_to_write_count then
          (written_entry_ids s.entry_processed_count s.entry_to_write_count
            cfg.output_layers_tiling_factor).map event.write
        else []
      let tr := s.trace ++ cmd.events ++ ev_d2h ++ ev_read ++ ev_h2d ++ ev_write
      -- lines 403-415
      if cmd.wait_for_kernels_to_finish && decide (cmd.worker.error_message ≠ "") then
        ({ s with
            worker := cmd.worker
            run_kernels_thread_stopped := cmd.run_kernels_thread_stopped
            entry_not_read_encountered := encountered
            trace := tr },
         loop_control.throw (run_exception.message cmd.worker.error_message))
      else
        -- lines 417-426
        ({ run_kernels_thread_io_set := usub 1 s.run_kernels_thread_io_set
           initial_iteration := false
           run_kernels_thread_stopped := cmd.run_kernels_thread_stopped
           entry_not_read_encountered := encountered
           entry_to_process_count := entry_read_count
           entry_to_write_count := s.entry_to_process_count
           base_entry_to_read_id := uadd s.base_entry_to_read_id entry_read_count
           entry_processed_count := uadd s.entry_processed_count s.entry_to_write_count
           chunk_index := (uadd s.chunk_index 1) % chunks.length
           worker := cmd.worker
           trace := tr },
         if entry_read_count = 0 ∧ cmd.wait_for_kernels_to_finish = false then
           loop_control.leave
         else loop_control.next)

/-- The `while(true)` loop, lines 286-427, run for at most `fuel` iterations.
`none` means the loop has not ended within `fuel` iterations. -/
def actual_run_loop (cfg : run_config) (chunks : List Nat) (base : Nat)
    (reader : structured_data_bunch_reader) : Nat → control_state →
    Option (control_state × Option run_exception)
  | 0, _ => none
  | fuel + 1, s =>
      match actual_run_iteration cfg chunks base reader s with
      | (s1, loop_control.next) => actual_run_loop cfg chunks base reader fuel s1
      | (s1, loop_control.leave) => some (s1, none)
      | (s1, loop_control.throw e) => some (s1, some e)

/-- What `actual_run` hands back on normal return: `entries_processed` (line 447) and the
`gradient_applied_count` passed to `read_update_accum` (line 451). -/
structure run_result where
  entries_processed : Nat
  gradient_applied_count : Nat
deriving DecidableEq

/-- The function `actual_run`, lines 178-455: the events performed and its outcome.
`none` means that `actual_run` has not returned: the control loop has not ended within
`fuel` iterations, or line 436 joins a worker that has not left its loop (no further
command is sent to it, so it never does). -/
def actual_run (cfg : run_config) (reader : structured_data_bunch_reader) (fuel : Nat) :
    Option (List event × Except run_exception run_result) :=
  if cfg.max_entry_count = 0 then
    some ([], Except.error run_exception.insufficient_memory)
  else
    let chunks := entry_read_count_list cfg.batch_size cfg.max_entry_count
    match base_iteration_count cfg.momentum cfg.epoch_id cfg.batch_size
        reader.get_entry_count with
    | Except.error e => some ([], Except.error e)
    | Except.ok base =>
        match actual_run_loop cfg chunks base reader fuel control_state.init with
        | none => none
        | some (s, some e) =>
            -- lines 429-434
            some (s.trace ++ [event.thread_interrupt, event.thread_join], Except.error e)
        | some (s, none) =>
            -- lines 436-438
            if s.worker.exited = false then none
            else if s.worker.error_message ≠ "" then
              some (s.trace ++ [event.thread_join],
                Except.error (run_exception.message s.worker.error_message))
            else
              some (s.trace ++ [event.thread_join],
                Except.ok { entries_processed := s.entry_processed_count
                            gradient_applied_count := s.worker.gradient_applied_count })

/-! ## Observations on a trace -/

/-- The entry ids passed to `writer.write` (line 395), in order. -/
def written_ids (trace : List event) : List Nat :=
  trace.filterMap (fun e =>
    match e with
    | event.write entry_id => some entry_id
    | _ => none)

/-- The entry counts of the commands handed to the worker (lines 293-299), in order. -/
def command_counts (trace : List event) : List Nat :=
  trace.filterMap (fun e =>
    match e with
    | event.command entry_to_process_count _ => some entry_to_process_count
    | _ => none)

/-- The entry ids of the read tasks posted (line 330), in order. -/
def read_ids (trace : List event) : List Nat :=
  trace.filterMap (fun e =>
    match e with
    | event.read entry_id => some entry_id
    | _ => none)

/-! ## Ordered maps (`std::map`) as association lists -/

/-- The call `m.find(k)`: the value stored under `k`, if any. -/
def map_find {K V : Type} [DecidableEq K] : List (K × V) → K → Option V
  | [], _ => none
  | (k1, v) :: rest, k => if k1 = k then some v else map_find rest k

/-- The call `m.insert(std::make_pair(k, v))`: nothing changes when `k` is already a key.
(The list keeps the order of insertion; only look-ups are made on it.) -/
def map_insert {K V : Type} [DecidableEq K] (m : List (K × V)) (k : K) (v : V) :
    List (K × V) :=
  match map_find m k with
  | some _ => m
  | none => m ++ [(k, v)]

/-- The expression `m[k]` on a map of `unsigned int`: an absent key is inserted with the
value 0. The result is the map afterwards and the value. -/
def map_index {K : Type} [DecidableEq K] (m : List (K × Nat)) (k : K) :
    List (K × Nat) × Nat :=
  match map_find m k with
  | some v => (m, v)
  | none => (m ++ [(k, 0)], 0)

/-! ## Streams and events (`setup_streams_and_events`, lines 1098-1202) -/

/-- What `setup_streams_and_events` needs from the optimized action schema, the
configuration and the object: the stream sets (`get_action_stream_set()`), the dependencies
of an action (`get_dependencies`), the execution order, the output layers, the single-stream
switch and the value `output_data_ready_stream_set_id` had before the call. -/
structure stream_setup_input where
  action_stream_set : List (List layer_name_with_action)
  get_dependencies : layer_name_with_action → List layer_name_with_action
  actions_in_execution_order : List layer_name_with_action
  output_layer_names : List String
  is_single_command_stream : Bool
  output_data_ready_stream_set_id : Nat

/-- The members written by `setup_streams_and_events`, and its local `layer_stream_set`.
An event (`cuda_event::ptr`) is identified by the number of output-ready events created
before it; `command_streams` is the number of streams created. -/
structure streams_and_events where
  layer_stream_set : List (List layer_name_with_action)
  command_streams : Nat
  action_to_stream_set_map : List (layer_name_with_action × Nat)
  action_output_data_ready_events : List (layer_name_with_action × Nat)
  action_previous_events : List (layer_name_with_action × List Nat)
  output_data_ready_additional_events : List Nat
  output_data_ready_stream_set_id : Nat

/-- Lines 1109-1121: with a single command stream the sets are replaced by one set holding
the actions of all sets in order. -/
def coalesce_stream_sets (single : Bool) (orig : List (List layer_name_with_action)) :
    List (List layer_name_with_action) :=
  if single then [orig.flatten] else orig

/-- Lines 1127-1128 for one stream set. -/
def assign_stream_set (stream_set_id : Nat) :
    List layer_name_with_action → List (layer_name_with_action × Nat) →
    List (layer_name_with_action × Nat)
  | [], m => m
  | a :: rest, m => assign_stream_set stream_set_id rest (map_insert m a stream_set_id)

/-- Lines 1124-1129: the loop over the stream sets, starting at `stream_set_id`. -/
def assign_stream_sets : Nat → List (List layer_name_with_action) →
    List (layer_name_with_action × Nat) → List (layer_name_with_action × Nat)
  | _, [], m => m
  | stream_set_id, set :: rest, m =>
      assign_stream_sets (stream_set_id + 1) rest (assign_stream_set stream_set_id set m)

/-- Lines 1151-1156 and 1188-1193: the output-ready event of an action, created when the
action has none yet. The result is the event map afterwards and the event. -/
def output_data_ready_event (events : List (layer_name_with_action × Nat))
    (a : layer_name_with_action) : List (layer_name_with_action × Nat) × Nat :=
  match map_find events a with
  | some e => (events, e)
  | none => (events ++ [(a, events.length)], events.length)

/-- Lines 1143-1158: the loop over the dependencies of an action of stream set
`current_stream_set_id`. `none` stands for the dereference of `end()` at line 1147 (a
dependency without stream set). -/
def collect_previous_events (a2s : List (layer_name_with_action × Nat))
    (current_stream_set_id : Nat) :
    List layer_name_with_action → List (layer_name_with_action × Nat) → List Nat →
    Option (List (layer_name_with_action × Nat) × List Nat)
  | [], events, previous_events => some (events, previous_events)
  | d :: rest, events, previous_events =>
      match map_find a2s d with
      | none => none
      | some previous_stream_set_id =>
          if previous_stream_set_id = current_stream_set_id then
            collect_previous_events a2s current_stream_set_id rest events previous_events
          else
            let r := output_data_ready_event events d
            collect_previous_events a2s current_stream_set_id rest r.1
              (previous_events ++ [r.2])

/-- Lines 1137-1162: the loop over the actions (given in the order in which they are
visited). `none` stands for the dereference of `end()` at line 1139 or 1147. -/
def register_previous_events (a2s : List (layer_name_with_action × Nat))
    (get_dependencies : layer_name_with_action → List layer_name_with_action) :
    List layer_name_with_action →
    List (layer_name_with_action × Nat) → List (layer_name_with_action × List Nat) →
    Option (List (layer_name_with_action × Nat) × List (layer_name_with_action × List Nat))
  | [], events, ape => some (events, ape)
  | a :: rest, events, ape =>
      match map_find a2s a with
      | none => none
      | some current_stream_set_id =>
          match collect_previous_events a2s current_stream_set_id (get_dependencies a)
              events [] with
          | none => none
          | some (events1, previous_events) =>
              register_previous_events a2s get_dependencies rest events1
                (if previous_events = [] then ape else map_insert ape a previous_events)

/-- Lines 1164-1171: the actions whose results must be ready at the end of a pass. -/
def target_actions (output_layer_names : List String)
    (actions_in_execution_order : List layer_name_with_action) :
    List layer_name_with_action :=
  output_layer_names.map (fun n => { name := n, action := layer_action.forward })
    ++ actions_in_execution_order.filter (fun a => a.action = layer_action.update_weights)

/-- State of the loop of lines 1173-1195. -/
structure target_state where
  defined : Bool
  output_data_ready_stream_set_id : Nat
  action_to_stream_set_map : List (layer_name_with_action × Nat)
  action_output_data_ready_events : List (layer_name_with_action × Nat)
  output_data_ready_additional_events : List Nat

/-- Lines 1174-1195. -/
def register_targets : List layer_name_with_action → target_state → target_state
  | [], st => st
  | a :: rest, st =>
      let ix := map_index st.action_to_stream_set_map a
      if st.defined = false then
        register_targets rest
          { st with defined := true
                    output_data_ready_stream_set_id := ix.2
                    action_to_stream_set_map := ix.1 }
      else if ix.2 = st.output_data_ready_stream_set_id then
        register_targets rest { st with action_to_stream_set_map := ix.1 }
      else
        let r := output_data_ready_event st.action_output_data_ready_events a
        register_targets rest
          { st with action_to_stream_set_map := ix.1
                    action_output_data_ready_events := r.1
                    output_data_ready_additional_events :=
                      st.output_data_ready_additional_events ++ [r.2] }

/-- The function `setup_streams_and_events`, lines 1098-1195. `none` stands for the
dereference of `end()` at line 1139 or 1147: an action or a dependency that is in no stream
set. -/
def setup_streams_and_events (inp : stream_setup_input) : Option streams_and_events :=
  let layer_stream_set := coalesce_stream_sets inp.is_single_command_stream inp.action_stream_set
  let a2s := assign_stream_sets 0 layer_stream_set []
  match register_previous_events a2s inp.get_dependencies
      inp.actions_in_execution_order.reverse [] [] with
  | none => none
  | some (events, ape) =>
      let st := register_targets
        (target_actions inp.output_layer_names inp.actions_in_execution_order)
        { defined := false
          output_data_ready_stream_set_id := inp.output_data_ready_stream_set_id
          action_to_stream_set_map := a2s
          action_output_data_ready_events := events
          output_data_ready_additional_events := [] }
      some
        { layer_stream_set := layer_stream_set
          command_streams := layer_stream_set.length
          action_to_stream_set_map := st.action_to_stream_set_map
          action_output_data_ready_events := st.action_output_data_ready_events
          action_previous_events := ape
          output_data_ready_additional_events := st.output_data_ready_additional_events
          output_data_ready_stream_set_id := st.output_data_ready_stream_set_id }

/-- Lines 551-560 of `run_kernels`: the events an action waits for before it is enqueued,
those registered for it in `action_previous_events`. -/
def previous_events_of (r : streams_and_events) (a : layer_name_with_action) : List Nat :=
  match map_find r.action_previous_events a with
  | some previous_events => previous_events
  | none => []

/-- An example schema with two stream sets, `[a:forward, b:forward]` and
`[c:forward, c:update_weights]`; `b:forward` and `c:forward` depend on `a:forward`,
`c:update_weights` depends on `c:forward` and `b:forward`. -/
def two_stream_schema : stream_setup_input :=
  { action_stream_set :=
      [[{ name := "a", action := layer_action.forward },
        { name := "b", action := layer_action.forward }],
       [{ name := "c", action := layer_action.forward },
        { name := "c", action := layer_action.update_weights }]]
    get_dependencies := fun x =>
      if x = { name := "b", action := layer_action.forward } then
        [{ name := "a", action := layer_action.forward }]
      else if x = { name := "c", action := layer_action.forward } then
        [{ name := "a", action := layer_action.forward }]
      else if x = { name := "c", action := layer_action.update_weights } then
        [{ name := "c", action := layer_action.forward },
         { name := "b", action := layer_action.forward }]
      else []
    actions_in_execution_order :=
      [{ name := "a", action := layer_action.forward },
       { name := "b", action := layer_action.forward },
       { name := "c", action := layer_action.forward },
       { name := "c", action := layer_action.update_weights }]
    output_layer_names := ["c"]
    is_single_command_stream := false
    output_data_ready_stream_set_id := 0 }

/-! ## Buffer sets (`setup_fixed_buffer_sizes`, `setup_per_entry_buffer_sizes`) -/

/-- The lifetime tags of `buffer_lifetime`. -/
inductive buffer_lifetime
  | action_output_buffer
  | working_buffer
  | temporary_buffer
deriving DecidableEq

/-- The exceptions thrown while the buffer sets are set up.
* `unexpected_buffer_lifetime`: lines 1438, 1690 and 1702;
* `multiple_output_buffers`: line 1510. -/
inductive setup_exception
  | unexpected_buffer_lifetime (lifetime : buffer_lifetime) (layer_name : String)
      (action : layer_action)
  | multiple_output_buffers (action : layer_action) (layer_name : String)
deriving DecidableEq

/-- The expression `m.insert(std::make_pair(k, d)).first->second` changed by `f`: the value
stored under `k`, or the fresh value `d` when `k` is absent, is replaced by its image. -/
def map_modify {K V : Type} [DecidableEq K] (m : List (K × V)) (k : K) (d : V) (f : V → V) :
    List (K × V) :=
  match map_find m k with
  | some _ => m.map (fun p => if p.1 = k then (p.1, f p.2) else p)
  | none => m ++ [(k, f d)]

/-- A request as the allocator returns it: an action and a lifetime tag. -/
abbrev buffer_request := layer_name_with_action × buffer_lifetime

/-- What `setup_fixed_buffer_sizes` reads: the configuration values, the execution order,
the sizes and flags reported by the updaters (by layer name), and the allocator
`get_buffer_set` of the optimized action schema, taken as a parameter (it receives the
request map, the dependency map and the forced groups). -/
structure fixed_buffer_input where
  max_fixed_working_buffers_size : Nat
  is_dont_share_buffers : Bool
  actions_in_execution_order : List layer_name_with_action
  get_temporary_fixed_buffer_size : String → Nat
  get_temporary_working_fixed_buffer_size : String → layer_action → Nat × Bool
  is_backward_weights_dependent_on_temporary_fixed_buffer : String → Bool
  is_backward_data_dependent_on_temporary_fixed_buffer : String → Nat → Bool
  is_backward_data_and_weights_dependent_on_temporary_fixed_buffer : String → Bool
  get_buffer_set :
    List (layer_name_with_action × List (buffer_lifetime × Nat)) →
    List (layer_name_with_action × List (layer_name_with_action × List (buffer_lifetime × Bool))) →
    List (List buffer_request) → List (List buffer_request)

/-- Lines 1330-1350 for one action: its requests are added to `buffers`. The working request
is pushed into the entry of the action in `buffers` itself (line 1345), the temporary one
into `current_buffers`, which line 1350 inserts only when the action has no entry yet. The
sizes are cast to `float` in the source; the embedding keeps the integer. -/
def fixed_buffers_step (inp : fixed_buffer_input)
    (buffers : List (layer_name_with_action × List (buffer_lifetime × Nat)))
    (a : layer_name_with_action) : List (layer_name_with_action × List (buffer_lifetime × Nat)) :=
  let current_buffers : List (buffer_lifetime × Nat) :=
    match a.action with
    | layer_action.forward =>
        if 0 < inp.get_temporary_fixed_buffer_size a.name then
          [(buffer_lifetime.temporary_buffer, inp.get_temporary_fixed_buffer_size a.name)]
        else []
    | _ => []
  let size_and_flag := inp.get_temporary_working_fixed_buffer_size a.name a.action
  let temporary_working_fixed_buffer_size :=
    if size_and_flag.2 then max size_and_flag.1 inp.max_fixed_working_buffers_size
    else size_and_flag.1
  let buffers1 :=
    if 0 < temporary_working_fixed_buffer_size then
      map_modify buffers a []
        (fun v => v ++ [(buffer_lifetime.working_buffer, temporary_working_fixed_buffer_size)])
    else buffers
  if current_buffers ≠ [] then map_insert buffers1 a current_buffers else buffers1

/-- Lines 1324-1350: the request map handed to the allocator. -/
def fixed_buffers (inp : fixed_buffer_input) :
    List (layer_name_with_action × List (buffer_lifetime × Nat)) :=
  inp.actions_in_execution_order.foldl (fixed_buffers_step inp) []

/-- Lines 1352-1376: the dependencies of one action on temporary fixed buffers. -/
def fixed_current_dependencies (inp : fixed_buffer_input) (a : layer_name_with_action) :
    List (layer_name_with_action × List (buffer_lifetime × Bool)) :=
  let on_forward : List (layer_name_with_action × List (buffer_lifetime × Bool)) :=
    [({ name := a.name, action := layer_action.forward },
      [(buffer_lifetime.temporary_buffer, false)])]
  match a.action with
  | layer_action.backward_weights =>
      if inp.is_backward_weights_dependent_on_temporary_fixed_buffer a.name then on_forward
      else []
  | layer_action.backward_data action_input_index =>
      if inp.is_backward_data_dependent_on_temporary_fixed_buffer a.name action_input_index
      then on_forward else []
  | layer_action.backward_data_and_weights =>
      if inp.is_backward_data_and_weights_dependent_on_temporary_fixed_buffer a.name
      then on_forward else []
  | _ => []

/-- Lines 1352-1379: the dependency map handed to the allocator. -/
def fixed_dependencies (inp : fixed_buffer_input) :
    List (layer_name_with_action × List (layer_name_with_action × List (buffer_lifetime × Bool))) :=
  inp.actions_in_execution_order.foldl
    (fun dependencies a =>
      if fixed_current_dependencies inp a ≠ [] then
        map_insert dependencies a (fixed_current_dependencies inp a)
      else dependencies) []

/-- Lines 1387-1397: every request of every set becomes a set of its own, in order. -/
def dont_share_sets (orig : List (List buffer_request)) : List (List buffer_request) :=
  orig.flatten.map (fun r => [r])

/-- Lines 1381-1398: the set list of the fixed pool. -/
def fixed_buffer_set_list (inp : fixed_buffer_input) : List (List buffer_request) :=
  let orig := inp.get_buffer_set (fixed_buffers inp) (fixed_dependencies inp) []
  if inp.is_dont_share_buffers then dont_share_sets orig else orig

/-- The test of line 1413: a working buffer whose updater sets the second component of
`get_temporary_working_fixed_buffer_size`. -/
def is_hungry_working_buffer (inp : fixed_buffer_input) (r : buffer_request) : Bool :=
  decide (r.2 = buffer_lifetime.working_buffer) &&
    (inp.get_temporary_working_fixed_buffer_size r.1.name r.1.action).2

/-- Lines 1405-1416: the ids of the sets that hold a hungry working buffer, in increasing
order (a `std::set`). -/
def set_ids_with_hungry_working_buffers (inp : fixed_buffer_input)
    (sets : List (List buffer_request)) : List Nat :=
  (List.range sets.length).filter
    (fun set_id => (sets.getD set_id []).any (is_hungry_working_buffer inp))

/-- Lines 1417-1418: the budget is divided when more than one set is hungry. -/
def hungry_share (max_fixed_working_buffers_size hungry_set_count : Nat) : Nat :=
  if 1 < hungry_set_count then max_fixed_working_buffers_size / hungry_set_count
  else max_fixed_working_buffers_size

/-- Lines 1428-1439, the value of `buffer_size` for a request; the `default` branch
throws. -/
def fixed_buffer_size (inp : fixed_buffer_input) (r : buffer_request) :
    Except setup_exception Nat :=
  match r.2 with
  | buffer_lifetime.working_buffer =>
      Except.ok (inp.get_temporary_working_fixed_buffer_size r.1.name r.1.action).1
  | buffer_lifetime.temporary_buffer =>
      Except.ok (inp.get_temporary_fixed_buffer_size r.1.name)
  | buffer_lifetime.action_output_buffer =>
      Except.error (setup_exception.unexpected_buffer_lifetime r.2 r.1.name r.1.action)

/-- The members `setup_fixed_buffer_sizes` fills. -/
structure fixed_buffer_sizes where
  fixed_set_size_list : List Nat
  temporary_working_fixed_data_action_to_set_map : List (layer_name_with_action × Nat)
  temporary_fixed_data_action_to_set_map : List (layer_name_with_action × Nat)
deriving DecidableEq

/-- Lines 1424-1441: the loop over the requests of set `set_id`. The state is
`max_buffer_size` and the members. -/
def fixed_set_requests (inp : fixed_buffer_input) (set_id : Nat) :
    List buffer_request → Nat × fixed_buffer_sizes → Except setup_exception (Nat × fixed_buffer_sizes)
  | [], st => Except.ok st
  | r :: rest, (max_buffer_size, st) =>
      match r.2 with
      | buffer_lifetime.working_buffer =>
          fixed_set_requests inp set_id rest
            (max max_buffer_size
              (inp.get_temporary_working_fixed_buffer_size r.1.name r.1.action).1,
             { st with temporary_working_fixed_data_action_to_set_map :=
                 map_insert st.temporary_working_fixed_data_action_to_set_map r.1 set_id })
      | buffer_lifetime.temporary_buffer =>
          fixed_set_requests inp set_id rest
            (max max_buffer_size (inp.get_temporary_fixed_buffer_size r.1.name),
             { st with temporary_fixed_data_action_to_set_map :=
                 map_insert st.temporary_fixed_data_action_to_set_map r.1 set_id })
      | buffer_lifetime.action_output_buffer =>
          Except.error (setup_exception.unexpected_buffer_lifetime r.2 r.1.name r.1.action)

/-- Lines 1420-1443: the loop over the sets, from set `set_id` on. `share` is the value of
`max_fixed_working_buffers_size` after line 1418. -/
def fixed_sets (inp : fixed_buffer_input) (share : Nat) (hungry : List Nat) :
    Nat → List (List buffer_request) → fixed_buffer_sizes →
    Except setup_exception fixed_buffer_sizes
  | _, [], st => Except.ok st
  | set_id, action_list :: rest, st =>
      match fixed_set_requests inp set_id action_list
          (if set_id ∈ hungry then share else 1, st) with
      | Except.error e => Except.error e
      | Except.ok (max_buffer_size, st1) =>
          fixed_sets inp share hungry (set_id + 1) rest
            { st1 with fixed_set_size_list := st1.fixed_set_size_list ++ [max_buffer_size] }

/-- The function `setup_fixed_buffer_sizes`, lines 1317-1443. -/
def setup_fixed_buffer_sizes (inp : fixed_buffer_input) :
    Except setup_exception fixed_buffer_sizes :=
  let sets := fixed_buffer_set_list inp
  let hungry := set_ids_with_hungry_working_buffers inp sets
  fixed_sets inp (hungry_share inp.max_fixed_working_buffers_size hungry.length) hungry 0 sets
    { fixed_set_size_list := []
      temporary_working_fixed_data_action_to_set_map := []
      temporary_fixed_data_action_to_set_map := [] }

/-- The size line 1442 records for a set whose requests all have a size: the largest of
the starting value and the sizes of the requests. -/
def fixed_set_size (inp : fixed_buffer_input) (start : Nat) (action_list : List buffer_request) :
    Nat :=
  action_list.foldl
    (fun max_buffer_size r =>
      match fixed_buffer_size inp r with
      | Except.ok buffer_size => max max_buffer_size buffer_size
      | Except.error _ => max_buffer_size) start

/-- The sizes of the hungry sets added up. -/
def hungry_total (hungry : List Nat) (fixed_set_size_list : List Nat) : Nat :=
  (hungry.map (fun set_id => fixed_set_size_list.getD set_id 0)).sum

/-- An input of `setup_fixed_buffer_sizes` with a single action `L:forward` whose layer
reports a temporary fixed size of 5 and a working fixed size of 7 (not hungry). -/
def forward_with_both_requests : fixed_buffer_input :=
  { max_fixed_working_buffers_size := 10
    is_dont_share_buffers := false
    actions_in_execution_order := [{ name := "L", action := layer_action.forward }]
    get_temporary_fixed_buffer_size := fun _ => 5
    get_temporary_working_fixed_buffer_size := fun _ _ => (7, false)
    is_backward_weights_dependent_on_temporary_fixed_buffer := fun _ => false
    is_backward_data_dependent_on_temporary_fixed_buffer := fun _ _ => false
    is_backward_data_and_weights_dependent_on_temporary_fixed_buffer := fun _ => false
    get_buffer_set := fun buffers _ _ =>
      buffers.map (fun p => p.2.map (fun q => (p.1, q.1))) }

/-- An input of `setup_fixed_buffer_sizes` with a budget of 10 bytes and a single action
`L:forward` whose working buffer is hungry and needs at least 20 bytes; the allocator puts
each action's requests into a set of their own. -/
def hungry_over_budget : fixed_buffer_input :=
  { max_fixed_working_buffers_size := 10
    is_dont_share_buffers := false
    actions_in_execution_order := [{ name := "L", action := layer_action.forward }]
    get_temporary_fixed_buffer_size := fun _ => 0
    get_temporary_working_fixed_buffer_size := fun _ _ => (20, true)
    is_backward_weights_dependent_on_temporary_fixed_buffer := fun _ => false
    is_backward_data_dependent_on_temporary_fixed_buffer := fun _ _ => false
    is_backward_data_and_weights_dependent_on_temporary_fixed_buffer := fun _ => false
    get_buffer_set := fun buffers _ _ =>
      buffers.map (fun p => p.2.map (fun q => (p.1, q.1))) }

/-- An input of `setup_fixed_buffer_sizes` with a budget of 11 bytes, sharing disabled and
three actions: `A:forward` and `B:backward_weights` have hungry working buffers without a
minimum size, `C:forward` has a temporary buffer of 3 bytes; the allocator returns one set
with all requests. -/
def two_hungry_sets : fixed_buffer_input :=
  { max_fixed_working_buffers_size := 11
    is_dont_share_buffers := true
    actions_in_execution_order :=
      [{ name := "A", action := layer_action.forward },
       { name := "B", action := layer_action.backward_weights },
       { name := "C", action := layer_action.forward }]
    get_temporary_fixed_buffer_size := fun n => if n = "C" then 3 else 0
    get_temporary_working_fixed_buffer_size := fun n _ => if n = "C" then (0, false) else (0, true)
    is_backward_weights_dependent_on_temporary_fixed_buffer := fun _ => false
    is_backward_data_dependent_on_temporary_fixed_buffer := fun _ _ => false
    is_backward_data_and_weights_dependent_on_temporary_fixed_buffer := fun _ => false
    get_buffer_set := fun buffers _ _ =>
      [(buffers.map (fun p => p.2.map (fun q => (p.1, q.1)))).flatten] }

/-! ## Buffer sets per entry (`setup_per_entry_buffer_sizes`, lines 1608-1707) -/

/-- Width of `size_t`. -/
def size_t_range : Nat := 2 ^ 64

/-- What lines 1608-1707 of `setup_per_entry_buffer_sizes` read: the configuration switch,
the forced groups `same_output_action_sets`, the neuron counts of `layer_config_map`, the
tiling factors, the input layers of a layer, the sizes reported by the updaters, and the
allocator. `get_buffer_set` stands for the call of lines 1618-1621 as a function of the
forced groups; the request and dependency maps of lines 1476-1606 are its other arguments,
and the allocator itself belongs to the action schema and is a parameter here. -/
structure per_entry_buffer_input where
  is_dont_share_buffers : Bool
  same_output_action_sets : List (List layer_name_with_action)
  get_neuron_count : String → Nat
  cumulative_tiling_factor_map : String → Nat
  input_layer_instance_names : String → List String
  get_temporary_working_per_entry_buffer_size : String → layer_action → Nat
  get_temporary_per_entry_buffer_size : String → Nat
  get_buffer_set : List (List buffer_request) → List (List buffer_request)

/-- Lines 1608-1616: the forced groups, every action with its output buffer. -/
def should_be_placed_into_the_same_buffers
    (same_output_action_sets : List (List layer_name_with_action)) : List (List buffer_request) :=
  same_output_action_sets.map
    (fun src_tt => src_tt.map (fun a => (a, buffer_lifetime.action_output_buffer)))

/-- Lines 1628-1634: the map `same_buffers`, from an action to the set of its lifetimes that
are in a forced group. -/
def same_buffers (groups : List (List buffer_request)) :
    List (layer_name_with_action × List buffer_lifetime) :=
  groups.flatten.foldl
    (fun m r => map_modify m r.1 []
      (fun lifetimes => if r.2 ∈ lifetimes then lifetimes else lifetimes ++ [r.2])) []

/-- Lines 1641-1648: the flag `is_buffer_processed` of a request. -/
def is_buffer_processed (same_buffers : List (layer_name_with_action × List buffer_lifetime))
    (r : buffer_request) : Bool :=
  match map_find same_buffers r.1 with
  | some lifetimes => decide (r.2 ∈ lifetimes)
  | none => false

/-- Lines 1618-1653: the set list of the per-entry pool. With sharing disabled it starts
with the forced groups (line 1626); every request of the allocator's partition that is in
no forced group follows as a set of its own. -/
def layer_buffer_set_list (inp : per_entry_buffer_input) : List (List buffer_request) :=
  let groups := should_be_placed_into_the_same_buffers inp.same_output_action_sets
  let layer_buffer_set_list_orig := inp.get_buffer_set groups
  if inp.is_dont_share_buffers then
    groups ++
      (layer_buffer_set_list_orig.flatten.filter
        (fun r => !is_buffer_processed (same_buffers groups) r)).map (fun r => [r])
  else layer_buffer_set_list_orig

/-- The expression `get_neuron_count() * cumulative_tiling_factor_map[name] * sizeof(float)`
of lines 1672, 1677 and 1683: a product of two `unsigned int` widened to `size_t`. -/
def output_buffer_size_per_entry (inp : per_entry_buffer_input) (layer_name : String) : Nat :=
  umul (inp.get_neuron_count layer_name) (inp.cumulative_tiling_factor_map layer_name) * 4

/-- Lines 1665-1703: the value of `buffer_size_per_entry` for a request, or the exception of
line 1690 (an output buffer of an action that has none). An input index past the end of
`input_layer_instance_names` is undefined in the source; the embedding reads the layer "". -/
def per_entry_buffer_size (inp : per_entry_buffer_input) (r : buffer_request) :
    Except setup_exception Nat :=
  match r.2 with
  | buffer_lifetime.action_output_buffer =>
      match r.1.action with
      | layer_action.forward => Except.ok (output_buffer_size_per_entry inp r.1.name)
      | layer_action.backward_data backprop_index =>
          Except.ok (output_buffer_size_per_entry inp
            ((inp.input_layer_instance_names r.1.name).getD backprop_index ""))
      | layer_action.backward_data_and_weights =>
          Except.ok (output_buffer_size_per_entry inp
            ((inp.input_layer_instance_names r.1.name).getD 0 ""))
      | _ => Except.error (setup_exception.unexpected_buffer_lifetime r.2 r.1.name r.1.action)
  | buffer_lifetime.working_buffer =>
      Except.ok ((inp.get_temporary_working_per_entry_buffer_size r.1.name r.1.action
        * inp.cumulative_tiling_factor_map r.1.name) % size_t_range)
  | buffer_lifetime.temporary_buffer =>
      Except.ok ((inp.get_temporary_per_entry_buffer_size r.1.name
        * inp.cumulative_tiling_factor_map r.1.name) % size_t_range)

/-- The members `setup_per_entry_buffer_sizes` fills. -/
structure per_entry_buffer_sizes where
  layer_buffer_set_per_entry_size_list : List Nat
  layer_buffer_action_to_set_map : List (layer_name_with_action × Nat)
  temporary_working_per_entry_data_action_to_set_map : List (layer_name_with_action × Nat)
  temporary_per_entry_data_action_to_set_map : List (layer_name_with_action × Nat)
deriving DecidableEq

/-- The action-to-set map of a lifetime tag. -/
def per_entry_buffer_sizes.action_to_set_map (st : per_entry_buffer_sizes) :
    buffer_lifetime → List (layer_name_with_action × Nat)
  | buffer_lifetime.action_output_buffer => st.layer_buffer_action_to_set_map
  | buffer_lifetime.working_buffer => st.temporary_working_per_entry_data_action_to_set_map
  | buffer_lifetime.temporary_buffer => st.temporary_per_entry_data_action_to_set_map

/-- Lines 1668, 1694 and 1698: the `insert` into the map of the request's lifetime tag. -/
def per_entry_buffer_sizes.insert_action (st : per_entry_buffer_sizes) (r : buffer_request)
    (set_id : Nat) : per_entry_buffer_sizes :=
  match r.2 with
  | buffer_lifetime.action_output_buffer =>
      { st with layer_buffer_action_to_set_map :=
          map_insert st.layer_buffer_action_to_set_map r.1 set_id }
  | buffer_lifetime.working_buffer =>
      { st with temporary_working_per_entry_data_action_to_set_map :=
          map_insert st.temporary_working_per_entry_data_action_to_set_map r.1 set_id }
  | buffer_lifetime.temporary_buffer =>
      { st with temporary_per_entry_data_action_to_set_map :=
          map_insert st.temporary_per_entry_data_action_to_set_map r.1 set_id }

/-- Lines 1661-1705: the loop over the requests of set `set_id`. The state is
`max_buffer_size_per_entry` and the members. -/
def per_entry_set_requests (inp : per_entry_buffer_input) (set_id : Nat) :
    List buffer_request → Nat × per_entry_buffer_sizes →
    Except setup_exception (Nat × per_entry_buffer_sizes)
  | [], st => Except.ok st
  | r :: rest, (max_buffer_size_per_entry, st) =>
      match per_entry_buffer_size inp r with
      | Except.error e => Except.error e
      | Except.ok buffer_size_per_entry =>
          per_entry_set_requests inp set_id rest
            (max max_buffer_size_per_entry buffer_size_per_entry, st.insert_action r set_id)

/-- Lines 1656-1707: the loop over the sets, from set `set_id` on. -/
def per_entry_sets (inp : per_entry_buffer_input) :
    Nat → List (List buffer_request) → per_entry_buffer_sizes →
    Except setup_exception per_entry_buffer_sizes
  | _, [], st => Except.ok st
  | set_id, action_list :: rest, st =>
      match per_entry_set_requests inp set_id action_list (0, st) with
      | Except.error e => Except.error e
      | Except.ok (max_buffer_size_per_entry, st1) =>
          per_entry_sets inp (set_id + 1) rest
            { st1 with layer_buffer_set_per_entry_size_list :=
                st1.layer_buffer_set_per_entry_size_list ++ [max_buffer_size_per_entry] }

/-- The function `setup_per_entry_buffer_sizes` from line 1608 on. -/
def setup_per_entry_buffer_sizes (inp : per_entry_buffer_input) :
    Except setup_exception per_entry_buffer_sizes :=
  per_entry_sets inp 0 (layer_buffer_set_list inp)
    { layer_buffer_set_per_entry_size_list := []
      layer_buffer_action_to_set_map := []
      temporary_working_per_entry_data_action_to_set_map := []
      temporary_per_entry_data_action_to_set_map := [] }

/-- An input of `setup_per_entry_buffer_sizes` with sharing disabled, the forced group
`[A:forward, B:forward]`, and an allocator partition of two sets: the output buffers of
`A:forward` and `B:forward`, and the working buffer of `A:forward`. -/
def forced_group_of_two : per_entry_buffer_input :=
  { is_dont_share_buffers := true
    same_output_action_sets :=
      [[{ name := "A", action := layer_action.forward },
        { name := "B", action := layer_action.forward }]]
    get_neuron_count := fun n => if n = "A" then 8 else 6
    cumulative_tiling_factor_map := fun _ => 1
    input_layer_instance_names := fun _ => []
    get_temporary_working_per_entry_buffer_size := fun _ _ => 12
    get_temporary_per_entry_buffer_size := fun _ => 0
    get_buffer_set := fun _ =>
      [[({ name := "A", action := layer_action.forward }, buffer_lifetime.action_output_buffer),
        ({ name := "B", action := layer_action.forward }, buffer_lifetime.action_output_buffer)],
       [({ name := "A", action := layer_action.forward }, buffer_lifetime.working_buffer)]] }

/-! ## Further observations on the worker and the control loop -/

/-- The layers for which `enqueue_apply_gradient` is called in a trace, in order. -/
def applied_layers (trace : List event) : List String :=
  trace.filterMap (fun e =>
    match e with
    | event.apply_gradient layer_name _ _ => some layer_name
    | _ => none)

/-- The layers of the `update_weights` actions of the action list, in execution order. -/
def update_weights_layers (actions_in_execution_order : List layer_name_with_action) :
    List String :=
  (actions_in_execution_order.filter
    (fun a => decide (a.action = layer_action.update_weights))).map (fun a => a.name)

/-- Line 277: the number of read slots. `read_entry_info_list` is created with
`entry_read_count_list[chunk_index]` elements while `chunk_index` still has its initial
value 0 (line 237), and is never resized. -/
def read_entry_info_list_size (entry_read_count_list : List Nat) : Nat :=
  entry_read_count_list.getD 0 0

/-- Line 283: the offset, in `float` elements, of slot `i` in the host buffer of an input
of `size` bytes per entry, `i * (it->second / sizeof(float))`. -/
def slot_float_offset (i size : Nat) : Nat := (i * (size / 4)) % size_t_range

/-- Lines 223-226: the size in bytes of the host buffer of an input of `size` bytes per
entry, `it->second * max_chunk_size`. -/
def host_buffer_size (size max_chunk_size : Nat) : Nat := (size * max_chunk_size) % size_t_range

/-! ## Uses of the two sets of I/O buffers -/

/-- A use of one of the two sets of dedicated I/O buffers: the worker computing on the
set (`run_kernels_thread_io_set`), a copy of inputs into the set, a copy of outputs out of
the set (both with `copy_data_thread_io_set`). -/
inductive io_set_use
  | compute (io_set entry_count : Nat)
  | copy_in (io_set entry_count : Nat)
  | copy_out (io_set entry_count : Nat)
deriving DecidableEq

/-- The uses of the I/O buffer sets in a trace, in order. -/
def io_set_uses (trace : List event) : List io_set_use :=
  trace.filterMap (fun e =>
    match e with
    | event.command entry_to_process_count io_set =>
        some (io_set_use.compute io_set entry_to_process_count)
    | event.copy_host_to_device io_set entry_count =>
        some (io_set_use.copy_in io_set entry_count)
    | event.copy_device_to_host io_set entry_count =>
        some (io_set_use.copy_out io_set entry_count)
    | _ => none)

/-- The state at the head of iteration `i` of the `while(true)` loop started in state `s`
(iterations are counted from 0); `none` when the loop does not get that far. -/
def loop_state_at (cfg : run_config) (chunks : List Nat) (base : Nat)
    (reader : structured_data_bunch_reader) : Nat → control_state → Option control_state
  | 0, s => some s
  | i + 1, s =>
      match actual_run_iteration cfg chunks base reader s with
      | (s1, loop_control.next) => loop_state_at cfg chunks base reader i s1
      | _ => none

/-- The events of the iteration that starts in state `s`. -/
def iteration_events (cfg : run_config) (chunks : List Nat) (base : Nat)
    (reader : structured_data_bunch_reader) (s : control_state) : List event :=
  (actual_run_iteration cfg chunks base reader s).1.trace.drop s.trace.length

/-- A run of two chunks of two entries over a reader of four entries. -/
def four_entry_run : run_config :=
  { batch_size := 4
    max_entry_count := 2
    momentum := training_momentum_type.no_momentum
    epoch_id := 0
    output_layers_tiling_factor := 1
    actions_in_execution_order := []
    update_accum_layers := [] }

/-- A reader of exactly four entries. -/
def four_entry_reader : structured_data_bunch_reader :=
  { read := fun entry_id => read_result.entry_read (decide (entry_id < 4))
    get_entry_count := 4 }

/-- What holds at the head of every iteration reached from the start of the loop. -/
structure loop_sets (L : List Nat) (s : control_state) : Prop where
  io_set_le : s.run_kernels_thread_io_set ≤ 1
  not_stopped : s.run_kernels_thread_stopped = false
  no_error : s.worker.error_message = ""
  index_lt : s.chunk_index < L.length
  drained : s.initial_iteration = false → s.entry_to_process_count = 0 →
    s.entry_not_read_encountered = true

/-! ## The untile layer (`untile_layer.cpp`) -/

/-- The class `layer_configuration_specific` as far as the untile layer uses it. -/
structure layer_configuration_specific where
  feature_map_count : Nat
  dimension_sizes : List Nat
deriving DecidableEq

/-- How a call into `untile_layer` fails.
* `empty_level_list`: line 40;
* `zero_dimension_count`: line 44;
* `unequal_dimension_counts`: line 49;
* `dimension_count_mismatch`: lines 66 and 86, with the two counts of the message;
* `cannot_evenly_divide`: line 98;
* `zero_divisor`: not an exception, the `%` of line 95 evaluated with a zero divisor
  (undefined behaviour);
* `no_input_configuration`: not an exception, element 0 of an empty vector at line 65. -/
inductive untile_exception
  | empty_level_list
  | zero_dimension_count
  | unequal_dimension_counts
  | dimension_count_mismatch (layer_dimension_count configuration_dimension_count : Nat)
  | cannot_evenly_divide
  | zero_divisor
  | no_input_configuration
deriving DecidableEq

/-- The function `untile_layer::check`, lines 37-51; the sizes are cast to `unsigned int`. -/
def untile_layer.check (upsampling_sizes_list : List (List Nat)) : Except untile_exception Unit :=
  match upsampling_sizes_list with
  | [] => Except.error untile_exception.empty_level_list
  | front :: rest =>
      if front.length % uint_range = 0 then
        Except.error untile_exception.zero_dimension_count
      else if rest.all (fun upsampling_sizes =>
          decide (front.length % uint_range = upsampling_sizes.length % uint_range)) then
        Except.ok ()
      else Except.error untile_exception.unequal_dimension_counts

/-- Lines 73-74 for one level: `res.dimension_sizes[j] *= upsampling_sizes[j]` for every
`j` below the size of the level. (A level longer than the configuration indexes past the
end of `dimension_sizes`; `check()` and line 65 exclude it, the embedding stops there.) -/
def multiply_dimension_sizes : List Nat → List Nat → List Nat
  | d :: ds, u :: us => umul d u :: multiply_dimension_sizes ds us
  | ds, [] => ds
  | [], _ :: _ => []

/-- The function `untile_layer::get_output_layer_configuration_specific`, lines 63-78. -/
def untile_layer.get_output_layer_configuration_specific
    (upsampling_sizes_list : List (List Nat))
    (input_configuration_specific_list : List layer_configuration_specific) :
    Except untile_exception layer_configuration_specific :=
  match input_configuration_specific_list with
  | [] => Except.error untile_exception.no_input_configuration
  | c :: _ =>
      if c.dimension_sizes.length ≠ (upsampling_sizes_list.headD []).length then
        Except.error (untile_exception.dimension_count_mismatch
          (upsampling_sizes_list.headD []).length c.dimension_sizes.length)
      else
        Except.ok { c with
          dimension_sizes := upsampling_sizes_list.foldl multiply_dimension_sizes
            c.dimension_sizes }

/-- Lines 93-99 for one level: every dimension is divided by the upsampling size of the
level when the remainder is zero; the first dimension with a remainder throws. -/
def divide_dimension_sizes : List Nat → List Nat → Except untile_exception (List Nat)
  | d :: ds, u :: us =>
      if u = 0 then Except.error untile_exception.zero_divisor
      else if d % u = 0 then
        match divide_dimension_sizes ds us with
        | Except.error e => Except.error e
        | Except.ok rest => Except.ok (d / u :: rest)
      else Except.error untile_exception.cannot_evenly_divide
  | ds, [] => Except.ok ds
  | [], _ :: _ => Except.ok []

/-- Lines 90-100: the loop over the levels. -/
def divide_levels : List (List Nat) → List Nat → Except untile_exception (List Nat)
  | [], ds => Except.ok ds
  | upsampling_sizes :: rest, ds =>
      match divide_dimension_sizes ds upsampling_sizes with
      | Except.error e => Except.error e
      | Except.ok ds1 => divide_levels rest ds1

/-- The function `untile_layer::get_input_layer_configuration_specific`, lines 80-103; on
normal return (the value `true`) the result is the configuration written to
`input_configuration_specific`. -/
def untile_layer.get_input_layer_configuration_specific
    (upsampling_sizes_list : List (List Nat))
    (output_configuration_specific : layer_configuration_specific) :
    Except untile_exception layer_configuration_specific :=
  if output_configuration_specific.dimension_sizes.length
      ≠ (upsampling_sizes_list.headD []).length then
    Except.error (untile_exception.dimension_count_mismatch
      (upsampling_sizes_list.headD []).length
      output_configuration_specific.dimension_sizes.length)
  else
    match divide_levels upsampling_sizes_list output_configuration_specific.dimension_sizes with
    | Except.error e => Except.error e
    | Except.ok ds => Except.ok { output_configuration_specific with dimension_sizes := ds }

/-- The product over all levels of `upsampling_sizes[level][j]`, in exact arithmetic. -/
def upsampling_product (upsampling_sizes_list : List (List Nat)) (j : Nat) : Nat :=
  (upsampling_sizes_list.map (fun upsampling_sizes => upsampling_sizes.getD j 1)).prod

/-! ## Entry convolution, plain (`entry_convolution_layer_updater_plain.cpp`) -/

/-- Lines 81-88: the pairs of feature-map indices read for one output index, in the order
of the loop of line 91. The values are `int` in the source. -/
def forward_input_indices (input_feature_map_count output_index : Int) : List (Int × Int) :=
  let base_input_index1 : Int :=
    if output_index > input_feature_map_count - 1 then
      output_index - (input_feature_map_count - 1)
    else 0
  let base_input_index2 : Int :=
    if output_index > input_feature_map_count - 1 then input_feature_map_count - 1
    else output_index
  let iteration_count : Int :=
    min (input_feature_map_count - base_input_index1) (base_input_index2 + 1)
  (List.range iteration_count.toNat).map
    (fun (i : Nat) => (base_input_index1 + (i : Int), base_input_index2 - (i : Int)))

/-- Lines 90-94: the value stored for one output index. `in1 k` and `in2 k` stand for
`in_it_base1[k * neuron_count_per_feature_map]` and
`in_it_base2[k * neuron_count_per_feature_map]`, the feature-map vectors of the two paired
input entries at one neuron position; the `float` values are elements of a commutative
ring (exact arithmetic). -/
def forward_output {R : Type} [CommRing R] (input_feature_map_count output_index : Int)
    (in1 in2 : Int → R) : R :=
  (forward_input_indices input_feature_map_count output_index).foldl
    (fun sum p => sum + in1 p.1 * in2 p.2) 0


/-- Lines 147-158: the two sums computed for the input feature map `input_index_a`; the
first component is `sum1`, the second `sum2`. `err k` stands for
`out_it_err_base[k * neuron_count_per_feature_map]`. -/
def backward_sums {R : Type} [CommRing R] (input_feature_map_count input_index_a : Int)
    (in1 in2 err : Int → R) : R × R :=
  (List.range input_feature_map_count.toNat).foldl
    (fun sums (input_index_b : Nat) =>
      (sums.1 + in2 (input_index_b : Int) * err (input_index_a + (input_index_b : Int)),
       sums.2 + in1 (input_index_b : Int) * err (input_index_a + (input_index_b : Int))))
    (0, 0)

/-- Lines 160-169: the new contents of a destination element holding `previous`. -/
def backward_store {R : Type} [CommRing R] (add_update_to_destination : Bool)
    (previous sum : R) : R :=
  if add_update_to_destination then previous + sum else sum

/-- Lines 147-169 for the input feature map `input_index_a`: the new contents of
`in_it_err_base1[input_index_a * neuron_count_per_feature_map]` and of
`in_it_err_base2[input_index_a * neuron_count_per_feature_map]`. -/
def backward_errors {R : Type} [CommRing R] (add_update_to_destination : Bool)
    (input_feature_map_count input_index_a : Int) (in1 in2 err : Int → R)
    (previous1 previous2 : R) : R × R :=
  (backward_store add_update_to_destination previous1
      (backward_sums input_feature_map_count input_index_a in1 in2 err).1,
   backward_store add_update_to_destination previous2
      (backward_sums input_feature_map_count input_index_a in1 in2 err).2)

/-- The full discrete convolution sum: over all `(i, j)` with `i + j = o`, `i < F` and
`j < F`, of `a i * b j`. -/
def convolution_sum {R : Type} [CommRing R] (F o : Nat) (a b : Int → R) : R :=
  ∑ i in Finset.range F, ∑ j in Finset.range F,
    if i + j = o then a (i : Int) * b (j : Int) else 0

/-! ## Loop-head condition used in the proofs about whole runs -/

/-- Condition at the head of the control loop, for a reader of exactly `E` entries, a chunk
list `L` of total `B`, the worker holding `a` accumulated entries after `q` applications:
all entries read so far are accounted for, and either the pending chunk `j` was read in full
(reading phase) or the end of the data has been met (draining phase). -/
structure loop_head (L : List Nat) (B E base : Nat) (layer_name : String)
    (s : control_state) (a q : Nat) : Prop where
  not_initial : s.initial_iteration = false
  not_stopped : s.run_kernels_thread_stopped = false
  acc_eq : s.worker.gradient_accumulated_entry_count = a
  applied_eq : s.worker.gradient_applied_count = q
  no_error : s.worker.error_message = ""
  read_eq : s.base_entry_to_read_id = q * B + a + s.entry_to_process_count
  read_le : s.base_entry_to_read_id ≤ E
  ids_eq : iteration_ids layer_name s.trace = (List.range q).map (fun i => base + (i + 1))
  phase :
    (s.entry_not_read_encountered = false ∧
      ∃ j, j < L.length ∧ s.entry_to_process_count = L.getD j 0 ∧
        a = (L.take j).sum ∧ s.chunk_index = (j + 1) % L.length) ∨
    (s.entry_not_read_encountered = true ∧ s.base_entry_to_read_id = E ∧
      a + s.entry_to_process_count < B)

/-- Condition at the head of the control loop past its first iteration, for a reader of
exactly `E` entries and output tiling factor `t`: the worker runs, every entry read so far is
written, waiting to be written or waiting to be processed, the ids written so far are
`0, 1, ...` when `t` is 1, every command sent so far is non-zero, and either a chunk is
pending (reading phase) or the end of the data has been met (draining phase). -/
structure loop_io (L : List Nat) (E t : Nat) (s : control_state) : Prop where
  not_initial : s.initial_iteration = false
  not_stopped : s.run_kernels_thread_stopped = false
  no_error : s.worker.error_message = ""
  written : t = 1 → written_ids s.trace = List.range s.entry_processed_count
  commands_pos : ∀ n ∈ command_counts s.trace, 0 < n
  balance : s.entry_processed_count + s.entry_to_write_count + s.entry_to_process_count
    = s.base_entry_to_read_id
  read_le : s.base_entry_to_read_id ≤ E
  index_lt : s.chunk_index < L.length
  phase :
    (s.entry_not_read_encountered = false ∧ 0 < s.entry_to_process_count) ∨
    (s.entry_not_read_encountered = true ∧ s.base_entry_to_read_id = E)

/-! ## Chunk sizing: auxiliary facts -/

theorem usub_uadd_one (B M : Nat) (h1 : 1 ≤ B + M) (h : B + M - 1 < 2 ^ 32) :
    usub (uadd B M) 1 = B + M - 1 := by
  unfold usub uadd uint_range
  omega

theorem chunk_count_eq (B M : Nat) (h1 : 1 ≤ B + M) (h : B + M - 1 < 2 ^ 32) :
    chunk_count B M = (B + M - 1) / M := by
  unfold chunk_count
  rw [usub_uadd_one B M h1 h]

theorem chunk_count_mul_ge (B M : Nat) (hM : 1 ≤ M) (h : B + M - 1 < 2 ^ 32) :
    B ≤ chunk_count B M * M := by
  rw [chunk_count_eq B M (by omega) h]
  have h1 := Nat.div_add_mod (B + M - 1) M
  have h2 := Nat.mod_lt (B + M - 1) hM
  have h3 : M * ((B + M - 1) / M) = (B + M - 1) / M * M := Nat.mul_comm _ _
  omega

theorem chunk_count_pos (B M : Nat) (hB : 1 ≤ B) (hM : 1 ≤ M) (h : B + M - 1 < 2 ^ 32) :
    1 ≤ chunk_count B M := by
  have h1 := chunk_count_mul_ge B M hM h
  rcases Nat.eq_zero_or_pos (chunk_count B M) with h0 | h0
  · rw [h0] at h1
    omega
  · exact h0

theorem chunk_count_le (B M : Nat) (hM : 1 ≤ M) (h : B + M - 1 < 2 ^ 32) :
    chunk_count B M ≤ B := by
  rw [chunk_count_eq B M (by omega) h]
  have h1 : (B + M - 1) / M < B + 1 := by
    rw [Nat.div_lt_iff_lt_mul hM]
    have : B ≤ B * M := Nat.le_mul_of_pos_right B hM
    have h2 : (B + 1) * M = B * M + M := by ring
    omega
  omega

theorem chunk_count_ge_two (B M : Nat) (hM : 1 ≤ M) (hBM : M < B) (h : B + M - 1 < 2 ^ 32) :
    2 ≤ chunk_count B M := by
  have h1 := chunk_count_mul_ge B M hM h
  by_contra hc
  have h2 : chunk_count B M ≤ 1 := by omega
  have h3 : chunk_count B M * M ≤ 1 * M := Nat.mul_le_mul_right M h2
  omega

theorem chunk_min_size_le (B M : Nat) (hB : 1 ≤ B) (hM : 1 ≤ M) (h : B + M - 1 < 2 ^ 32) :
    chunk_min_size B M ≤ M := by
  unfold chunk_min_size
  have h1 := chunk_count_mul_ge B M hM h
  have h2 := chunk_count_pos B M hB hM h
  calc B / chunk_count B M ≤ (chunk_count B M * M) / chunk_count B M :=
        Nat.div_le_div_right h1
    _ = M := Nat.mul_div_cancel_left M h2

theorem chunk_min_size_pos (B M : Nat) (hB : 1 ≤ B) (hM : 1 ≤ M) (h : B + M - 1 < 2 ^ 32) :
    1 ≤ chunk_min_size B M := by
  unfold chunk_min_size
  have h1 := chunk_count_le B M hM h
  have h2 := chunk_count_pos B M hB hM h
  exact (Nat.one_le_div_iff h2).mpr h1

theorem chunk_min_size_succ_le (B M : Nat) (hM : 1 ≤ M)
    (h : B + M - 1 < 2 ^ 32) (hp : plus1_chunk_count B M ≠ 0) :
    chunk_min_size B M + 1 ≤ M := by
  have h1 := chunk_count_mul_ge B M hM h
  have h3 := Nat.div_add_mod B (chunk_count B M)
  unfold plus1_chunk_count at hp
  unfold chunk_min_size
  by_contra hc
  have h4 : M ≤ B / chunk_count B M := by omega
  have h5 : chunk_count B M * M ≤ chunk_count B M * (B / chunk_count B M) :=
    Nat.mul_le_mul_left _ h4
  omega

theorem plus1_chunk_count_lt (B M : Nat) (hB : 1 ≤ B) (hM : 1 ≤ M)
    (h : B + M - 1 < 2 ^ 32) : plus1_chunk_count B M < chunk_count B M :=
  Nat.mod_lt _ (chunk_count_pos B M hB hM h)

/-- Closed form of the two `fill_n` calls on the resized vector. -/
theorem fill_n_resize (cc p1 a b : Nat) (hp : p1 ≤ cc) :
    fill_n (fill_n (resize cc) 0 p1 a) p1 (cc - p1) b
      = List.replicate p1 a ++ List.replicate (cc - p1) b := by
  unfold fill_n resize
  have e : p1 + (cc - p1) = cc := by omega
  simp [List.take_append_eq_append_take, List.drop_append_eq_append_drop, e, hp]

/-- Closed form of the chunk list on the split path. -/
theorem entry_read_count_list_split (B M : Nat) (hM : 1 ≤ M) (hBM : M < B)
    (h : B + M - 1 < 2 ^ 32) :
    entry_read_count_list B M
      = List.replicate (plus1_chunk_count B M) (chunk_min_size B M + 1)
        ++ List.replicate (chunk_count B M - plus1_chunk_count B M) (chunk_min_size B M) := by
  have hB : 1 ≤ B := by omega
  have hlt := plus1_chunk_count_lt B M hB hM h
  have hle := chunk_min_size_le B M hB hM h
  have hu : uadd (chunk_min_size B M) 1 = chunk_min_size B M + 1 := by
    unfold uadd uint_range
    apply Nat.mod_eq_of_lt
    omega
  unfold entry_read_count_list
  rw [if_neg (by omega)]
  simp only []
  rw [fill_n_resize _ _ _ _ (le_of_lt hlt), hu]

theorem entry_read_count_list_single (B M : Nat) (hBM : B ≤ M) :
    entry_read_count_list B M = [B] := by
  unfold entry_read_count_list
  rw [if_pos hBM]

/-! ## Ceiling of a quotient -/

/-- The integer expression `(a + b - 1) / b` is the ceiling of the exact quotient. -/
theorem ceil_div_eq (a b : Nat) (hb : 0 < b) : ⌈(a : ℚ) / (b : ℚ)⌉₊ = (a + b - 1) / b := by
  have hbq : (0 : ℚ) < (b : ℚ) := by exact_mod_cast hb
  apply le_antisymm
  · rw [Nat.ceil_le, div_le_iff₀ hbq]
    have h1 := Nat.div_add_mod (a + b - 1) b
    have h2 := Nat.mod_lt (a + b - 1) hb
    have h3 : a ≤ (a + b - 1) / b * b := by
      have : b * ((a + b - 1) / b) = (a + b - 1) / b * b := Nat.mul_comm _ _
      omega
    exact_mod_cast h3
  · have h0 : (a : ℚ) / (b : ℚ) ≤ (⌈(a : ℚ) / (b : ℚ)⌉₊ : ℚ) := Nat.le_ceil _
    rw [div_le_iff₀ hbq] at h0
    have h1 : a ≤ ⌈(a : ℚ) / (b : ℚ)⌉₊ * b := by exact_mod_cast h0
    have h2 : (a + b - 1) / b < ⌈(a : ℚ) / (b : ℚ)⌉₊ + 1 := by
      rw [Nat.div_lt_iff_lt_mul hb]
      have : (⌈(a : ℚ) / (b : ℚ)⌉₊ + 1) * b = ⌈(a : ℚ) / (b : ℚ)⌉₊ * b + b := by ring
      omega
    omega

/-- Closed form of the quotient `(E + B - 1) / B` from a division with remainder. -/
theorem ceil_quot_of_decomp (E B q r : Nat) (hE : E = q * B + r) (hr : r < B) :
    (E + B - 1) / B = q + (if 0 < r then 1 else 0) := by
  have hB : 0 < B := by omega
  by_cases hr0 : 0 < r
  · rw [if_pos hr0]
    apply Nat.div_eq_of_lt_le
    · have : (q + 1) * B = q * B + B := by ring
      omega
    · have : (q + 1 + 1) * B = q * B + B + B := by ring
      omega
  · rw [if_neg hr0, Nat.add_zero]
    apply Nat.div_eq_of_lt_le
    · omega
    · have : (q + 1) * B = q * B + B := by ring
      omega

/-- On the split path the chunk sizes add up to the batch size. -/
theorem chunk_sizes_sum_split (B M : Nat) (hM : 1 ≤ M) (hlt : M < B)
    (h : B + M - 1 < 2 ^ 32) :
    (List.replicate (plus1_chunk_count B M) (chunk_min_size B M + 1)
      ++ List.replicate (chunk_count B M - plus1_chunk_count B M) (chunk_min_size B M)).sum
      = B := by
  have hp := plus1_chunk_count_lt B M (by omega) hM h
  have hd := Nat.div_add_mod B (chunk_count B M)
  simp only [List.sum_append, List.sum_replicate, smul_eq_mul]
  unfold plus1_chunk_count chunk_min_size at *
  generalize chunk_count B M = N at *
  generalize hq : B / N = q at *
  generalize hr : B % N = r at *
  have e1 : r * (q + 1) = r * q + r := by ring
  have e2 : (N - r) * q + r * q = N * q := by
    rw [← Nat.add_mul]
    congr 1
    omega
  omega

/-- The chunk sizes add up to the batch size. -/
theorem chunk_sizes_sum_aux (B M : Nat) (hM : 1 ≤ M) (h : B + M - 1 < 2 ^ 32) :
    (entry_read_count_list B M).sum = B := by
  by_cases hBM : B ≤ M
  · rw [entry_read_count_list_single B M hBM]
    simp
  · rw [entry_read_count_list_split B M hM (by omega) h]
    exact chunk_sizes_sum_split B M hM (by omega) h

/-- Every chunk holds at least one entry and at most `max_entry_count` entries. -/
theorem chunk_sizes_bounded_aux (B M : Nat) (hB : 1 ≤ B) (hM : 1 ≤ M)
    (h : B + M - 1 < 2 ^ 32) : ∀ x ∈ entry_read_count_list B M, 1 ≤ x ∧ x ≤ M := by
  intro x hx
  by_cases hBM : B ≤ M
  · rw [entry_read_count_list_single B M hBM] at hx
    simp only [List.mem_singleton] at hx
    omega
  · have hlt : M < B := by omega
    rw [entry_read_count_list_split B M hM hlt h] at hx
    have h1 := chunk_min_size_pos B M hB hM h
    have h2 := chunk_min_size_le B M hB hM h
    rcases List.mem_append.mp hx with hx1 | hx1
    · have hx2 := List.eq_of_mem_replicate hx1
      have hne : plus1_chunk_count B M ≠ 0 := by
        intro h0
        rw [h0] at hx1
        simp at hx1
      have h3 := chunk_min_size_succ_le B M hM h hne
      omega
    · have hx2 := List.eq_of_mem_replicate hx1
      omega

/-! ## Chunk sizing: the claims -/

/-- C1: for `batch_size` B >= 1 and `max_entry_count` M >= 1 with B + M < 2^32, the chunk
size list `entry_read_count_list` sums to exactly B, on the single-chunk path and on the
split path. -/
theorem C1_chunk_sizes_sum (B M : Nat) (_hB : 1 ≤ B) (hM : 1 ≤ M) (h : B + M < 2 ^ 32) :
    (entry_read_count_list B M).sum = B := by
  have hw : B + M - 1 < 2 ^ 32 := by omega
  by_cases hBM : B ≤ M
  · -- single-chunk path
    rw [entry_read_count_list_single B M hBM, List.sum_singleton]
  · -- split path
    have hlt : M < B := by omega
    rw [entry_read_count_list_split B M hM hlt hw]
    exact chunk_sizes_sum_split B M hM hlt hw

theorem C1_chunk_sizes_sum_witness :
    (entry_read_count_list 5 2).sum = 5 ∧ (entry_read_count_list 3 7).sum = 3 :=
  ⟨C1_chunk_sizes_sum 5 2 (by decide) (by decide) (by decide),
   C1_chunk_sizes_sum 3 7 (by decide) (by decide) (by decide)⟩

/-- C2: for B >= 1 and M >= 1 without unsigned wrap, every element of the chunk size list
is at least 1 and at most M; in particular floor(B/N) + 1 <= M whenever B mod N != 0,
with N = ceil(B/M) the chunk count. -/
theorem C2_chunk_sizes_bounded (B M : Nat) (hB : 1 ≤ B) (hM : 1 ≤ M)
    (h : B + M - 1 < 2 ^ 32) :
    (∀ x ∈ entry_read_count_list B M, 1 ≤ x ∧ x ≤ M) ∧
    (B % ⌈(B : ℚ) / (M : ℚ)⌉₊ ≠ 0 → B / ⌈(B : ℚ) / (M : ℚ)⌉₊ + 1 ≤ M) := by
  have hcc : ⌈(B : ℚ) / (M : ℚ)⌉₊ = chunk_count B M := by
    rw [ceil_div_eq B M hM, chunk_count_eq B M (by omega) h]
  constructor
  · exact chunk_sizes_bounded_aux B M hB hM h
  · rw [hcc]
    intro hne
    exact chunk_min_size_succ_le B M hM h hne

theorem C2_chunk_sizes_bounded_witness :
    (∀ x ∈ entry_read_count_list 5 2, 1 ≤ x ∧ x ≤ 2) ∧
    (5 % ⌈((5 : Nat) : ℚ) / ((2 : Nat) : ℚ)⌉₊ ≠ 0 →
      5 / ⌈((5 : Nat) : ℚ) / ((2 : Nat) : ℚ)⌉₊ + 1 ≤ 2) :=
  C2_chunk_sizes_bounded 5 2 (by decide) (by decide) (by decide)

/-- C3: for B >= 1 and M >= 1 without unsigned wrap, the number of chunks in
`entry_read_count_list` equals ceil(B / M): one chunk when B <= M, and (B + M - 1) / M
chunks otherwise. -/
theorem C3_chunk_count_is_ceil (B M : Nat) (hB : 1 ≤ B) (hM : 1 ≤ M)
    (h : B + M - 1 < 2 ^ 32) :
    (entry_read_count_list B M).length = ⌈(B : ℚ) / (M : ℚ)⌉₊ ∧
    (B ≤ M → (entry_read_count_list B M).length = 1) ∧
    (M < B → (entry_read_count_list B M).length = (B + M - 1) / M) := by
  have hsplit : M < B → (entry_read_count_list B M).length = (B + M - 1) / M := by
    intro hlt
    rw [entry_read_count_list_split B M hM hlt h]
    have hp := plus1_chunk_count_lt B M hB hM h
    rw [List.length_append, List.length_replicate, List.length_replicate,
      ← chunk_count_eq B M (by omega) h]
    omega
  have hsingle : B ≤ M → (entry_read_count_list B M).length = 1 := by
    intro hBM
    rw [entry_read_count_list_single B M hBM]
    rfl
  refine ⟨?_, hsingle, hsplit⟩
  rw [ceil_div_eq B M hM]
  by_cases hBM : B ≤ M
  · rw [hsingle hBM]
    symm
    apply Nat.div_eq_of_lt_le <;> omega
  · exact hsplit (by omega)

theorem C3_chunk_count_is_ceil_witness :
    (entry_read_count_list 5 2).length = 3 ∧
    (entry_read_count_list 5 2).length = ⌈((5 : Nat) : ℚ) / ((2 : Nat) : ℚ)⌉₊ ∧
    (5 ≤ 2 → (entry_read_count_list 5 2).length = 1) ∧
    (2 < 5 → (entry_read_count_list 5 2).length = (5 + 2 - 1) / 2) :=
  ⟨by decide, C3_chunk_count_is_ceil 5 2 (by decide) (by decide) (by decide)⟩

/-- C4: for B >= 1 and M >= 1 without unsigned wrap, with N the chunk count, the first
(B mod N) chunks have size floor(B/N) + 1 and the remaining N - (B mod N) chunks have size
floor(B/N); hence any two elements of the chunk size list differ by at most 1. -/
theorem C4_chunk_sizes_near_equal (B M : Nat) (hB : 1 ≤ B) (hM : 1 ≤ M)
    (h : B + M - 1 < 2 ^ 32) :
    entry_read_count_list B M
      = List.replicate (B % (entry_read_count_list B M).length)
          (B / (entry_read_count_list B M).length + 1)
        ++ List.replicate
          ((entry_read_count_list B M).length - B % (entry_read_count_list B M).length)
          (B / (entry_read_count_list B M).length) ∧
    (∀ x ∈ entry_read_count_list B M, ∀ y ∈ entry_read_count_list B M, x ≤ y + 1) := by
  by_cases hBM : B ≤ M
  · rw [entry_read_count_list_single B M hBM]
    constructor
    · simp [Nat.mod_one]
    · intro x hx y hy
      simp only [List.mem_singleton] at hx hy
      omega
  · have hlt : M < B := by omega
    have hlen : (entry_read_count_list B M).length = chunk_count B M := by
      rw [entry_read_count_list_split B M hM hlt h]
      have hp := plus1_chunk_count_lt B M hB hM h
      rw [List.length_append, List.length_replicate, List.length_replicate]
      omega
    rw [hlen]
    have hs := entry_read_count_list_split B M hM hlt h
    unfold plus1_chunk_count chunk_min_size at hs
    refine ⟨hs, ?_⟩
    intro x hx y hy
    rw [hs] at hx hy
    have hx1 : x = B / chunk_count B M + 1 ∨ x = B / chunk_count B M := by
      rcases List.mem_append.mp hx with hx1 | hx1
      · exact Or.inl (List.eq_of_mem_replicate hx1)
      · exact Or.inr (List.eq_of_mem_replicate hx1)
    have hy1 : y = B / chunk_count B M + 1 ∨ y = B / chunk_count B M := by
      rcases List.mem_append.mp hy with hy1 | hy1
      · exact Or.inl (List.eq_of_mem_replicate hy1)
      · exact Or.inr (List.eq_of_mem_replicate hy1)
    omega

theorem C4_chunk_sizes_near_equal_witness :
    entry_read_count_list 5 2 = [2, 2, 1] ∧
    entry_read_count_list 5 2
      = List.replicate (5 % (entry_read_count_list 5 2).length)
          (5 / (entry_read_count_list 5 2).length + 1)
        ++ List.replicate
          ((entry_read_count_list 5 2).length - 5 % (entry_read_count_list 5 2).length)
          (5 / (entry_read_count_list 5 2).length) ∧
    (∀ x ∈ entry_read_count_list 5 2, ∀ y ∈ entry_read_count_list 5 2, x ≤ y + 1) :=
  ⟨by decide, C4_chunk_sizes_near_equal 5 2 (by decide) (by decide) (by decide)⟩

/-! ## Gradient accumulator: the claims -/

theorem uadd_eq (a b : Nat) (h : a + b < 2 ^ 32) : uadd a b = a + b := by
  unfold uadd uint_range
  exact Nat.mod_eq_of_lt h

/-- The step when the accumulated count reaches the batch size. -/
theorem accumulate_full (B acc applied n : Nat) (h : acc + n < 2 ^ 32)
    (happ : applied + 1 < 2 ^ 32) (hB : B ≤ acc + n) :
    accumulate B acc applied n
      = { gradient_accumulated_entry_count := 0
          gradient_normalizer := normalizer.reciprocal (acc + n)
          apply_gradient := true
          gradient_applied_count := applied + 1 } := by
  unfold accumulate
  simp only [uadd_eq acc n h, uadd_eq applied 1 happ, if_pos hB, if_true]

/-- The flush step: a zero-count command while entries remain accumulated. -/
theorem accumulate_flush (B acc applied : Nat) (h : acc < 2 ^ 32)
    (happ : applied + 1 < 2 ^ 32) (hB : acc < B) (hpos : 0 < acc) :
    accumulate B acc applied 0
      = { gradient_accumulated_entry_count := 0
          gradient_normalizer := normalizer.reciprocal B
          apply_gradient := true
          gradient_applied_count := applied + 1 } := by
  unfold accumulate
  have h1 : ¬ B ≤ acc := by omega
  simp only [uadd_eq acc 0 h, uadd_eq applied 1 happ, Nat.add_zero, if_neg h1, hpos,
    and_self, if_true]

/-- The step that keeps accumulating. -/
theorem accumulate_keep (B acc applied n : Nat) (h : acc + n < 2 ^ 32)
    (hB : acc + n < B) (hn : n ≠ 0 ∨ acc = 0) :
    accumulate B acc applied n
      = { gradient_accumulated_entry_count := acc + n
          gradient_normalizer := normalizer.zero
          apply_gradient := false
          gradient_applied_count := applied } := by
  unfold accumulate
  have h1 : ¬ B ≤ acc + n := by omega
  have h2 : ¬ (n = 0 ∧ 0 < acc + n) := by omega
  simp only [uadd_eq acc n h, if_neg h1, if_neg h2, Bool.false_eq_true, if_false]

/-- C5: the step rule of lines 483-500. On a command of n entries the counter becomes
acc' = acc + n; the optimizer is applied iff acc' >= batch_size, or n == 0 and acc' > 0;
when acc' >= batch_size the normalizer is 1/acc', in the flush case it is 1/batch_size; when
applied, the counter is reset to 0 and `gradient_applied_count` grows by exactly 1, otherwise
the counter stays acc' and `gradient_applied_count` is unchanged. -/
theorem C5_accumulator_step (batch_size acc applied n : Nat) (h : acc + n < 2 ^ 32)
    (happ : applied + 1 < 2 ^ 32) :
    ((accumulate batch_size acc applied n).apply_gradient = true ↔
      (batch_size ≤ acc + n ∨ (n = 0 ∧ 0 < acc + n))) ∧
    (batch_size ≤ acc + n →
      (accumulate batch_size acc applied n).gradient_normalizer
        = normalizer.reciprocal (acc + n) ∧
      (accumulate batch_size acc applied n).gradient_normalizer.value
        = 1 / ((acc + n : Nat) : ℚ)) ∧
    (acc + n < batch_size → n = 0 → 0 < acc + n →
      (accumulate batch_size acc applied n).gradient_normalizer
        = normalizer.reciprocal batch_size ∧
      (accumulate batch_size acc applied n).gradient_normalizer.value
        = 1 / (batch_size : ℚ)) ∧
    ((accumulate batch_size acc applied n).apply_gradient = true →
      (accumulate batch_size acc applied n).gradient_accumulated_entry_count = 0 ∧
      (accumulate batch_size acc applied n).gradient_applied_count = applied + 1) ∧
    ((accumulate batch_size acc applied n).apply_gradient = false →
      (accumulate batch_size acc applied n).gradient_accumulated_entry_count = acc + n ∧
      (accumulate batch_size acc applied n).gradient_applied_count = applied) := by
  by_cases hB : batch_size ≤ acc + n
  · rw [accumulate_full batch_size acc applied n h happ hB]
    simp [hB, normalizer.value]
  · by_cases hf : n = 0 ∧ 0 < acc + n
    · obtain ⟨hn, hpos⟩ := hf
      subst hn
      rw [accumulate_flush batch_size acc applied (by omega) happ (by omega) (by omega)]
      simp [hB, hpos, normalizer.value]
      omega
    · rw [accumulate_keep batch_size acc applied n h (by omega) (by omega)]
      simp [hB, hf]
      omega

theorem C5_accumulator_step_witness :
    ((accumulate 10 7 4 3).apply_gradient = true ↔ (10 ≤ 7 + 3 ∨ (3 = 0 ∧ 0 < 7 + 3))) ∧
    (10 ≤ 7 + 3 →
      (accumulate 10 7 4 3).gradient_normalizer = normalizer.reciprocal (7 + 3) ∧
      (accumulate 10 7 4 3).gradient_normalizer.value = 1 / ((7 + 3 : Nat) : ℚ)) ∧
    (7 + 3 < 10 → 3 = 0 → 0 < 7 + 3 →
      (accumulate 10 7 4 3).gradient_normalizer = normalizer.reciprocal 10 ∧
      (accumulate 10 7 4 3).gradient_normalizer.value = 1 / ((10 : Nat) : ℚ)) ∧
    ((accumulate 10 7 4 3).apply_gradient = true →
      (accumulate 10 7 4 3).gradient_accumulated_entry_count = 0 ∧
      (accumulate 10 7 4 3).gradient_applied_count = 4 + 1) ∧
    ((accumulate 10 7 4 3).apply_gradient = false →
      (accumulate 10 7 4 3).gradient_accumulated_entry_count = 7 + 3 ∧
      (accumulate 10 7 4 3).gradient_applied_count = 4) :=
  C5_accumulator_step 10 7 4 3 (by decide) (by decide)

theorem run_kernels_steps_cons (B acc applied n : Nat) (rest : List Nat) (hn : n ≠ 0) :
    run_kernels_steps B acc applied (n :: rest)
      = accumulate B acc applied n
          :: run_kernels_steps B (accumulate B acc applied n).gradient_accumulated_entry_count
              (accumulate B acc applied n).gradient_applied_count rest := by
  rw [run_kernels_steps]
  simp only [if_neg hn]

theorem run_kernels_steps_zero (B acc applied : Nat) (rest : List Nat) :
    run_kernels_steps B acc applied (0 :: rest) = [accumulate B acc applied 0] := by
  rw [run_kernels_steps]
  simp only [if_true]

/-- Commands that fill the batch exactly: no application before the last one, which applies
with normalizer `1 / batch_size`; the worker goes on from a counter of 0. -/
theorem run_kernels_steps_full (B : Nat) (hB : B < 2 ^ 32) :
    ∀ (ns : List Nat) (acc applied : Nat) (rest : List Nat),
      (∀ n ∈ ns, 0 < n) → ns ≠ [] → acc + ns.sum = B → applied + 1 < 2 ^ 32 →
      ∃ pre : List gradient_step,
        run_kernels_steps B acc applied (ns ++ rest)
          = pre ++ { gradient_accumulated_entry_count := 0
                     gradient_normalizer := normalizer.reciprocal B
                     apply_gradient := true
                     gradient_applied_count := applied + 1 }
              :: run_kernels_steps B 0 (applied + 1) rest ∧
        pre.length + 1 = ns.length ∧
        ∀ g ∈ pre, g.apply_gradient = false := by
  intro ns
  induction ns with
  | nil => intro acc applied rest _ hne; exact absurd rfl hne
  | cons n ns ih =>
    intro acc applied rest hpos _ hsum happ
    have hn : 0 < n := hpos n (List.mem_cons_self _ _)
    have hn0 : n ≠ 0 := by omega
    rw [List.sum_cons] at hsum
    by_cases hns : ns = []
    · subst hns
      simp only [List.sum_nil, Nat.add_zero] at hsum
      refine ⟨[], ?_, rfl, ?_⟩
      · rw [List.cons_append, List.nil_append, run_kernels_steps_cons B acc applied n rest hn0,
          accumulate_full B acc applied n (by omega) happ (by omega), hsum]
        rfl
      · intro g hg
        simp at hg
    · have hpos1 : ∀ m ∈ ns, 0 < m := fun m hm => hpos m (List.mem_cons_of_mem _ hm)
      have hsum_pos : 0 < ns.sum := by
        cases ns with
        | nil => exact absurd rfl hns
        | cons m ms =>
          have := hpos1 m (List.mem_cons_self _ _)
          rw [List.sum_cons]
          omega
      obtain ⟨pre, hpre, hlen, hall⟩ :=
        ih (acc + n) applied rest hpos1 hns (by omega) happ
      refine ⟨{ gradient_accumulated_entry_count := acc + n
                gradient_normalizer := normalizer.zero
                apply_gradient := false
                gradient_applied_count := applied } :: pre, ?_, ?_, ?_⟩
      · rw [List.cons_append, run_kernels_steps_cons B acc applied n _ hn0,
          accumulate_keep B acc applied n (by omega) (by omega) (Or.inl hn0)]
        simp only []
        rw [hpre]
        rfl
      · simp only [List.length_cons]
        omega
      · intro g hg
        rcases List.mem_cons.mp hg with hg1 | hg1
        · rw [hg1]
        · exact hall g hg1

/-- Commands that leave the batch incomplete, followed by the zero-count command: one
application, at the zero-count command, with normalizer `1 / batch_size`. -/
theorem run_kernels_steps_partial (B : Nat) (hB : B < 2 ^ 32) :
    ∀ (ns : List Nat) (acc applied : Nat),
      (∀ n ∈ ns, 0 < n) → 0 < acc + ns.sum → acc + ns.sum < B → applied + 1 < 2 ^ 32 →
      ∃ pre : List gradient_step,
        run_kernels_steps B acc applied (ns ++ [0])
          = pre ++ [{ gradient_accumulated_entry_count := 0
                      gradient_normalizer := normalizer.reciprocal B
                      apply_gradient := true
                      gradient_applied_count := applied + 1 }] ∧
        pre.length = ns.length ∧
        ∀ g ∈ pre, g.apply_gradient = false := by
  intro ns
  induction ns with
  | nil =>
    intro acc applied _ hpos hsum happ
    simp only [List.sum_nil, Nat.add_zero] at hpos hsum
    refine ⟨[], ?_, rfl, ?_⟩
    · rw [List.nil_append, run_kernels_steps_zero,
        accumulate_flush B acc applied (by omega) happ hsum hpos]
      rfl
    · intro g hg
      simp at hg
  | cons n ns ih =>
    intro acc applied hpos hsum_pos hsum happ
    have hn : 0 < n := hpos n (List.mem_cons_self _ _)
    have hn0 : n ≠ 0 := by omega
    rw [List.sum_cons] at hsum hsum_pos
    have hpos1 : ∀ m ∈ ns, 0 < m := fun m hm => hpos m (List.mem_cons_of_mem _ hm)
    obtain ⟨pre, hpre, hlen, hall⟩ := ih (acc + n) applied hpos1 (by omega) (by omega) happ
    refine ⟨{ gradient_accumulated_entry_count := acc + n
              gradient_normalizer := normalizer.zero
              apply_gradient := false
              gradient_applied_count := applied } :: pre, ?_, ?_, ?_⟩
    · rw [List.cons_append, run_kernels_steps_cons B acc applied n _ hn0,
        accumulate_keep B acc applied n (by omega) (by omega) (Or.inl hn0)]
      simp only []
      rw [hpre]
      rfl
    · simp only [List.length_cons]
      omega
    · intro g hg
      rcases List.mem_cons.mp hg with hg1 | hg1
      · rw [hg1]
      · exact hall g hg1

/-- C6: starting from an accumulated count of 0, for positive command counts n1..nk whose
sum is exactly `batch_size`, the optimizer is not applied at the first k-1 commands and is
applied once, at the k-th, with normalizer 1/batch_size; the counter is then 0 and a following
zero-count command applies nothing more. -/
theorem C6_full_batch_applies_once (batch_size applied : Nat) (ns : List Nat)
    (hB : batch_size < 2 ^ 32) (happ : applied + 1 < 2 ^ 32)
    (hpos : ∀ n ∈ ns, 0 < n) (hne : ns ≠ []) (hsum : ns.sum = batch_size) :
    ∃ pre : List gradient_step,
      run_kernels_steps batch_size 0 applied (ns ++ [0])
        = pre ++ [{ gradient_accumulated_entry_count := 0
                    gradient_normalizer := normalizer.reciprocal batch_size
                    apply_gradient := true
                    gradient_applied_count := applied + 1 },
                  { gradient_accumulated_entry_count := 0
                    gradient_normalizer := normalizer.zero
                    apply_gradient := false
                    gradient_applied_count := applied + 1 }] ∧
      pre.length + 1 = ns.length ∧
      (∀ g ∈ pre, g.apply_gradient = false) ∧
      (normalizer.reciprocal batch_size).value = 1 / (batch_size : ℚ) := by
  obtain ⟨pre, hpre, hlen, hall⟩ :=
    run_kernels_steps_full batch_size hB ns 0 applied [0] hpos hne (by omega) happ
  refine ⟨pre, ?_, hlen, hall, rfl⟩
  rw [hpre]
  have hpos_B : 0 < batch_size := by
    cases ns with
    | nil => exact absurd rfl hne
    | cons m ms =>
      have := hpos m (List.mem_cons_self _ _)
      rw [List.sum_cons] at hsum
      omega
  rw [run_kernels_steps_zero,
    accumulate_keep batch_size 0 (applied + 1) 0 (by omega) (by omega) (Or.inr rfl)]

theorem C6_full_batch_applies_once_witness :
    ∃ pre : List gradient_step,
      run_kernels_steps 10 0 0 ([4, 4, 2] ++ [0])
        = pre ++ [{ gradient_accumulated_entry_count := 0
                    gradient_normalizer := normalizer.reciprocal 10
                    apply_gradient := true
                    gradient_applied_count := 0 + 1 },
                  { gradient_accumulated_entry_count := 0
                    gradient_normalizer := normalizer.zero
                    apply_gradient := false
                    gradient_applied_count := 0 + 1 }] ∧
      pre.length + 1 = [4, 4, 2].length ∧
      (∀ g ∈ pre, g.apply_gradient = false) ∧
      (normalizer.reciprocal 10).value = 1 / ((10 : Nat) : ℚ) :=
  C6_full_batch_applies_once 10 0 [4, 4, 2] (by decide) (by decide) (by decide) (by decide)
    (by decide)

/-- C7, as the code has it: starting from an accumulated count of 0, for positive command
counts with sum r, 0 < r < batch_size, followed by the zero-count command, the optimizer is
applied exactly once, at the zero-count command, and the normalizer it uses is
1/batch_size. -/
theorem C7_partial_batch_flush (batch_size applied : Nat) (ns : List Nat)
    (hB : batch_size < 2 ^ 32) (happ : applied + 1 < 2 ^ 32)
    (hpos : ∀ n ∈ ns, 0 < n) (hr : 0 < ns.sum) (hsum : ns.sum < batch_size) :
    ∃ pre : List gradient_step,
      run_kernels_steps batch_size 0 applied (ns ++ [0])
        = pre ++ [{ gradient_accumulated_entry_count := 0
                    gradient_normalizer := normalizer.reciprocal batch_size
                    apply_gradient := true
                    gradient_applied_count := applied + 1 }] ∧
      pre.length = ns.length ∧
      (∀ g ∈ pre, g.apply_gradient = false) ∧
      (normalizer.reciprocal batch_size).value = 1 / (batch_size : ℚ) := by
  obtain ⟨pre, hpre, hlen, hall⟩ :=
    run_kernels_steps_partial batch_size hB ns 0 applied hpos (by omega) (by omega) happ
  exact ⟨pre, hpre, hlen, hall, rfl⟩

theorem C7_partial_batch_flush_witness :
    ∃ pre : List gradient_step,
      run_kernels_steps 10 0 0 ([2, 1] ++ [0])
        = pre ++ [{ gradient_accumulated_entry_count := 0
                    gradient_normalizer := normalizer.reciprocal 10
                    apply_gradient := true
                    gradient_applied_count := 0 + 1 }] ∧
      pre.length = [2, 1].length ∧
      (∀ g ∈ pre, g.apply_gradient = false) ∧
      (normalizer.reciprocal 10).value = 1 / ((10 : Nat) : ℚ) :=
  C7_partial_batch_flush 10 0 [2, 1] (by decide) (by decide) (by decide) (by decide)
    (by decide)

/-- C7 as stated fails: with batch_size = 10 and a single command of 3 entries followed by
the zero-count command, the flush uses the normalizer 1/10, not 1/3. -/
theorem C7_counterexample :
    run_kernels_steps 10 0 0 [3, 0]
      = [{ gradient_accumulated_entry_count := 3
           gradient_normalizer := normalizer.zero
           apply_gradient := false
           gradient_applied_count := 0 },
         { gradient_accumulated_entry_count := 0
           gradient_normalizer := normalizer.reciprocal 10
           apply_gradient := true
           gradient_applied_count := 1 }] ∧
    (normalizer.reciprocal 10).value ≠ 1 / (3 : ℚ) := by
  refine ⟨by decide, ?_⟩
  simp only [normalizer.value]
  norm_num

/-! ## Adam iteration counter: the claims -/

/-- The value computed on the Adam branch when nothing wraps. -/
theorem base_iteration_count_adam (epoch_id B C : Nat) (hB : 1 ≤ B)
    (hw : C + B - 1 < 2 ^ 32) (hm : epoch_id * ((C + B - 1) / B) < 2 ^ 32) :
    base_iteration_count training_momentum_type.adam_momentum epoch_id B (C : Int)
      = Except.ok (epoch_id * ((C + B - 1) / B)) := by
  unfold base_iteration_count
  have h0 : (0 : Int) ≤ (C : Int) := Int.ofNat_nonneg C
  rw [if_pos rfl, if_pos h0, Int.toNat_ofNat, usub_uadd_one C B (by omega) hw]
  unfold umul uint_range
  rw [Nat.mod_eq_of_lt hm]

/-- C8: with momentum type `adam_momentum` and a reported entry count C >= 0, `actual_run`
computes `base_iteration_count = epoch_id * ceil(C / batch_size)` (no overflow); for any
other momentum type `base_iteration_count` is 0. -/
theorem C8_base_iteration_count (momentum : training_momentum_type)
    (epoch_id batch_size C : Nat) (epoch_entry_count : Int) :
    (momentum = training_momentum_type.adam_momentum → 1 ≤ batch_size →
      C + batch_size - 1 < 2 ^ 32 →
      epoch_id * ⌈(C : ℚ) / (batch_size : ℚ)⌉₊ < 2 ^ 32 →
      base_iteration_count momentum epoch_id batch_size (C : Int)
        = Except.ok (epoch_id * ⌈(C : ℚ) / (batch_size : ℚ)⌉₊)) ∧
    (momentum ≠ training_momentum_type.adam_momentum →
      base_iteration_count momentum epoch_id batch_size epoch_entry_count = Except.ok 0) := by
  constructor
  · intro hm hB hw hmul
    rw [ceil_div_eq C batch_size hB] at hmul ⊢
    rw [hm]
    exact base_iteration_count_adam epoch_id batch_size C hB hw hmul
  · intro hm
    unfold base_iteration_count
    rw [if_neg hm]

theorem C8_base_iteration_count_witness :
    base_iteration_count training_momentum_type.adam_momentum 2 32 ((100 : Nat) : Int)
      = Except.ok 8 ∧
    base_iteration_count training_momentum_type.adam_momentum 2 32 ((100 : Nat) : Int)
      = Except.ok (2 * ⌈((100 : Nat) : ℚ) / ((32 : Nat) : ℚ)⌉₊) ∧
    base_iteration_count training_momentum_type.nesterov_momentum 2 32 (-1) = Except.ok 0 :=
  ⟨rfl,
   (C8_base_iteration_count training_momentum_type.adam_momentum 2 32 100 0).1 rfl
     (by decide) (by decide)
     (by rw [ceil_div_eq 100 32 (by decide)]; decide),
   (C8_base_iteration_count training_momentum_type.nesterov_momentum 2 32 0 (-1)).2
     (by decide)⟩

/-! ## Errors raised before the loop: the claims -/

/-- The control loop only throws `neural_network_exception(params.error_message)`. -/
theorem actual_run_iteration_throw (cfg : run_config) (chunks : List Nat) (base : Nat)
    (reader : structured_data_bunch_reader) (s s1 : control_state) (e : run_exception)
    (h : actual_run_iteration cfg chunks base reader s = (s1, loop_control.throw e)) :
    ∃ m, e = run_exception.message m := by
  unfold actual_run_iteration at h
  simp only [] at h
  split at h
  · simp only [Prod.mk.injEq, loop_control.throw.injEq] at h
    exact ⟨_, h.2.symm⟩
  · split at h
    · simp only [Prod.mk.injEq, loop_control.throw.injEq] at h
      exact ⟨_, h.2.symm⟩
    · simp only [Prod.mk.injEq] at h
      obtain ⟨_, h2⟩ := h
      split at h2
      · exact loop_control.noConfusion h2
      · exact loop_control.noConfusion h2

theorem actual_run_loop_throw (cfg : run_config) (chunks : List Nat) (base : Nat)
    (reader : structured_data_bunch_reader) :
    ∀ (fuel : Nat) (s s1 : control_state) (e : run_exception),
      actual_run_loop cfg chunks base reader fuel s = some (s1, some e) →
      ∃ m, e = run_exception.message m := by
  intro fuel
  induction fuel with
  | zero => intro s s1 e h; simp [actual_run_loop] at h
  | succ fuel ih =>
    intro s s1 e h
    rw [actual_run_loop] at h
    split at h
    · exact ih _ _ _ h
    · simp at h
    · rename_i s2 e2 heq
      simp only [Option.some.injEq, Prod.mk.injEq] at h
      obtain ⟨m, hm⟩ := actual_run_iteration_throw cfg chunks base reader s s2 e2 heq
      exact ⟨m, by rw [← h.2, hm]⟩

/-- What `actual_run` does when line 248 is reached with an unknown entry count. -/
theorem actual_run_entry_count_unknown (cfg : run_config)
    (reader : structured_data_bunch_reader) (fuel : Nat) (hM : 1 ≤ cfg.max_entry_count)
    (hm : cfg.momentum = training_momentum_type.adam_momentum)
    (hc : reader.get_entry_count < 0) :
    actual_run cfg reader fuel
      = some ([], Except.error run_exception.entry_count_not_reported) := by
  unfold actual_run base_iteration_count
  have h1 : ¬ cfg.max_entry_count = 0 := by omega
  have h2 : ¬ (0 : Int) ≤ reader.get_entry_count := by omega
  simp only [if_neg h1, hm, if_true, if_neg h2]

/-- If `actual_run` ends with the exception of line 248, the condition of that line held and
nothing had been done before. -/
theorem actual_run_entry_count_unknown_only (cfg : run_config)
    (reader : structured_data_bunch_reader) (fuel : Nat) (tr : List event)
    (h : actual_run cfg reader fuel
      = some (tr, Except.error run_exception.entry_count_not_reported)) :
    cfg.momentum = training_momentum_type.adam_momentum ∧ reader.get_entry_count < 0 ∧
      tr = [] := by
  unfold actual_run at h
  split at h
  · simp at h
  · simp only [] at h
    split at h
    · rename_i e heq
      simp only [Option.some.injEq, Prod.mk.injEq, Except.error.injEq] at h
      unfold base_iteration_count at heq
      split at heq
      · rename_i hm
        split at heq
        · simp at heq
        · rename_i hneg
          exact ⟨hm, by omega, h.1.symm⟩
      · simp at heq
    · split at h
      · simp at h
      · rename_i s e heq
        simp only [Option.some.injEq, Prod.mk.injEq, Except.error.injEq] at h
        obtain ⟨m, hm⟩ := actual_run_loop_throw _ _ _ _ _ _ _ _ heq
        rw [hm] at h
        exact absurd h.2 (by simp)
      · split at h
        · simp at h
        · split at h
          · simp at h
          · simp at h

/-- C9, as the code has it: once the insufficient-memory check has passed
(`max_entry_count >= 1`), `actual_run` raises the reader-configuration error if and only if
the momentum type is `adam_momentum` and `reader.get_entry_count()` is negative; when it is
raised, no event has taken place: the worker is not started and nothing is read, dispatched
or written. -/
theorem C9_reader_configuration_error (cfg : run_config)
    (reader : structured_data_bunch_reader) (fuel : Nat) (hM : 1 ≤ cfg.max_entry_count) :
    ((∃ tr, actual_run cfg reader fuel
        = some (tr, Except.error run_exception.entry_count_not_reported)) ↔
      (cfg.momentum = training_momentum_type.adam_momentum ∧ reader.get_entry_count < 0)) ∧
    (∀ tr, actual_run cfg reader fuel
        = some (tr, Except.error run_exception.entry_count_not_reported) → tr = []) := by
  constructor
  · constructor
    · rintro ⟨tr, h⟩
      have := actual_run_entry_count_unknown_only cfg reader fuel tr h
      exact ⟨this.1, this.2.1⟩
    · rintro ⟨hm, hc⟩
      exact ⟨[], actual_run_entry_count_unknown cfg reader fuel hM hm hc⟩
  · intro tr h
    exact (actual_run_entry_count_unknown_only cfg reader fuel tr h).2.2

/-- C9 as stated fails: with `max_entry_count = 0`, Adam momentum and a reader that reports
no entry count, `actual_run` raises the insufficient-memory error of line 188, not the
reader-configuration error. -/
theorem C9_counterexample :
    actual_run
        { batch_size := 4, max_entry_count := 0
          momentum := training_momentum_type.adam_momentum
          epoch_id := 0, output_layers_tiling_factor := 1
          actions_in_execution_order := [], update_accum_layers := [] }
        { read := fun _ => read_result.entry_read false, get_entry_count := -1 } 1
      = some ([], Except.error run_exception.insufficient_memory) ∧
    run_exception.insufficient_memory ≠ run_exception.entry_count_not_reported := by
  constructor
  · rfl
  · decide

theorem C9_reader_configuration_error_witness :
    ((∃ tr, actual_run
        { batch_size := 4, max_entry_count := 2
          momentum := training_momentum_type.adam_momentum
          epoch_id := 0, output_layers_tiling_factor := 1
          actions_in_execution_order := [], update_accum_layers := [] }
        { read := fun _ => read_result.entry_read false, get_entry_count := -1 } 1
        = some (tr, Except.error run_exception.entry_count_not_reported)) ↔
      (training_momentum_type.adam_momentum = training_momentum_type.adam_momentum ∧
        (-1 : Int) < 0)) ∧
    (∀ tr, actual_run
        { batch_size := 4, max_entry_count := 2
          momentum := training_momentum_type.adam_momentum
          epoch_id := 0, output_layers_tiling_factor := 1
          actions_in_execution_order := [], update_accum_layers := [] }
        { read := fun _ => read_result.entry_read false, get_entry_count := -1 } 1
        = some (tr, Except.error run_exception.entry_count_not_reported) → tr = []) :=
  C9_reader_configuration_error
    { batch_size := 4, max_entry_count := 2
      momentum := training_momentum_type.adam_momentum
      epoch_id := 0, output_layers_tiling_factor := 1
      actions_in_execution_order := [], update_accum_layers := [] }
    { read := fun _ => read_result.entry_read false, get_entry_count := -1 } 1 (by decide)

/-! ## Whole runs: auxiliary facts -/

theorem sum_take_succ_getD : ∀ (L : List Nat) (j : Nat), j < L.length →
    (L.take (j + 1)).sum = (L.take j).sum + L.getD j 0 := by
  intro L
  induction L with
  | nil => intro j h; simp at h
  | cons x xs ih =>
    intro j h
    cases j with
    | zero => simp
    | succ j =>
      have h1 : j < xs.length := by simpa using h
      have := ih j h1
      simp only [List.take_succ_cons, List.sum_cons, List.getD_cons_succ] at this ⊢
      omega

theorem sum_take_lt : ∀ (L : List Nat) (j : Nat), (∀ x ∈ L, 1 ≤ x) → j < L.length →
    (L.take j).sum < L.sum := by
  intro L
  induction L with
  | nil => intro j _ h; simp at h
  | cons x xs ih =>
    intro j hpos h
    have hx : 1 ≤ x := hpos x (List.mem_cons_self _ _)
    cases j with
    | zero => simp; omega
    | succ j =>
      have h1 : j < xs.length := by simpa using h
      have := ih j (fun y hy => hpos y (List.mem_cons_of_mem _ hy)) h1
      simp only [List.take_succ_cons, List.sum_cons]
      omega

theorem getD_pos (L : List Nat) (j : Nat) (hpos : ∀ x ∈ L, 1 ≤ x) (h : j < L.length) :
    1 ≤ L.getD j 0 := by
  rw [List.getD_eq_getElem L 0 h]
  exact hpos _ (List.getElem_mem h)

/-- A chunk and all chunks before it fit in the batch. -/
theorem sum_take_add_getD_le (L : List Nat) (j : Nat) (hpos : ∀ x ∈ L, 1 ≤ x)
    (h : j < L.length) : (L.take j).sum + L.getD j 0 ≤ L.sum := by
  rw [← sum_take_succ_getD L j h]
  by_cases h1 : j + 1 < L.length
  · exact le_of_lt (sum_take_lt L (j + 1) hpos h1)
  · have h2 : L.length ≤ j + 1 := by omega
    rw [List.take_of_length_le h2]

/-- Before the last chunk of the batch the batch is not complete. -/
theorem sum_take_add_getD_lt (L : List Nat) (j : Nat) (hpos : ∀ x ∈ L, 1 ≤ x)
    (h : j + 1 < L.length) : (L.take j).sum + L.getD j 0 < L.sum := by
  rw [← sum_take_succ_getD L j (by omega)]
  exact sum_take_lt L (j + 1) hpos h

/-- With the last chunk the batch is complete. -/
theorem sum_take_add_getD_last (L : List Nat) (j : Nat) (h : j + 1 = L.length) :
    (L.take j).sum + L.getD j 0 = L.sum := by
  rw [← sum_take_succ_getD L j (by omega), h, List.take_length]

/-- Once the end of the data has been met the remaining slots change nothing. -/
theorem wait_for_reads_encountered (read : Nat → read_result) (E : Nat)
    (hread : ∀ id, read id = read_result.entry_read (decide (id < E))) :
    ∀ (ids : List Nat) (cnt : Nat),
      wait_for_reads (ids.map read) cnt true = some (cnt, true) := by
  intro ids
  induction ids with
  | nil => intro cnt; rfl
  | cons i ids ih =>
    intro cnt
    rw [List.map_cons, hread i]
    simp only [wait_for_reads, Bool.not_true, Bool.false_eq_true, if_false]
    exact ih cnt

/-- The slots of a chunk for a reader of exactly `E` entries. -/
theorem wait_for_reads_prefix (read : Nat → read_result) (E : Nat)
    (hread : ∀ id, read id = read_result.entry_read (decide (id < E))) :
    ∀ (k R cnt : Nat), cnt + k < 2 ^ 32 →
      wait_for_reads ((List.range' R k).map read) cnt false
        = some (cnt + min k (E - R), decide (E - R < k)) := by
  intro k
  induction k with
  | zero =>
    intro R cnt _
    simp [wait_for_reads]
  | succ k ih =>
    intro R cnt hk
    rw [List.range'_succ, List.map_cons, hread R]
    by_cases hR : R < E
    · simp only [wait_for_reads, Bool.not_false, if_true, hR, decide_True]
      rw [uadd_eq cnt 1 (by omega), ih (R + 1) (cnt + 1) (by omega)]
      have e1 : cnt + 1 + min k (E - (R + 1)) = cnt + min (k + 1) (E - R) := by omega
      have e2 : decide (E - (R + 1) < k) = decide (E - R < k + 1) := by
        apply decide_eq_decide.mpr
        omega
      rw [e1, e2]
    · simp only [wait_for_reads, Bool.not_false, if_true, hR, decide_False,
        Bool.false_eq_true, if_false]
      rw [wait_for_reads_encountered read E hread]
      have e1 : cnt = cnt + min (k + 1) (E - R) := by omega
      have e2 : true = decide (E - R < k + 1) := by
        symm
        apply decide_eq_true
        omega
      rw [← e1, ← e2]

theorem posted_entry_ids_eq (R k : Nat) (h : R + k ≤ 2 ^ 32) :
    posted_entry_ids R k = List.range' R k := by
  unfold posted_entry_ids
  apply List.ext_getElem
  · simp
  · intro i h1 h2
    simp only [List.length_map, List.length_range] at h1
    simp only [List.getElem_map, List.getElem_range, List.getElem_range', Nat.one_mul]
    rw [uadd_eq R i (by omega)]

/-- What the control thread reads in the reading phase, for a reader of exactly `E`
entries. -/
theorem read_input_data_prefix (chunks : List Nat) (reader : structured_data_bunch_reader)
    (E : Nat) (hread : ∀ id, reader.read id = read_result.entry_read (decide (id < E)))
    (s : control_state) (henc : s.entry_not_read_encountered = false)
    (h : s.base_entry_to_read_id + chunks.getD s.chunk_index 0 ≤ 2 ^ 32)
    (hk : chunks.getD s.chunk_index 0 < 2 ^ 32) :
    (read_input_data chunks reader s).2
      = some (min (chunks.getD s.chunk_index 0) (E - s.base_entry_to_read_id),
          decide (E - s.base_entry_to_read_id < chunks.getD s.chunk_index 0)) := by
  unfold read_input_data
  simp only [henc, Bool.false_eq_true, if_false]
  rw [posted_entry_ids_eq _ _ h,
    wait_for_reads_prefix reader.read E hread _ _ 0 (by omega), Nat.zero_add]

/-- In the draining phase nothing is read. -/
theorem read_input_data_drained (chunks : List Nat) (reader : structured_data_bunch_reader)
    (s : control_state) (henc : s.entry_not_read_encountered = true) :
    read_input_data chunks reader s = ([], some (0, true)) := by
  unfold read_input_data
  simp only [henc, if_true]

/-! ### Iteration ids in a trace -/

theorem iteration_ids_append (l : String) (t1 t2 : List event) :
    iteration_ids l (t1 ++ t2) = iteration_ids l t1 ++ iteration_ids l t2 := by
  unfold iteration_ids
  rw [List.filterMap_append]

theorem iteration_ids_map_read (l : String) (ids : List Nat) :
    iteration_ids l (ids.map event.read) = [] := by
  unfold iteration_ids
  induction ids with
  | nil => rfl
  | cons i ids ih => simp [ih]

theorem iteration_ids_map_write (l : String) (ids : List Nat) :
    iteration_ids l (ids.map event.write) = [] := by
  unfold iteration_ids
  induction ids with
  | nil => rfl
  | cons i ids ih => simp [ih]

theorem iteration_ids_flush_calls (l : String) (layers : List String) (nrm : normalizer)
    (id : Nat) :
    iteration_ids l (flush_calls layers nrm id) = List.replicate (layers.count l) id := by
  unfold iteration_ids flush_calls
  induction layers with
  | nil => rfl
  | cons x xs ih =>
    rw [List.map_cons, List.filterMap_cons]
    by_cases hx : x = l
    · subst hx
      simp only [if_true, List.count_cons_self, List.replicate_succ]
      rw [ih]
    · have hx1 : (x == l) = false := by simpa using hx
      simp only [if_neg hx, List.count_cons, hx1, Bool.false_eq_true, if_false, Nat.add_zero]
      exact ih

theorem iteration_ids_action_calls (l : String) (actions : List layer_name_with_action)
    (apply : Bool) (nrm : normalizer) (id : Nat) :
    iteration_ids l (action_calls actions apply nrm id)
      = if apply then
          List.replicate
            (actions.count { name := l, action := layer_action.update_weights }) id
        else [] := by
  unfold iteration_ids action_calls
  induction actions with
  | nil => cases apply <;> rfl
  | cons x xs ih =>
    obtain ⟨xn, xa⟩ := x
    cases apply
    · simp only [Bool.false_eq_true, if_false] at ih ⊢
      rw [List.filterMap_cons]
      cases xa <;> simpa using ih
    · simp only [if_true] at ih ⊢
      rw [List.filterMap_cons]
      cases xa
      case update_weights =>
        simp only [if_true, List.filterMap_cons]
        by_cases hx : xn = l
        · subst hx
          simp only [if_true, List.count_cons_self, List.replicate_succ]
          rw [ih]
        · have hx1 : (({ name := xn, action := layer_action.update_weights } :
              layer_name_with_action) == { name := l, action := layer_action.update_weights })
              = false := by
            simpa using hx
          simp only [if_neg hx, List.count_cons, hx1, Bool.false_eq_true, if_false,
            Nat.add_zero]
          exact ih
      all_goals
        simp only [List.count_cons]
        simpa using ih

/-! ### One iteration of the control loop -/

/-- The iteration when no read task fails and the worker reports no error. -/
theorem actual_run_iteration_ok (cfg : run_config) (chunks : List Nat) (base : Nat)
    (reader : structured_data_bunch_reader) (s : control_state) (erc : Nat) (enc : Bool)
    (hrd : (read_input_data chunks reader s).2 = some (erc, enc))
    (herr : (set_command cfg base s).worker.error_message = "") :
    actual_run_iteration cfg chunks base reader s
      = ({ run_kernels_thread_io_set := usub 1 s.run_kernels_thread_io_set
           initial_iteration := false
           run_kernels_thread_stopped := (set_command cfg base s).run_kernels_thread_stopped
           entry_not_read_encountered := enc
           entry_to_process_count := erc
           entry_to_write_count := s.entry_to_process_count
           base_entry_to_read_id := uadd s.base_entry_to_read_id erc
           entry_processed_count := uadd s.entry_processed_count s.entry_to_write_count
           chunk_index := (uadd s.chunk_index 1) % chunks.length
           worker := (set_command cfg base s).worker
           trace := s.trace ++ (set_command cfg base s).events
             ++ (if 0 < s.entry_to_write_count then
                  [event.copy_device_to_host (usub 1 s.run_kernels_thread_io_set)
                    s.entry_to_write_count]
                 else [])
             ++ (read_input_data chunks reader s).1.map event.read
             ++ (if 0 < erc then
                  [event.copy_host_to_device (usub 1 s.run_kernels_thread_io_set) erc]
                 else [])
             ++ (if 0 < s.entry_to_write_count then
                  (written_entry_ids s.entry_processed_count s.entry_to_write_count
                    cfg.output_layers_tiling_factor).map event.write
                 else []) },
         if erc = 0 ∧ (set_command cfg base s).wait_for_kernels_to_finish = false then
           loop_control.leave
         else loop_control.next) := by
  unfold actual_run_iteration
  simp only [hrd, herr, ne_eq, not_true_eq_false, decide_False, Bool.and_false,
    Bool.false_eq_true, if_false]

/-- Iteration ids contributed by one iteration: only those of the worker's events. -/
theorem iteration_ids_iteration_trace (l : String) (t cmd : List event) (ids wr : List Nat)
    (a b c d : Nat) (p1 p2 p3 : Prop) [Decidable p1] [Decidable p2] [Decidable p3] :
    iteration_ids l (t ++ cmd
        ++ (if p1 then [event.copy_device_to_host a b] else [])
        ++ ids.map event.read
        ++ (if p2 then [event.copy_host_to_device c d] else [])
        ++ (if p3 then wr.map event.write else []))
      = iteration_ids l t ++ iteration_ids l cmd := by
  have h1 : iteration_ids l (if p1 then [event.copy_device_to_host a b] else []) = [] := by
    split <;> rfl
  have h2 : iteration_ids l (if p2 then [event.copy_host_to_device c d] else []) = [] := by
    split <;> rfl
  have h3 : iteration_ids l (if p3 then wr.map event.write else []) = [] := by
    split
    · exact iteration_ids_map_write l wr
    · rfl
  simp only [iteration_ids_append, h1, h2, h3, iteration_ids_map_read, List.append_nil]

/-- The command handed over when the loop is past its first iteration and the worker runs. -/
theorem set_command_dispatch (cfg : run_config) (base : Nat) (s : control_state)
    (h1 : s.initial_iteration = false) (h2 : s.run_kernels_thread_stopped = false) :
    set_command cfg base s
      = { worker := (run_kernels_command cfg.actions_in_execution_order
            cfg.update_accum_layers cfg.batch_size base s.worker
            s.entry_to_process_count).1
          events := event.command s.entry_to_process_count s.run_kernels_thread_io_set
            :: (run_kernels_command cfg.actions_in_execution_order
              cfg.update_accum_layers cfg.batch_size base s.worker
              s.entry_to_process_count).2
          run_kernels_thread_stopped := decide (s.entry_to_process_count = 0)
          wait_for_kernels_to_finish := !decide (s.entry_to_process_count = 0) } := by
  unfold set_command
  simp only [h1, h2, Bool.not_false, Bool.and_self, if_true]

theorem iteration_ids_command_cons (l : String) (n io : Nat) (t : List event) :
    iteration_ids l (event.command n io :: t) = iteration_ids l t := by
  unfold iteration_ids
  rfl

/-- The worker's pass over a non-zero command that does not complete the batch. -/
theorem run_kernels_command_keep (actions : List layer_name_with_action)
    (layers : List String) (B base : Nat) (w : run_kernels_state) (n : Nat) (l : String)
    (hn : n ≠ 0) (h : w.gradient_accumulated_entry_count + n < 2 ^ 32)
    (hB : w.gradient_accumulated_entry_count + n < B) :
    (run_kernels_command actions layers B base w n).1
      = { gradient_accumulated_entry_count := w.gradient_accumulated_entry_count + n
          gradient_applied_count := w.gradient_applied_count
          error_message := w.error_message
          exited := false } ∧
    iteration_ids l (run_kernels_command actions layers B base w n).2 = [] := by
  unfold run_kernels_command
  simp only [if_neg hn]
  rw [accumulate_keep B _ _ n h hB (Or.inl hn)]
  simp only [iteration_ids_action_calls, Bool.false_eq_true, if_false, and_self]

/-- The worker's pass over a non-zero command that completes the batch. -/
theorem run_kernels_command_full (actions : List layer_name_with_action)
    (layers : List String) (B base : Nat) (w : run_kernels_state) (n : Nat) (l : String)
    (hn : n ≠ 0) (h : w.gradient_accumulated_entry_count + n < 2 ^ 32)
    (hB : B ≤ w.gradient_accumulated_entry_count + n)
    (happ : base + (w.gradient_applied_count + 1) < 2 ^ 32)
    (hl : actions.count { name := l, action := layer_action.update_weights } = 1) :
    (run_kernels_command actions layers B base w n).1
      = { gradient_accumulated_entry_count := 0
          gradient_applied_count := w.gradient_applied_count + 1
          error_message := w.error_message
          exited := false } ∧
    iteration_ids l (run_kernels_command actions layers B base w n).2
      = [base + (w.gradient_applied_count + 1)] := by
  unfold run_kernels_command
  simp only [if_neg hn]
  rw [accumulate_full B _ _ n h (by omega) hB]
  simp only [iteration_ids_action_calls, if_true, hl, List.replicate_one, true_and]
  rw [uadd_eq _ _ happ]

/-- The worker's pass over the zero-count command while entries remain accumulated. -/
theorem run_kernels_command_flush (actions : List layer_name_with_action)
    (layers : List String) (B base : Nat) (w : run_kernels_state) (l : String)
    (hpos : 0 < w.gradient_accumulated_entry_count)
    (hB : w.gradient_accumulated_entry_count < B) (hB32 : B < 2 ^ 32)
    (happ : base + (w.gradient_applied_count + 1) < 2 ^ 32)
    (hl : layers.count l = 1) :
    (run_kernels_command actions layers B base w 0).1
      = { gradient_accumulated_entry_count := 0
          gradient_applied_count := w.gradient_applied_count + 1
          error_message := w.error_message
          exited := true } ∧
    iteration_ids l (run_kernels_command actions layers B base w 0).2
      = [base + (w.gradient_applied_count + 1)] := by
  unfold run_kernels_command
  simp only [if_true]
  rw [accumulate_flush B _ _ (by omega) (by omega) hB hpos]
  simp only [iteration_ids_flush_calls, if_true, hl, List.replicate_one, true_and]
  rw [uadd_eq _ _ happ]

/-- The worker's pass over the zero-count command with nothing accumulated. -/
theorem run_kernels_command_idle (actions : List layer_name_with_action)
    (layers : List String) (B base : Nat) (w : run_kernels_state) (l : String)
    (h0 : w.gradient_accumulated_entry_count = 0) (hB : 0 < B) :
    (run_kernels_command actions layers B base w 0).1
      = { gradient_accumulated_entry_count := 0
          gradient_applied_count := w.gradient_applied_count
          error_message := w.error_message
          exited := true } ∧
    iteration_ids l (run_kernels_command actions layers B base w 0).2 = [] := by
  unfold run_kernels_command
  simp only [if_true]
  rw [h0, accumulate_keep B 0 _ 0 (by omega) (by omega) (Or.inr rfl)]
  simp only [Bool.false_eq_true, if_false, and_true]
  exact ⟨trivial, rfl⟩

theorem id_list_succ (base q : Nat) :
    (List.range (q + 1)).map (fun i => base + (i + 1))
      = (List.range q).map (fun i => base + (i + 1)) ++ [base + (q + 1)] := by
  rw [List.range_succ, List.map_append]
  rfl

theorem pair_eq_of_snd {α β : Type} (p : α × β) (b : β) (h : p.2 = b) : p = (p.1, b) := by
  cases p
  simp only at h
  rw [h]

/-- Facts about the command of an iteration past the first one, worker running. -/
theorem set_command_dispatch_facts (cfg : run_config) (base : Nat) (s : control_state)
    (l : String) (w : run_kernels_state) (ids : List Nat)
    (h1 : s.initial_iteration = false) (h2 : s.run_kernels_thread_stopped = false)
    (hw : (run_kernels_command cfg.actions_in_execution_order cfg.update_accum_layers
      cfg.batch_size base s.worker s.entry_to_process_count).1 = w)
    (hids : iteration_ids l (run_kernels_command cfg.actions_in_execution_order
      cfg.update_accum_layers cfg.batch_size base s.worker s.entry_to_process_count).2
      = ids) :
    (set_command cfg base s).worker = w ∧
    iteration_ids l (set_command cfg base s).events = ids ∧
    (set_command cfg base s).run_kernels_thread_stopped
      = decide (s.entry_to_process_count = 0) ∧
    (set_command cfg base s).wait_for_kernels_to_finish
      = !decide (s.entry_to_process_count = 0) := by
  rw [set_command_dispatch cfg base s h1 h2]
  refine ⟨hw, ?_, rfl, rfl⟩
  simp only []
  rw [iteration_ids_command_cons]
  exact hids

/-- Draining phase, last iteration: the zero-count command is sent, the worker flushes what
is accumulated, and the loop is left. -/
theorem iteration_drain_zero (cfg : run_config) (L : List Nat) (E base : Nat) (l : String)
    (reader : structured_data_bunch_reader) (s : control_state) (a q : Nat)
    (hEB : E + cfg.batch_size ≤ 2 ^ 32)
    (hov : base + (E + cfg.batch_size - 1) / cfg.batch_size < 2 ^ 32)
    (hl2 : cfg.update_accum_layers.count l = 1)
    (inv : loop_head L cfg.batch_size E base l s a q)
    (henc : s.entry_not_read_encountered = true) (hRE : s.base_entry_to_read_id = E)
    (hp : s.entry_to_process_count = 0) (haB : a < cfg.batch_size) :
    ∃ s1, actual_run_iteration cfg L base reader s = (s1, loop_control.leave) ∧
      s1.worker.gradient_applied_count = (E + cfg.batch_size - 1) / cfg.batch_size ∧
      s1.worker.error_message = "" ∧
      iteration_ids l s1.trace
        = (List.range ((E + cfg.batch_size - 1) / cfg.batch_size)).map
            (fun i => base + (i + 1)) := by
  have hE : E = q * cfg.batch_size + a := by
    have := inv.read_eq
    rw [hRE, hp] at this
    omega
  have hceil := ceil_quot_of_decomp E cfg.batch_size q a hE haB
  have hrd : (read_input_data L reader s).2 = some (0, true) := by
    rw [read_input_data_drained L reader s henc]
  have hfacts : ∃ w ids, (set_command cfg base s).worker = w ∧
      iteration_ids l (set_command cfg base s).events = ids ∧
      (set_command cfg base s).wait_for_kernels_to_finish = false ∧
      w.error_message = "" ∧
      w.gradient_applied_count = (E + cfg.batch_size - 1) / cfg.batch_size ∧
      (List.range q).map (fun i => base + (i + 1)) ++ ids
        = (List.range ((E + cfg.batch_size - 1) / cfg.batch_size)).map
            (fun i => base + (i + 1)) := by
    by_cases ha : 0 < a
    · rw [if_pos ha] at hceil
      have hk := run_kernels_command_flush cfg.actions_in_execution_order
        cfg.update_accum_layers cfg.batch_size base s.worker l
        (by rw [inv.acc_eq]; exact ha) (by rw [inv.acc_eq]; exact haB) (by omega)
        (by rw [inv.applied_eq]; omega) hl2
      rw [← hp] at hk
      obtain ⟨f1, f2, _, f4⟩ := set_command_dispatch_facts cfg base s l _ _
        inv.not_initial inv.not_stopped hk.1 hk.2
      refine ⟨_, _, f1, f2, ?_, inv.no_error, ?_, ?_⟩
      · rw [f4, hp]
        rfl
      · simp only []
        rw [inv.applied_eq, hceil]
      · rw [inv.applied_eq, hceil, id_list_succ]
    · have ha0 : a = 0 := by omega
      rw [if_neg ha, Nat.add_zero] at hceil
      have hk := run_kernels_command_idle cfg.actions_in_execution_order
        cfg.update_accum_layers cfg.batch_size base s.worker l
        (by rw [inv.acc_eq]; exact ha0) (by omega)
      rw [← hp] at hk
      obtain ⟨f1, f2, _, f4⟩ := set_command_dispatch_facts cfg base s l _ _
        inv.not_initial inv.not_stopped hk.1 hk.2
      refine ⟨_, _, f1, f2, ?_, inv.no_error, ?_, ?_⟩
      · rw [f4, hp]
        rfl
      · simp only []
        rw [inv.applied_eq, hceil]
      · rw [hceil, List.append_nil]
  obtain ⟨w, ids, f1, f2, f3, f4, f5, f6⟩ := hfacts
  have hit := actual_run_iteration_ok cfg L base reader s 0 true hrd (by rw [f1]; exact f4)
  refine ⟨(actual_run_iteration cfg L base reader s).1, ?_, ?_, ?_, ?_⟩
  · apply pair_eq_of_snd
    rw [hit]
    simp only [f3, and_self, if_true]
  · rw [hit]
    simp only []
    rw [f1, f5]
  · rw [hit]
    simp only []
    rw [f1, f4]
  · rw [hit]
    simp only []
    rw [iteration_ids_iteration_trace, f2, inv.ids_eq, f6]

/-- Draining phase, an iteration with entries still to process: they are sent to the worker,
which keeps accumulating; nothing is read. -/
theorem iteration_drain_pos (cfg : run_config) (L : List Nat) (E base : Nat) (l : String)
    (reader : structured_data_bunch_reader) (s : control_state) (a q : Nat)
    (hEB : E + cfg.batch_size ≤ 2 ^ 32)
    (inv : loop_head L cfg.batch_size E base l s a q)
    (henc : s.entry_not_read_encountered = true) (hRE : s.base_entry_to_read_id = E)
    (hp : 0 < s.entry_to_process_count)
    (haB : a + s.entry_to_process_count < cfg.batch_size) :
    ∃ s1, actual_run_iteration cfg L base reader s = (s1, loop_control.next) ∧
      loop_head L cfg.batch_size E base l s1 (a + s.entry_to_process_count) q ∧
      s1.entry_not_read_encountered = true ∧ s1.base_entry_to_read_id = E ∧
      s1.entry_to_process_count = 0 := by
  have hp0 : s.entry_to_process_count ≠ 0 := by omega
  have hrd : (read_input_data L reader s).2 = some (0, true) := by
    rw [read_input_data_drained L reader s henc]
  have hk := run_kernels_command_keep cfg.actions_in_execution_order
    cfg.update_accum_layers cfg.batch_size base s.worker s.entry_to_process_count l hp0
    (by rw [inv.acc_eq]; omega) (by rw [inv.acc_eq]; exact haB)
  obtain ⟨f1, f2, f3, f4⟩ := set_command_dispatch_facts cfg base s l _ _
    inv.not_initial inv.not_stopped hk.1 hk.2
  rw [decide_eq_false hp0] at f3 f4
  have hit := actual_run_iteration_ok cfg L base reader s 0 true hrd
    (by rw [f1]; exact inv.no_error)
  have hR : uadd s.base_entry_to_read_id 0 = E := by
    rw [uadd_eq _ _ (by rw [hRE]; omega), hRE, Nat.add_zero]
  have e1 : (actual_run_iteration cfg L base reader s).1.entry_not_read_encountered
      = true := by
    rw [hit]
  have e2 : (actual_run_iteration cfg L base reader s).1.base_entry_to_read_id = E := by
    rw [hit]
    exact hR
  have e3 : (actual_run_iteration cfg L base reader s).1.entry_to_process_count = 0 := by
    rw [hit]
  refine ⟨(actual_run_iteration cfg L base reader s).1, ?_, ?_, e1, e2, e3⟩
  · apply pair_eq_of_snd
    rw [hit]
    simp only [f4, Bool.not_false, Bool.true_eq_false, and_false, if_false]
  · constructor
    · rw [hit]
    · rw [hit]
      exact f3
    · rw [hit]
      simp only []
      rw [f1]
      simp only []
      rw [inv.acc_eq]
    · rw [hit]
      simp only []
      rw [f1]
      exact inv.applied_eq
    · rw [hit]
      simp only []
      rw [f1]
      exact inv.no_error
    · rw [e2, e3]
      have := inv.read_eq
      rw [hRE] at this
      omega
    · rw [e2]
    · rw [hit]
      simp only []
      rw [iteration_ids_iteration_trace, f2, inv.ids_eq, List.append_nil]
    · right
      refine ⟨e1, e2, ?_⟩
      rw [e3]
      omega

/-- Reading phase: the worker's pass over the pending chunk `j`. Afterwards the worker holds
the entries of the chunks before chunk `(j + 1) % L.length` of the current batch. -/
theorem dispatch_reading (cfg : run_config) (L : List Nat) (E base : Nat) (l : String)
    (s : control_state) (a q j : Nat)
    (hL : ∀ x ∈ L, 1 ≤ x) (hsum : L.sum = cfg.batch_size)
    (hEB : E + cfg.batch_size ≤ 2 ^ 32)
    (hov : base + (E + cfg.batch_size - 1) / cfg.batch_size < 2 ^ 32)
    (hl1 : cfg.actions_in_execution_order.count
      { name := l, action := layer_action.update_weights } = 1)
    (inv : loop_head L cfg.batch_size E base l s a q)
    (hj : j < L.length) (hp : s.entry_to_process_count = L.getD j 0)
    (ha : a = (L.take j).sum) :
    ∃ w ids q1, (set_command cfg base s).worker = w ∧
      iteration_ids l (set_command cfg base s).events = ids ∧
      (set_command cfg base s).run_kernels_thread_stopped = false ∧
      (set_command cfg base s).wait_for_kernels_to_finish = true ∧
      w.gradient_accumulated_entry_count = (L.take ((j + 1) % L.length)).sum ∧
      w.gradient_applied_count = q1 ∧
      w.error_message = "" ∧
      s.base_entry_to_read_id = q1 * cfg.batch_size + (L.take ((j + 1) % L.length)).sum ∧
      (List.range q).map (fun i => base + (i + 1)) ++ ids
        = (List.range q1).map (fun i => base + (i + 1)) := by
  have hp1 : 1 ≤ L.getD j 0 := getD_pos L j hL hj
  have hp0 : s.entry_to_process_count ≠ 0 := by omega
  have hle := sum_take_add_getD_le L j hL hj
  have hR := inv.read_eq
  have hRE := inv.read_le
  have hB : 0 < cfg.batch_size := by omega
  by_cases hlast : j + 1 = L.length
  · have hfull := sum_take_add_getD_last L j hlast
    have hq : q + 1 ≤ (E + cfg.batch_size - 1) / cfg.batch_size := by
      rw [Nat.le_div_iff_mul_le hB]
      have : (q + 1) * cfg.batch_size = q * cfg.batch_size + cfg.batch_size := by ring
      omega
    have hk := run_kernels_command_full cfg.actions_in_execution_order
      cfg.update_accum_layers cfg.batch_size base s.worker s.entry_to_process_count l hp0
      (by rw [inv.acc_eq]; omega) (by rw [inv.acc_eq]; omega)
      (by rw [inv.applied_eq]; omega) hl1
    obtain ⟨f1, f2, f3, f4⟩ := set_command_dispatch_facts cfg base s l _ _
      inv.not_initial inv.not_stopped hk.1 hk.2
    rw [decide_eq_false hp0] at f3 f4
    have hc : (j + 1) % L.length = 0 := by rw [hlast, Nat.mod_self]
    refine ⟨_, _, q + 1, f1, f2, f3, f4, ?_, ?_, inv.no_error, ?_, ?_⟩
    · rw [hc]
      rfl
    · simp only []
      rw [inv.applied_eq]
    · rw [hc]
      have : (q + 1) * cfg.batch_size = q * cfg.batch_size + cfg.batch_size := by ring
      simp only [List.take_zero, List.sum_nil]
      omega
    · rw [inv.applied_eq, id_list_succ]
  · have hnl : j + 1 < L.length := by omega
    have hlt := sum_take_add_getD_lt L j hL hnl
    have hk := run_kernels_command_keep cfg.actions_in_execution_order
      cfg.update_accum_layers cfg.batch_size base s.worker s.entry_to_process_count l hp0
      (by rw [inv.acc_eq]; omega) (by rw [inv.acc_eq]; omega)
    obtain ⟨f1, f2, f3, f4⟩ := set_command_dispatch_facts cfg base s l _ _
      inv.not_initial inv.not_stopped hk.1 hk.2
    rw [decide_eq_false hp0] at f3 f4
    have hc : (j + 1) % L.length = j + 1 := Nat.mod_eq_of_lt hnl
    refine ⟨_, _, q, f1, f2, f3, f4, ?_, inv.applied_eq, inv.no_error, ?_, ?_⟩
    · simp only []
      rw [hc, sum_take_succ_getD L j hj, inv.acc_eq, hp, ha]
    · rw [hc, sum_take_succ_getD L j hj]
      omega
    · rw [List.append_nil]

/-- Reading phase: one iteration sends the pending chunk to the worker and reads the next
chunk; the loop goes on, in the reading phase if the chunk was read in full (and then more
entries have been read), in the draining phase otherwise. -/
theorem iteration_reading (cfg : run_config) (L : List Nat) (E base : Nat) (l : String)
    (reader : structured_data_bunch_reader) (s : control_state) (a q j : Nat)
    (hL : ∀ x ∈ L, 1 ≤ x) (hsum : L.sum = cfg.batch_size)
    (hEB : E + cfg.batch_size ≤ 2 ^ 32)
    (hov : base + (E + cfg.batch_size - 1) / cfg.batch_size < 2 ^ 32)
    (hread : ∀ id, reader.read id = read_result.entry_read (decide (id < E)))
    (hl1 : cfg.actions_in_execution_order.count
      { name := l, action := layer_action.update_weights } = 1)
    (inv : loop_head L cfg.batch_size E base l s a q)
    (henc : s.entry_not_read_encountered = false)
    (hj : j < L.length) (hp : s.entry_to_process_count = L.getD j 0)
    (ha : a = (L.take j).sum) (hc : s.chunk_index = (j + 1) % L.length) :
    ∃ s1 a1 q1, actual_run_iteration cfg L base reader s = (s1, loop_control.next) ∧
      loop_head L cfg.batch_size E base l s1 a1 q1 ∧
      (s1.entry_not_read_encountered = false →
        s.base_entry_to_read_id < s1.base_entry_to_read_id) := by
  obtain ⟨w, ids, q1, f1, f2, f3, f4, g1, g2, g3, g4, g5⟩ :=
    dispatch_reading cfg L E base l s a q j hL hsum hEB hov hl1 inv hj hp ha
  have hN : 0 < L.length := by omega
  have hcN : (j + 1) % L.length < L.length := Nat.mod_lt _ hN
  have hR0 := inv.read_eq
  have hp0 : 1 ≤ L.getD j 0 := getD_pos L j hL hj
  have hE1 : 1 ≤ s.base_entry_to_read_id := by omega
  have hk1 : 1 ≤ L.getD ((j + 1) % L.length) 0 := getD_pos L _ hL hcN
  have hkle := sum_take_add_getD_le L _ hL hcN
  have hRE := inv.read_le
  have hlen : L.length ≤ L.sum := List.length_le_sum_of_one_le L hL
  have hrd := read_input_data_prefix L reader E hread s henc
    (by rw [hc]; omega) (by rw [hc]; omega)
  rw [hc] at hrd
  have hit := actual_run_iteration_ok cfg L base reader s _ _ hrd (by rw [f1]; exact g3)
  have hmin : min (L.getD ((j + 1) % L.length) 0) (E - s.base_entry_to_read_id)
      ≤ E - s.base_entry_to_read_id := Nat.min_le_right _ _
  have hR1 : (actual_run_iteration cfg L base reader s).1.base_entry_to_read_id
      = s.base_entry_to_read_id
        + min (L.getD ((j + 1) % L.length) 0) (E - s.base_entry_to_read_id) := by
    rw [hit]
    simp only []
    rw [uadd_eq _ _ (by omega)]
  have hp1 : (actual_run_iteration cfg L base reader s).1.entry_to_process_count
      = min (L.getD ((j + 1) % L.length) 0) (E - s.base_entry_to_read_id) := by
    rw [hit]
  have henc1 : (actual_run_iteration cfg L base reader s).1.entry_not_read_encountered
      = decide (E - s.base_entry_to_read_id < L.getD ((j + 1) % L.length) 0) := by
    rw [hit]
  have hc1 : (actual_run_iteration cfg L base reader s).1.chunk_index
      = ((j + 1) % L.length + 1) % L.length := by
    rw [hit]
    simp only []
    rw [hc, uadd_eq _ _ (by omega)]
  refine ⟨(actual_run_iteration cfg L base reader s).1,
    (L.take ((j + 1) % L.length)).sum, q1, ?_, ?_, ?_⟩
  · apply pair_eq_of_snd
    rw [hit]
    simp only [f4, Bool.true_eq_false, and_false, if_false]
  · constructor
    · rw [hit]
    · rw [hit]
      exact f3
    · rw [hit]
      simp only []
      rw [f1, g1]
    · rw [hit]
      simp only []
      rw [f1, g2]
    · rw [hit]
      simp only []
      rw [f1, g3]
    · rw [hR1, hp1]
      omega
    · rw [hR1]
      omega
    · rw [hit]
      simp only []
      rw [iteration_ids_iteration_trace, f2, inv.ids_eq, g5]
    · by_cases hend : E - s.base_entry_to_read_id < L.getD ((j + 1) % L.length) 0
      · right
        rw [henc1, hR1, hp1]
        refine ⟨decide_eq_true hend, ?_, ?_⟩ <;> omega
      · left
        rw [henc1, hp1, hc1]
        refine ⟨decide_eq_false hend, (j + 1) % L.length, hcN, ?_, rfl, rfl⟩
        omega
  · intro h
    rw [henc1] at h
    have hend : ¬ E - s.base_entry_to_read_id < L.getD ((j + 1) % L.length) 0 :=
      of_decide_eq_false h
    rw [hR1]
    omega

/-! ### The control loop for a reader of exactly `E` entries -/

/-- Draining phase: the loop ends within two iterations. -/
theorem actual_run_loop_drain (cfg : run_config) (L : List Nat) (E base : Nat) (l : String)
    (reader : structured_data_bunch_reader) (s : control_state) (a q : Nat)
    (hEB : E + cfg.batch_size ≤ 2 ^ 32)
    (hov : base + (E + cfg.batch_size - 1) / cfg.batch_size < 2 ^ 32)
    (hl2 : cfg.update_accum_layers.count l = 1)
    (inv : loop_head L cfg.batch_size E base l s a q)
    (henc : s.entry_not_read_encountered = true) (hRE : s.base_entry_to_read_id = E)
    (haB : a + s.entry_to_process_count < cfg.batch_size)
    (fuel : Nat) (hfuel : 2 ≤ fuel) :
    ∃ s1, actual_run_loop cfg L base reader fuel s = some (s1, none) ∧
      s1.worker.gradient_applied_count = (E + cfg.batch_size - 1) / cfg.batch_size ∧
      s1.worker.error_message = "" ∧
      iteration_ids l s1.trace
        = (List.range ((E + cfg.batch_size - 1) / cfg.batch_size)).map
            (fun i => base + (i + 1)) := by
  obtain ⟨f, rfl⟩ : ∃ f, fuel = f + 2 := ⟨fuel - 2, by omega⟩
  by_cases hp : s.entry_to_process_count = 0
  · obtain ⟨s1, h1, h2⟩ := iteration_drain_zero cfg L E base l reader s a q hEB hov hl2 inv
      henc hRE hp (by omega)
    refine ⟨s1, ?_, h2⟩
    rw [actual_run_loop, h1]
  · obtain ⟨s1, h1, inv1, henc1, hRE1, hp1⟩ := iteration_drain_pos cfg L E base l reader s
      a q hEB inv henc hRE (by omega) haB
    obtain ⟨s2, h2, h3⟩ := iteration_drain_zero cfg L E base l reader s1 _ q hEB hov hl2
      inv1 henc1 hRE1 hp1 haB
    refine ⟨s2, ?_, h3⟩
    rw [actual_run_loop, h1]
    simp only []
    rw [actual_run_loop, h2]

/-- From any loop head the loop ends, within `E - base_entry_to_read_id + 3` iterations,
with `ceil(E / batch_size)` applications. -/
theorem actual_run_loop_from_head (cfg : run_config) (L : List Nat) (E base : Nat)
    (l : String) (reader : structured_data_bunch_reader)
    (hL : ∀ x ∈ L, 1 ≤ x) (hsum : L.sum = cfg.batch_size)
    (hEB : E + cfg.batch_size ≤ 2 ^ 32)
    (hov : base + (E + cfg.batch_size - 1) / cfg.batch_size < 2 ^ 32)
    (hread : ∀ id, reader.read id = read_result.entry_read (decide (id < E)))
    (hl1 : cfg.actions_in_execution_order.count
      { name := l, action := layer_action.update_weights } = 1)
    (hl2 : cfg.update_accum_layers.count l = 1) :
    ∀ (d : Nat) (s : control_state) (a q : Nat),
      loop_head L cfg.batch_size E base l s a q →
      E - s.base_entry_to_read_id ≤ d →
      ∀ fuel, d + 3 ≤ fuel →
      ∃ s1, actual_run_loop cfg L base reader fuel s = some (s1, none) ∧
        s1.worker.gradient_applied_count = (E + cfg.batch_size - 1) / cfg.batch_size ∧
        s1.worker.error_message = "" ∧
        iteration_ids l s1.trace
          = (List.range ((E + cfg.batch_size - 1) / cfg.batch_size)).map
              (fun i => base + (i + 1)) := by
  intro d
  induction d with
  | zero =>
    intro s a q inv hd fuel hfuel
    rcases inv.phase with ⟨henc, j, hj, hp, ha, hc⟩ | ⟨henc, hRE, haB⟩
    · obtain ⟨s1, a1, q1, h1, inv1, hm⟩ := iteration_reading cfg L E base l reader s a q j
        hL hsum hEB hov hread hl1 inv henc hj hp ha hc
      obtain ⟨f, rfl⟩ : ∃ f, fuel = f + 1 := ⟨fuel - 1, by omega⟩
      rcases inv1.phase with ⟨henc1, _⟩ | ⟨henc1, hRE1, haB1⟩
      · have := hm henc1
        have := inv1.read_le
        omega
      · obtain ⟨s2, h2, h3⟩ := actual_run_loop_drain cfg L E base l reader s1 a1 q1 hEB hov
          hl2 inv1 henc1 hRE1 haB1 f (by omega)
        refine ⟨s2, ?_, h3⟩
        rw [actual_run_loop, h1]
        exact h2
    · exact actual_run_loop_drain cfg L E base l reader s a q hEB hov hl2 inv henc hRE haB
        fuel (by omega)
  | succ d ih =>
    intro s a q inv hd fuel hfuel
    rcases inv.phase with ⟨henc, j, hj, hp, ha, hc⟩ | ⟨henc, hRE, haB⟩
    · obtain ⟨s1, a1, q1, h1, inv1, hm⟩ := iteration_reading cfg L E base l reader s a q j
        hL hsum hEB hov hread hl1 inv henc hj hp ha hc
      obtain ⟨f, rfl⟩ : ∃ f, fuel = f + 1 := ⟨fuel - 1, by omega⟩
      rcases inv1.phase with ⟨henc1, _⟩ | ⟨henc1, hRE1, haB1⟩
      · have := hm henc1
        obtain ⟨s2, h2, h3⟩ := ih s1 a1 q1 inv1 (by omega) f (by omega)
        refine ⟨s2, ?_, h3⟩
        rw [actual_run_loop, h1]
        exact h2
      · obtain ⟨s2, h2, h3⟩ := actual_run_loop_drain cfg L E base l reader s1 a1 q1 hEB hov
          hl2 inv1 henc1 hRE1 haB1 f (by omega)
        refine ⟨s2, ?_, h3⟩
        rw [actual_run_loop, h1]
        exact h2
    · exact actual_run_loop_drain cfg L E base l reader s a q hEB hov hl2 inv henc hRE haB
        fuel (by omega)

/-- The first iteration: no command is sent, the first chunk is read. -/
theorem iteration_initial (cfg : run_config) (L : List Nat) (E base : Nat) (l : String)
    (reader : structured_data_bunch_reader)
    (hL : ∀ x ∈ L, 1 ≤ x) (hsum : L.sum = cfg.batch_size) (hN : 0 < L.length)
    (hE : 1 ≤ E) (hEB : E + cfg.batch_size ≤ 2 ^ 32)
    (hread : ∀ id, reader.read id = read_result.entry_read (decide (id < E))) :
    ∃ s1, actual_run_iteration cfg L base reader control_state.init
        = (s1, loop_control.next) ∧
      loop_head L cfg.batch_size E base l s1 0 0 := by
  have hcmd : set_command cfg base control_state.init
      = { worker := run_kernels_state.init, events := []
          run_kernels_thread_stopped := false, wait_for_kernels_to_finish := false } := rfl
  have hk1 : 1 ≤ L.getD 0 0 := getD_pos L 0 hL hN
  have hkle := sum_take_add_getD_le L 0 hL hN
  have hlen : L.length ≤ L.sum := List.length_le_sum_of_one_le L hL
  have hrd := read_input_data_prefix L reader E hread control_state.init rfl
    (by show 0 + L.getD 0 0 ≤ 2 ^ 32; omega) (by show L.getD 0 0 < 2 ^ 32; omega)
  have hrd1 : (read_input_data L reader control_state.init).2
      = some (min (L.getD 0 0) E, decide (E < L.getD 0 0)) := hrd
  have hit := actual_run_iteration_ok cfg L base reader control_state.init _ _ hrd1
    (by rw [hcmd]; rfl)
  have hmin : min (L.getD 0 0) E ≤ E := Nat.min_le_right _ _
  have hR1 : (actual_run_iteration cfg L base reader control_state.init).1.base_entry_to_read_id
      = min (L.getD 0 0) E := by
    rw [hit]
    show uadd 0 (min (L.getD 0 0) E) = min (L.getD 0 0) E
    rw [uadd_eq _ _ (by omega), Nat.zero_add]
  have hp1 : (actual_run_iteration cfg L base reader control_state.init).1.entry_to_process_count
      = min (L.getD 0 0) E := by
    rw [hit]
  have henc1 :
      (actual_run_iteration cfg L base reader control_state.init).1.entry_not_read_encountered
      = decide (E < L.getD 0 0) := by
    rw [hit]
  have hc1 : (actual_run_iteration cfg L base reader control_state.init).1.chunk_index
      = (0 + 1) % L.length := by
    rw [hit]
    show uadd 0 1 % L.length = (0 + 1) % L.length
    rw [uadd_eq _ _ (by omega)]
  refine ⟨(actual_run_iteration cfg L base reader control_state.init).1, ?_, ?_⟩
  · apply pair_eq_of_snd
    rw [hit]
    have : ¬ min (L.getD 0 0) E = 0 := by omega
    simp only [this, false_and, if_false]
  · constructor
    · rw [hit]
    · rw [hit, hcmd]
    · rw [hit, hcmd]
      rfl
    · rw [hit, hcmd]
      rfl
    · rw [hit, hcmd]
      rfl
    · rw [hR1, hp1]
      omega
    · rw [hR1]
      exact hmin
    · rw [hit]
      simp only []
      rw [iteration_ids_iteration_trace, hcmd]
      rfl
    · by_cases hend : E < L.getD 0 0
      · right
        rw [henc1, hR1, hp1]
        refine ⟨decide_eq_true hend, ?_, ?_⟩ <;> omega
      · left
        rw [henc1, hp1, hc1]
        refine ⟨decide_eq_false hend, 0, hN, ?_, rfl, rfl⟩
        omega

/-- The whole control loop for a reader of exactly `E >= 1` entries: it ends within `E + 3`
iterations without exception, after `ceil(E / batch_size)` applications whose iteration ids
are `base + 1, ..., base + ceil(E / batch_size)`. -/
theorem actual_run_loop_prefix (cfg : run_config) (L : List Nat) (E base : Nat)
    (l : String) (reader : structured_data_bunch_reader)
    (hL : ∀ x ∈ L, 1 ≤ x) (hsum : L.sum = cfg.batch_size) (hN : 0 < L.length)
    (hE : 1 ≤ E) (hEB : E + cfg.batch_size ≤ 2 ^ 32)
    (hov : base + (E + cfg.batch_size - 1) / cfg.batch_size < 2 ^ 32)
    (hread : ∀ id, reader.read id = read_result.entry_read (decide (id < E)))
    (hl1 : cfg.actions_in_execution_order.count
      { name := l, action := layer_action.update_weights } = 1)
    (hl2 : cfg.update_accum_layers.count l = 1)
    (fuel : Nat) (hfuel : E + 3 ≤ fuel) :
    ∃ s1, actual_run_loop cfg L base reader fuel control_state.init = some (s1, none) ∧
      s1.worker.gradient_applied_count = (E + cfg.batch_size - 1) / cfg.batch_size ∧
      s1.worker.error_message = "" ∧
      iteration_ids l s1.trace
        = (List.range ((E + cfg.batch_size - 1) / cfg.batch_size)).map
            (fun i => base + (i + 1)) := by
  obtain ⟨s1, h1, inv1⟩ := iteration_initial cfg L E base l reader hL hsum hN hE hEB hread
  obtain ⟨f, rfl⟩ : ∃ f, fuel = f + 1 := ⟨fuel - 1, by omega⟩
  have hR := inv1.read_eq
  have hp : 1 ≤ s1.base_entry_to_read_id := by
    rcases inv1.phase with ⟨_, j, hj, hp, _, _⟩ | ⟨_, hRE, _⟩
    · have := getD_pos L j hL hj
      omega
    · omega
  obtain ⟨s2, h2, h3⟩ := actual_run_loop_from_head cfg L E base l reader hL hsum hEB hov
    hread hl1 hl2 (E - 1) s1 0 0 inv1 (by omega) f (by omega)
  refine ⟨s2, ?_, h3⟩
  rw [actual_run_loop, h1]
  exact h2

/-! ### Writes and commands in a trace -/

theorem written_ids_append (t1 t2 : List event) :
    written_ids (t1 ++ t2) = written_ids t1 ++ written_ids t2 := by
  unfold written_ids
  rw [List.filterMap_append]

theorem command_counts_append (t1 t2 : List event) :
    command_counts (t1 ++ t2) = command_counts t1 ++ command_counts t2 := by
  unfold command_counts
  rw [List.filterMap_append]

theorem written_ids_map_write (ids : List Nat) : written_ids (ids.map event.write) = ids := by
  unfold written_ids
  induction ids with
  | nil => rfl
  | cons i ids ih => simp [ih]

theorem written_ids_map_read (ids : List Nat) : written_ids (ids.map event.read) = [] := by
  unfold written_ids
  induction ids with
  | nil => rfl
  | cons i ids ih => simp [ih]

theorem command_counts_map_write (ids : List Nat) :
    command_counts (ids.map event.write) = [] := by
  unfold command_counts
  induction ids with
  | nil => rfl
  | cons i ids ih => simp [ih]

theorem command_counts_map_read (ids : List Nat) :
    command_counts (ids.map event.read) = [] := by
  unfold command_counts
  induction ids with
  | nil => rfl
  | cons i ids ih => simp [ih]

theorem written_ids_flush_calls (layers : List String) (nrm : normalizer) (id : Nat) :
    written_ids (flush_calls layers nrm id) = [] ∧
    command_counts (flush_calls layers nrm id) = [] := by
  unfold written_ids command_counts flush_calls
  induction layers with
  | nil => exact ⟨rfl, rfl⟩
  | cons x xs ih => simp [ih]

theorem written_ids_action_calls (actions : List layer_name_with_action) (apply : Bool)
    (nrm : normalizer) (id : Nat) :
    written_ids (action_calls actions apply nrm id) = [] ∧
    command_counts (action_calls actions apply nrm id) = [] := by
  unfold written_ids command_counts action_calls
  induction actions with
  | nil => exact ⟨rfl, rfl⟩
  | cons x xs ih =>
    obtain ⟨xn, xa⟩ := x
    rw [List.filterMap_cons]
    cases xa <;> cases apply <;> simpa using ih

/-- The worker's pass over a command, as far as the control thread observes it: the error
message is kept, the loop is left exactly on a zero-count command, and neither a write nor a
command appears among its events. -/
theorem run_kernels_command_io (actions : List layer_name_with_action)
    (layers : List String) (B base : Nat) (w : run_kernels_state) (n : Nat) :
    (run_kernels_command actions layers B base w n).1.error_message = w.error_message ∧
    (run_kernels_command actions layers B base w n).1.exited = decide (n = 0) ∧
    written_ids (run_kernels_command actions layers B base w n).2 = [] ∧
    command_counts (run_kernels_command actions layers B base w n).2 = [] := by
  unfold run_kernels_command
  by_cases hn : n = 0
  · simp only [if_pos hn, decide_eq_true hn, true_and]
    split
    · exact written_ids_flush_calls _ _ _
    · exact ⟨rfl, rfl⟩
  · simp only [if_neg hn, decide_eq_false hn, true_and]
    exact written_ids_action_calls _ _ _ _

/-- The command of an iteration past the first one with the worker running, as far as the
control thread observes it. -/
theorem set_command_io (cfg : run_config) (base : Nat) (s : control_state)
    (h1 : s.initial_iteration = false) (h2 : s.run_kernels_thread_stopped = false) :
    (set_command cfg base s).worker.error_message = s.worker.error_message ∧
    (set_command cfg base s).worker.exited = decide (s.entry_to_process_count = 0) ∧
    written_ids (set_command cfg base s).events = [] ∧
    command_counts (set_command cfg base s).events = [s.entry_to_process_count] ∧
    (set_command cfg base s).run_kernels_thread_stopped
      = decide (s.entry_to_process_count = 0) ∧
    (set_command cfg base s).wait_for_kernels_to_finish
      = !decide (s.entry_to_process_count = 0) := by
  obtain ⟨k1, k2, k3, k4⟩ := run_kernels_command_io cfg.actions_in_execution_order
    cfg.update_accum_layers cfg.batch_size base s.worker s.entry_to_process_count
  rw [set_command_dispatch cfg base s h1 h2]
  refine ⟨k1, k2, ?_, ?_, rfl, rfl⟩
  · show written_ids (event.command _ _ :: _) = []
    exact k3
  · show command_counts (event.command _ _ :: _) = [s.entry_to_process_count]
    show s.entry_to_process_count :: command_counts _ = [s.entry_to_process_count]
    rw [k4]

/-- In its first iteration the control thread sends no command. -/
theorem set_command_initial (cfg : run_config) (base : Nat) :
    set_command cfg base control_state.init
      = { worker := run_kernels_state.init, events := []
          run_kernels_thread_stopped := false, wait_for_kernels_to_finish := false } := rfl

/-- The ids written for a chunk with output tiling factor 1. -/
theorem written_entry_ids_one (p w : Nat) (h : p + w < 2 ^ 32) :
    written_entry_ids p w 1 = (List.range w).map (fun i => p + i) := by
  unfold written_entry_ids umul uint_range
  rw [Nat.mul_one, Nat.mod_eq_of_lt (by omega)]
  apply List.map_congr_left
  intro i hi
  have := List.mem_range.mp hi
  exact uadd_eq p i (by omega)

/-- Writes contributed by one iteration. -/
theorem written_ids_iteration_trace (t cmd : List event) (ids wr : List Nat)
    (a b c d : Nat) (p1 p2 p3 : Prop) [Decidable p1] [Decidable p2] [Decidable p3] :
    written_ids (t ++ cmd
        ++ (if p1 then [event.copy_device_to_host a b] else [])
        ++ ids.map event.read
        ++ (if p2 then [event.copy_host_to_device c d] else [])
        ++ (if p3 then wr.map event.write else []))
      = written_ids t ++ written_ids cmd ++ (if p3 then wr else []) := by
  have h1 : written_ids (if p1 then [event.copy_device_to_host a b] else []) = [] := by
    split <;> rfl
  have h2 : written_ids (if p2 then [event.copy_host_to_device c d] else []) = [] := by
    split <;> rfl
  have h3 : written_ids (if p3 then wr.map event.write else [])
      = (if p3 then wr else []) := by
    split
    · exact written_ids_map_write wr
    · rfl
  simp only [written_ids_append, h1, h2, h3, written_ids_map_read, List.append_nil]

/-- Commands contributed by one iteration. -/
theorem command_counts_iteration_trace (t cmd : List event) (ids wr : List Nat)
    (a b c d : Nat) (p1 p2 p3 : Prop) [Decidable p1] [Decidable p2] [Decidable p3] :
    command_counts (t ++ cmd
        ++ (if p1 then [event.copy_device_to_host a b] else [])
        ++ ids.map event.read
        ++ (if p2 then [event.copy_host_to_device c d] else [])
        ++ (if p3 then wr.map event.write else []))
      = command_counts t ++ command_counts cmd := by
  have h1 : command_counts (if p1 then [event.copy_device_to_host a b] else []) = [] := by
    split <;> rfl
  have h2 : command_counts (if p2 then [event.copy_host_to_device c d] else []) = [] := by
    split <;> rfl
  have h3 : command_counts (if p3 then wr.map event.write else []) = [] := by
    split
    · exact command_counts_map_write wr
    · rfl
  simp only [command_counts_append, h1, h2, h3, command_counts_map_read, List.append_nil]

/-- The ids written up to and including a chunk. -/
theorem range_append_chunk (p w : Nat) :
    List.range p ++ (if 0 < w then (List.range w).map (fun i => p + i) else [])
      = List.range (p + w) := by
  by_cases hw : 0 < w
  · rw [if_pos hw, List.range_add]
  · have : w = 0 := by omega
    subst this
    simp

theorem getD_mem (L : List Nat) (j : Nat) (h : j < L.length) : L.getD j 0 ∈ L := by
  rw [List.getD_eq_getElem L 0 h]
  exact List.getElem_mem h

/-- Reading phase, tiling factor 1: one iteration sends the pending entries to the worker,
reads the next chunk and writes the outputs that are ready; the loop goes on. -/
theorem io_iteration_reading (cfg : run_config) (L : List Nat) (E base : Nat)
    (reader : structured_data_bunch_reader) (s : control_state)
    (hL : ∀ x ∈ L, 1 ≤ x) (hov : ∀ x ∈ L, E + x ≤ 2 ^ 32)
    (hread : ∀ id, reader.read id = read_result.entry_read (decide (id < E)))
    (inv : loop_io L E cfg.output_layers_tiling_factor s)
    (henc : s.entry_not_read_encountered = false) (hp : 0 < s.entry_to_process_count) :
    ∃ s1, actual_run_iteration cfg L base reader s = (s1, loop_control.next) ∧
      loop_io L E cfg.output_layers_tiling_factor s1 ∧
      (s1.entry_not_read_encountered = false →
        s.base_entry_to_read_id < s1.base_entry_to_read_id) := by
  have hp0 : s.entry_to_process_count ≠ 0 := by omega
  obtain ⟨c1, _, c3, c4, c5, c6⟩ := set_command_io cfg base s inv.not_initial inv.not_stopped
  rw [decide_eq_false hp0] at c5 c6
  have hk1 : 1 ≤ L.getD s.chunk_index 0 := getD_pos L _ hL inv.index_lt
  have hkE := hov _ (getD_mem L _ inv.index_lt)
  have hRE := inv.read_le
  have hbal := inv.balance
  have hrd := read_input_data_prefix L reader E hread s henc (by omega) (by omega)
  have hit := actual_run_iteration_ok cfg L base reader s _ _ hrd
    (by rw [c1]; exact inv.no_error)
  have hmin : min (L.getD s.chunk_index 0) (E - s.base_entry_to_read_id)
      ≤ E - s.base_entry_to_read_id := Nat.min_le_right _ _
  have hR1 : (actual_run_iteration cfg L base reader s).1.base_entry_to_read_id
      = s.base_entry_to_read_id
        + min (L.getD s.chunk_index 0) (E - s.base_entry_to_read_id) := by
    rw [hit]
    exact uadd_eq _ _ (by omega)
  have hp1 : (actual_run_iteration cfg L base reader s).1.entry_to_process_count
      = min (L.getD s.chunk_index 0) (E - s.base_entry_to_read_id) := by
    rw [hit]
  have hw1 : (actual_run_iteration cfg L base reader s).1.entry_to_write_count
      = s.entry_to_process_count := by
    rw [hit]
  have hq1 : (actual_run_iteration cfg L base reader s).1.entry_processed_count
      = s.entry_processed_count + s.entry_to_write_count := by
    rw [hit]
    exact uadd_eq _ _ (by omega)
  have henc1 : (actual_run_iteration cfg L base reader s).1.entry_not_read_encountered
      = decide (E - s.base_entry_to_read_id < L.getD s.chunk_index 0) := by
    rw [hit]
  refine ⟨(actual_run_iteration cfg L base reader s).1, ?_, ?_, ?_⟩
  · apply pair_eq_of_snd
    rw [hit]
    simp only [c6, Bool.not_false, Bool.true_eq_false, and_false, if_false]
  · constructor
    · rw [hit]
    · rw [hit]
      exact c5
    · rw [hit]
      simp only []
      rw [c1]
      exact inv.no_error
    · intro ht
      rw [hq1, hit]
      simp only []
      rw [written_ids_iteration_trace, c3, inv.written ht, List.append_nil, ht,
        written_entry_ids_one _ _ (by omega), range_append_chunk]
    · rw [hit]
      simp only []
      rw [command_counts_iteration_trace, c4]
      intro n hn
      rcases List.mem_append.mp hn with h | h
      · exact inv.commands_pos n h
      · rw [List.mem_singleton.mp h]
        exact hp
    · rw [hq1, hw1, hp1, hR1]
      omega
    · rw [hR1]
      omega
    · rw [hit]
      exact Nat.mod_lt _ (by have := inv.index_lt; omega)
    · by_cases hend : E - s.base_entry_to_read_id < L.getD s.chunk_index 0
      · right
        rw [henc1, hR1]
        refine ⟨decide_eq_true hend, ?_⟩
        omega
      · left
        rw [henc1, hp1]
        refine ⟨decide_eq_false hend, ?_⟩
        omega
  · intro h
    rw [henc1] at h
    have hend : ¬ E - s.base_entry_to_read_id < L.getD s.chunk_index 0 :=
      of_decide_eq_false h
    rw [hR1]
    omega

/-- Draining phase, tiling factor 1, entries still to process: they are sent to the worker,
nothing is read, the outputs that are ready are written; the loop goes on. -/
theorem io_iteration_drain_pos (cfg : run_config) (L : List Nat) (E base : Nat)
    (reader : structured_data_bunch_reader) (s : control_state)
    (hE : E < 2 ^ 32)
    (inv : loop_io L E cfg.output_layers_tiling_factor s)
    (henc : s.entry_not_read_encountered = true) (hRE : s.base_entry_to_read_id = E)
    (hp : 0 < s.entry_to_process_count) :
    ∃ s1, actual_run_iteration cfg L base reader s = (s1, loop_control.next) ∧
      loop_io L E cfg.output_layers_tiling_factor s1 ∧
      s1.entry_not_read_encountered = true ∧ s1.base_entry_to_read_id = E ∧
      s1.entry_to_process_count = 0 := by
  have hp0 : s.entry_to_process_count ≠ 0 := by omega
  obtain ⟨c1, _, c3, c4, c5, c6⟩ := set_command_io cfg base s inv.not_initial inv.not_stopped
  rw [decide_eq_false hp0] at c5 c6
  have hbal := inv.balance
  have hrd : (read_input_data L reader s).2 = some (0, true) := by
    rw [read_input_data_drained L reader s henc]
  have hit := actual_run_iteration_ok cfg L base reader s 0 true hrd
    (by rw [c1]; exact inv.no_error)
  have hR1 : (actual_run_iteration cfg L base reader s).1.base_entry_to_read_id = E := by
    rw [hit]
    show uadd s.base_entry_to_read_id 0 = E
    rw [uadd_eq _ _ (by omega), hRE, Nat.add_zero]
  have hp1 : (actual_run_iteration cfg L base reader s).1.entry_to_process_count = 0 := by
    rw [hit]
  have hw1 : (actual_run_iteration cfg L base reader s).1.entry_to_write_count
      = s.entry_to_process_count := by
    rw [hit]
  have hq1 : (actual_run_iteration cfg L base reader s).1.entry_processed_count
      = s.entry_processed_count + s.entry_to_write_count := by
    rw [hit]
    exact uadd_eq _ _ (by omega)
  have henc1 : (actual_run_iteration cfg L base reader s).1.entry_not_read_encountered
      = true := by
    rw [hit]
  refine ⟨(actual_run_iteration cfg L base reader s).1, ?_, ?_, henc1, hR1, hp1⟩
  · apply pair_eq_of_snd
    rw [hit]
    simp only [c6, Bool.not_false, Bool.true_eq_false, and_false, if_false]
  · constructor
    · rw [hit]
    · rw [hit]
      exact c5
    · rw [hit]
      simp only []
      rw [c1]
      exact inv.no_error
    · intro ht
      rw [hq1, hit]
      simp only []
      rw [written_ids_iteration_trace, c3, inv.written ht, List.append_nil, ht,
        written_entry_ids_one _ _ (by omega), range_append_chunk]
    · rw [hit]
      simp only []
      rw [command_counts_iteration_trace, c4]
      intro n hn
      rcases List.mem_append.mp hn with h | h
      · exact inv.commands_pos n h
      · rw [List.mem_singleton.mp h]
        exact hp
    · rw [hq1, hw1, hp1, hR1]
      omega
    · rw [hR1]
    · rw [hit]
      exact Nat.mod_lt _ (by have := inv.index_lt; omega)
    · right
      exact ⟨henc1, hR1⟩

/-- Draining phase, tiling factor 1, nothing left to process: the zero-count command is sent,
the worker leaves its loop, the last outputs are written and the loop is left. -/
theorem io_iteration_drain_zero (cfg : run_config) (L : List Nat) (E base : Nat)
    (reader : structured_data_bunch_reader) (s : control_state)
    (hE : E < 2 ^ 32)
    (inv : loop_io L E cfg.output_layers_tiling_factor s)
    (henc : s.entry_not_read_encountered = true) (hRE : s.base_entry_to_read_id = E)
    (hp : s.entry_to_process_count = 0) :
    ∃ s1, actual_run_iteration cfg L base reader s = (s1, loop_control.leave) ∧
      (cfg.output_layers_tiling_factor = 1 → written_ids s1.trace = List.range E) ∧
      s1.entry_processed_count = E ∧
      s1.worker.error_message = "" ∧
      s1.worker.exited = true ∧
      ∃ pos, command_counts s1.trace = pos ++ [0] ∧ ∀ n ∈ pos, 0 < n := by
  obtain ⟨c1, c2, c3, c4, _, c6⟩ := set_command_io cfg base s inv.not_initial inv.not_stopped
  rw [decide_eq_true hp] at c2 c6
  rw [hp] at c4
  have hbal := inv.balance
  have hrd : (read_input_data L reader s).2 = some (0, true) := by
    rw [read_input_data_drained L reader s henc]
  have hit := actual_run_iteration_ok cfg L base reader s 0 true hrd
    (by rw [c1]; exact inv.no_error)
  have hq1 : (actual_run_iteration cfg L base reader s).1.entry_processed_count = E := by
    rw [hit]
    show uadd s.entry_processed_count s.entry_to_write_count = E
    rw [uadd_eq _ _ (by omega)]
    omega
  refine ⟨(actual_run_iteration cfg L base reader s).1, ?_, ?_, hq1, ?_, ?_, ?_⟩
  · apply pair_eq_of_snd
    rw [hit]
    simp only [c6, Bool.not_true, and_self, if_true]
  · intro ht
    rw [hit]
    simp only []
    rw [written_ids_iteration_trace, c3, inv.written ht, List.append_nil, ht,
      written_entry_ids_one _ _ (by omega), range_append_chunk]
    congr 1
    omega
  · rw [hit]
    simp only []
    rw [c1]
    exact inv.no_error
  · rw [hit]
    exact c2
  · refine ⟨command_counts s.trace, ?_, inv.commands_pos⟩
    rw [hit]
    simp only []
    rw [command_counts_iteration_trace, c4]

/-- The first iteration, tiling factor 1, for a reader with at least one entry: no command
is sent, the first chunk is read, and the loop goes on. -/
theorem io_iteration_initial (cfg : run_config) (L : List Nat) (E base : Nat)
    (reader : structured_data_bunch_reader)
    (hL : ∀ x ∈ L, 1 ≤ x) (hN : 0 < L.length) (hov : ∀ x ∈ L, E + x ≤ 2 ^ 32)
    (hread : ∀ id, reader.read id = read_result.entry_read (decide (id < E)))
    (hE : 1 ≤ E) :
    ∃ s1, actual_run_iteration cfg L base reader control_state.init
        = (s1, loop_control.next) ∧
      loop_io L E cfg.output_layers_tiling_factor s1 := by
  have hcmd := set_command_initial cfg base
  have hk1 : 1 ≤ L.getD 0 0 := getD_pos L 0 hL hN
  have hkE := hov _ (getD_mem L 0 hN)
  have hrd : (read_input_data L reader control_state.init).2
      = some (min (L.getD 0 0) E, decide (E < L.getD 0 0)) :=
    read_input_data_prefix L reader E hread control_state.init rfl
      (by show 0 + L.getD 0 0 ≤ 2 ^ 32; omega) (by show L.getD 0 0 < 2 ^ 32; omega)
  have hit := actual_run_iteration_ok cfg L base reader control_state.init _ _ hrd
    (by rw [hcmd]; rfl)
  have hmin : min (L.getD 0 0) E ≤ E := Nat.min_le_right _ _
  have hR1 : (actual_run_iteration cfg L base reader control_state.init).1.base_entry_to_read_id
      = min (L.getD 0 0) E := by
    rw [hit]
    show uadd 0 (min (L.getD 0 0) E) = min (L.getD 0 0) E
    rw [uadd_eq _ _ (by omega), Nat.zero_add]
  have hp1 : (actual_run_iteration cfg L base reader control_state.init).1.entry_to_process_count
      = min (L.getD 0 0) E := by
    rw [hit]
  have hw1 : (actual_run_iteration cfg L base reader control_state.init).1.entry_to_write_count
      = 0 := by
    rw [hit]
    rfl
  have hq1 : (actual_run_iteration cfg L base reader control_state.init).1.entry_processed_count
      = 0 := by
    rw [hit]
    rfl
  have henc1 :
      (actual_run_iteration cfg L base reader control_state.init).1.entry_not_read_encountered
      = decide (E < L.getD 0 0) := by
    rw [hit]
  refine ⟨(actual_run_iteration cfg L base reader control_state.init).1, ?_, ?_⟩
  · apply pair_eq_of_snd
    rw [hit]
    have : ¬ min (L.getD 0 0) E = 0 := by omega
    simp only [this, false_and, if_false]
  · constructor
    · rw [hit]
    · rw [hit, hcmd]
    · rw [hit, hcmd]
      rfl
    · intro _
      rw [hq1, hit]
      simp only []
      rw [written_ids_iteration_trace, hcmd]
      rfl
    · rw [hit]
      simp only []
      rw [command_counts_iteration_trace, hcmd]
      intro n hn
      simp [command_counts, control_state.init] at hn
    · rw [hq1, hw1, hp1, hR1]
      omega
    · rw [hR1]
      exact hmin
    · rw [hit]
      exact Nat.mod_lt _ hN
    · by_cases hend : E < L.getD 0 0
      · right
        rw [henc1, hR1]
        refine ⟨decide_eq_true hend, ?_⟩
        omega
      · left
        rw [henc1, hp1]
        refine ⟨decide_eq_false hend, ?_⟩
        omega

/-- The first iteration for a reader without entries: no command is sent, nothing is
written, and the loop is left at once, the worker still waiting for a command. -/
theorem io_iteration_initial_empty (cfg : run_config) (L : List Nat) (base : Nat)
    (reader : structured_data_bunch_reader)
    (hov : ∀ x ∈ L, x < 2 ^ 32) (hN : 0 < L.length)
    (hread : ∀ id, reader.read id = read_result.entry_read false) :
    ∃ s1, actual_run_iteration cfg L base reader control_state.init
        = (s1, loop_control.leave) ∧
      written_ids s1.trace = [] ∧
      command_counts s1.trace = [] ∧
      s1.entry_processed_count = 0 ∧
      s1.worker = run_kernels_state.init := by
  have hcmd := set_command_initial cfg base
  have hkE := hov _ (getD_mem L 0 hN)
  have hread0 : ∀ id, reader.read id = read_result.entry_read (decide (id < 0)) := by
    intro id
    rw [hread id]
    rfl
  have hrd : ∃ enc, (read_input_data L reader control_state.init).2 = some (0, enc) := by
    have h := read_input_data_prefix L reader 0 hread0 control_state.init rfl
      (by show 0 + L.getD 0 0 ≤ 2 ^ 32; omega) (by show L.getD 0 0 < 2 ^ 32; omega)
    have h0 : min (L.getD control_state.init.chunk_index 0)
        (0 - control_state.init.base_entry_to_read_id) = 0 := Nat.min_eq_right (Nat.zero_le _)
    rw [h0] at h
    exact ⟨_, h⟩
  obtain ⟨enc, hrd⟩ := hrd
  have hit := actual_run_iteration_ok cfg L base reader control_state.init _ _ hrd
    (by rw [hcmd]; rfl)
  refine ⟨(actual_run_iteration cfg L base reader control_state.init).1, ?_, ?_, ?_, ?_, ?_⟩
  · apply pair_eq_of_snd
    rw [hit, hcmd]
    simp only [and_self, if_true]
  · rw [hit]
    simp only []
    rw [written_ids_iteration_trace, hcmd]
    rfl
  · rw [hit]
    simp only []
    rw [command_counts_iteration_trace, hcmd]
    rfl
  · rw [hit]
    rfl
  · rw [hit, hcmd]

/-- Draining phase, tiling factor 1: the loop ends within two iterations. -/
theorem io_loop_drain (cfg : run_config) (L : List Nat) (E base : Nat)
    (reader : structured_data_bunch_reader) (s : control_state)
    (hE : E < 2 ^ 32)
    (inv : loop_io L E cfg.output_layers_tiling_factor s)
    (henc : s.entry_not_read_encountered = true) (hRE : s.base_entry_to_read_id = E)
    (fuel : Nat) (hfuel : 2 ≤ fuel) :
    ∃ s1, actual_run_loop cfg L base reader fuel s = some (s1, none) ∧
      (cfg.output_layers_tiling_factor = 1 → written_ids s1.trace = List.range E) ∧
      s1.entry_processed_count = E ∧
      s1.worker.error_message = "" ∧
      s1.worker.exited = true ∧
      ∃ pos, command_counts s1.trace = pos ++ [0] ∧ ∀ n ∈ pos, 0 < n := by
  obtain ⟨f, rfl⟩ : ∃ f, fuel = f + 2 := ⟨fuel - 2, by omega⟩
  by_cases hp : s.entry_to_process_count = 0
  · obtain ⟨s1, h1, h2⟩ := io_iteration_drain_zero cfg L E base reader s hE inv henc hRE hp
    refine ⟨s1, ?_, h2⟩
    rw [actual_run_loop, h1]
  · obtain ⟨s1, h1, inv1, henc1, hRE1, hp1⟩ := io_iteration_drain_pos cfg L E base reader s
      hE inv henc hRE (by omega)
    obtain ⟨s2, h2, h3⟩ := io_iteration_drain_zero cfg L E base reader s1 hE inv1 henc1
      hRE1 hp1
    refine ⟨s2, ?_, h3⟩
    rw [actual_run_loop, h1]
    simp only []
    rw [actual_run_loop, h2]

/-- From any loop head, tiling factor 1, the loop ends within
`E - base_entry_to_read_id + 3` iterations. -/
theorem io_loop_from_head (cfg : run_config) (L : List Nat) (E base : Nat)
    (reader : structured_data_bunch_reader)
    (hL : ∀ x ∈ L, 1 ≤ x) (hov : ∀ x ∈ L, E + x ≤ 2 ^ 32)
    (hread : ∀ id, reader.read id = read_result.entry_read (decide (id < E))) :
    ∀ (d : Nat) (s : control_state), loop_io L E cfg.output_layers_tiling_factor s →
      E - s.base_entry_to_read_id ≤ d →
      ∀ fuel, d + 3 ≤ fuel →
      ∃ s1, actual_run_loop cfg L base reader fuel s = some (s1, none) ∧
        (cfg.output_layers_tiling_factor = 1 → written_ids s1.trace = List.range E) ∧
        s1.entry_processed_count = E ∧
        s1.worker.error_message = "" ∧
        s1.worker.exited = true ∧
        ∃ pos, command_counts s1.trace = pos ++ [0] ∧ ∀ n ∈ pos, 0 < n := by
  intro d
  induction d with
  | zero =>
    intro s inv hd fuel hfuel
    have hE32 : E < 2 ^ 32 := by
      have h1 := getD_pos L _ hL inv.index_lt
      have h2 := hov _ (getD_mem L _ inv.index_lt)
      omega
    rcases inv.phase with ⟨henc, hp⟩ | ⟨henc, hRE⟩
    · obtain ⟨s1, h1, inv1, hm⟩ := io_iteration_reading cfg L E base reader s hL hov
        hread inv henc hp
      obtain ⟨f, rfl⟩ : ∃ f, fuel = f + 1 := ⟨fuel - 1, by omega⟩
      rcases inv1.phase with ⟨henc1, _⟩ | ⟨henc1, hRE1⟩
      · have := hm henc1
        have := inv1.read_le
        omega
      · obtain ⟨s2, h2, h3⟩ := io_loop_drain cfg L E base reader s1 hE32 inv1 henc1 hRE1
          f (by omega)
        refine ⟨s2, ?_, h3⟩
        rw [actual_run_loop, h1]
        exact h2
    · exact io_loop_drain cfg L E base reader s hE32 inv henc hRE fuel (by omega)
  | succ d ih =>
    intro s inv hd fuel hfuel
    have hE32 : E < 2 ^ 32 := by
      have h1 := getD_pos L _ hL inv.index_lt
      have h2 := hov _ (getD_mem L _ inv.index_lt)
      omega
    rcases inv.phase with ⟨henc, hp⟩ | ⟨henc, hRE⟩
    · obtain ⟨s1, h1, inv1, hm⟩ := io_iteration_reading cfg L E base reader s hL hov
        hread inv henc hp
      obtain ⟨f, rfl⟩ : ∃ f, fuel = f + 1 := ⟨fuel - 1, by omega⟩
      rcases inv1.phase with ⟨henc1, _⟩ | ⟨henc1, hRE1⟩
      · have := hm henc1
        obtain ⟨s2, h2, h3⟩ := ih s1 inv1 (by omega) f (by omega)
        refine ⟨s2, ?_, h3⟩
        rw [actual_run_loop, h1]
        exact h2
      · obtain ⟨s2, h2, h3⟩ := io_loop_drain cfg L E base reader s1 hE32 inv1 henc1 hRE1
          f (by omega)
        refine ⟨s2, ?_, h3⟩
        rw [actual_run_loop, h1]
        exact h2
    · exact io_loop_drain cfg L E base reader s hE32 inv henc hRE fuel (by omega)

/-- The whole control loop with output tiling factor 1 for a reader of exactly `E >= 1`
entries: it ends within `E + 3` iterations without exception; the ids written are
`0, ..., E - 1` in this order, `entry_processed_count` is `E`, the commands sent are non-zero
counts followed by one zero count, and the worker has left its loop. -/
theorem io_loop_prefix (cfg : run_config) (L : List Nat) (E base : Nat)
    (reader : structured_data_bunch_reader)
    (hL : ∀ x ∈ L, 1 ≤ x) (hN : 0 < L.length) (hov : ∀ x ∈ L, E + x ≤ 2 ^ 32)
    (hread : ∀ id, reader.read id = read_result.entry_read (decide (id < E)))
    (hE : 1 ≤ E) (fuel : Nat) (hfuel : E + 3 ≤ fuel) :
    ∃ s1, actual_run_loop cfg L base reader fuel control_state.init = some (s1, none) ∧
      (cfg.output_layers_tiling_factor = 1 → written_ids s1.trace = List.range E) ∧
      s1.entry_processed_count = E ∧
      s1.worker.error_message = "" ∧
      s1.worker.exited = true ∧
      ∃ pos, command_counts s1.trace = pos ++ [0] ∧ ∀ n ∈ pos, 0 < n := by
  obtain ⟨s1, h1, inv1⟩ := io_iteration_initial cfg L E base reader hL hN hov hread hE
  obtain ⟨f, rfl⟩ : ∃ f, fuel = f + 1 := ⟨fuel - 1, by omega⟩
  have hR : 1 ≤ s1.base_entry_to_read_id := by
    have := inv1.balance
    rcases inv1.phase with ⟨_, hp⟩ | ⟨_, hRE⟩ <;> omega
  obtain ⟨s2, h2, h3⟩ := io_loop_from_head cfg L E base reader hL hov hread (E - 1)
    s1 inv1 (by omega) f (by omega)
  refine ⟨s2, ?_, h3⟩
  rw [actual_run_loop, h1]
  exact h2

/-- The whole control loop for a reader without entries: it is left in its first iteration;
nothing is written, no command at all has been sent, and the worker has not left its
loop. -/
theorem io_loop_empty (cfg : run_config) (L : List Nat) (base : Nat)
    (reader : structured_data_bunch_reader)
    (hov : ∀ x ∈ L, x < 2 ^ 32) (hN : 0 < L.length)
    (hread : ∀ id, reader.read id = read_result.entry_read false)
    (fuel : Nat) (hfuel : 1 ≤ fuel) :
    ∃ s1, actual_run_loop cfg L base reader fuel control_state.init = some (s1, none) ∧
      written_ids s1.trace = [] ∧
      command_counts s1.trace = [] ∧
      s1.entry_processed_count = 0 ∧
      s1.worker = run_kernels_state.init := by
  obtain ⟨s1, h1, h2⟩ := io_iteration_initial_empty cfg L base reader hov hN hread
  obtain ⟨f, rfl⟩ : ∃ f, fuel = f + 1 := ⟨fuel - 1, by omega⟩
  refine ⟨s1, ?_, h2⟩
  rw [actual_run_loop, h1]

theorem mem_le_sum : ∀ (L : List Nat) (x : Nat), x ∈ L → x ≤ L.sum := by
  intro L
  induction L with
  | nil => intro x h; simp at h
  | cons y ys ih =>
    intro x h
    rw [List.sum_cons]
    rcases List.mem_cons.mp h with h1 | h1
    · omega
    · have := ih x h1
      omega

theorem iteration_ids_join (l : String) (t : List event) :
    iteration_ids l (t ++ [event.thread_join]) = iteration_ids l t := by
  rw [iteration_ids_append]
  exact List.append_nil _

/-- A whole run over a reader of exactly `E >= 1` entries, for any base iteration count. -/
theorem actual_run_prefix (cfg : run_config) (reader : structured_data_bunch_reader)
    (E base : Nat) (l : String) (fuel : Nat)
    (hB : 1 ≤ cfg.batch_size) (hM : 1 ≤ cfg.max_entry_count)
    (hw : cfg.batch_size + cfg.max_entry_count - 1 < 2 ^ 32)
    (hE : 1 ≤ E) (hEB : E + cfg.batch_size ≤ 2 ^ 32)
    (hbase : base_iteration_count cfg.momentum cfg.epoch_id cfg.batch_size
      reader.get_entry_count = Except.ok base)
    (hov : base + (E + cfg.batch_size - 1) / cfg.batch_size < 2 ^ 32)
    (hread : ∀ id, reader.read id = read_result.entry_read (decide (id < E)))
    (hl1 : cfg.actions_in_execution_order.count
      { name := l, action := layer_action.update_weights } = 1)
    (hl2 : cfg.update_accum_layers.count l = 1)
    (hfuel : E + 3 ≤ fuel) :
    ∃ tr r, actual_run cfg reader fuel = some (tr, Except.ok r) ∧
      r.gradient_applied_count = (E + cfg.batch_size - 1) / cfg.batch_size ∧
      iteration_ids l tr
        = (List.range ((E + cfg.batch_size - 1) / cfg.batch_size)).map
            (fun i => base + (i + 1)) := by
  have hL : ∀ x ∈ entry_read_count_list cfg.batch_size cfg.max_entry_count, 1 ≤ x :=
    fun x hx => ((chunk_sizes_bounded_aux cfg.batch_size cfg.max_entry_count hB hM hw) x hx).1
  have hsum := chunk_sizes_sum_aux cfg.batch_size cfg.max_entry_count hM hw
  have hN : 0 < (entry_read_count_list cfg.batch_size cfg.max_entry_count).length := by
    cases hl : entry_read_count_list cfg.batch_size cfg.max_entry_count with
    | nil => rw [hl] at hsum; simp at hsum; omega
    | cons x xs => simp
  obtain ⟨s1, h1, h2, h3, h4⟩ := actual_run_loop_prefix cfg _ E base l reader hL hsum hN hE
    hEB hov hread hl1 hl2 fuel hfuel
  have hex : s1.worker.exited = true := by
    obtain ⟨s2, k1, _, _, _, k5, _⟩ := io_loop_prefix cfg _ E base reader hL hN
      (fun x hx => by have := mem_le_sum _ x hx; omega) hread hE fuel hfuel
    rw [h1] at k1
    simp only [Option.some.injEq, Prod.mk.injEq, and_true] at k1
    rw [k1]
    exact k5
  refine ⟨s1.trace ++ [event.thread_join],
    { entries_processed := s1.entry_processed_count
      gradient_applied_count := s1.worker.gradient_applied_count }, ?_, h2, ?_⟩
  · unfold actual_run
    have hM0 : ¬ cfg.max_entry_count = 0 := by omega
    simp only [if_neg hM0, hbase, h1, h3, hex, Bool.true_eq_false, ne_eq, not_true_eq_false,
      if_false]
  · rw [iteration_ids_join, h4]

/-- C10: for a run with Adam momentum over a reader that yields exactly E >= 1 entries and
reports entry count E, with batch size B, the optimizer is applied exactly c = ceil(E/B)
times and the iteration ids passed to `enqueue_apply_gradient` (for a layer with one
`update_weights` action and one update accumulator) are base+1, ..., base+c with
base = epoch_id * c; the ids are strictly increasing within the run, and every id used in
epoch e+1 is greater than every id used in epoch e. -/
theorem C10_adam_iteration_ids (cfg : run_config) (reader : structured_data_bunch_reader)
    (E : Nat) (l : String) (fuel : Nat)
    (hB : 1 ≤ cfg.batch_size) (hM : 1 ≤ cfg.max_entry_count)
    (hw : cfg.batch_size + cfg.max_entry_count - 1 < 2 ^ 32)
    (hE : 1 ≤ E) (hEB : E + cfg.batch_size ≤ 2 ^ 32)
    (hadam : cfg.momentum = training_momentum_type.adam_momentum)
    (hread : ∀ id, reader.read id = read_result.entry_read (decide (id < E)))
    (hcount : reader.get_entry_count = (E : Int))
    (hov : (cfg.epoch_id + 2) * ⌈(E : ℚ) / (cfg.batch_size : ℚ)⌉₊ < 2 ^ 32)
    (hl1 : cfg.actions_in_execution_order.count
      { name := l, action := layer_action.update_weights } = 1)
    (hl2 : cfg.update_accum_layers.count l = 1)
    (hfuel : E + 3 ≤ fuel) :
    ∃ tr r tr2 r2,
      actual_run cfg reader fuel = some (tr, Except.ok r) ∧
      r.gradient_applied_count = ⌈(E : ℚ) / (cfg.batch_size : ℚ)⌉₊ ∧
      iteration_ids l tr
        = (List.range ⌈(E : ℚ) / (cfg.batch_size : ℚ)⌉₊).map
            (fun i => cfg.epoch_id * ⌈(E : ℚ) / (cfg.batch_size : ℚ)⌉₊ + (i + 1)) ∧
      (iteration_ids l tr).Pairwise (fun i j => i < j) ∧
      actual_run { cfg with epoch_id := cfg.epoch_id + 1 } reader fuel
        = some (tr2, Except.ok r2) ∧
      r2.gradient_applied_count = ⌈(E : ℚ) / (cfg.batch_size : ℚ)⌉₊ ∧
      ∀ i ∈ iteration_ids l tr, ∀ j ∈ iteration_ids l tr2, i < j := by
  rw [ceil_div_eq E cfg.batch_size hB] at hov ⊢
  generalize hc : (E + cfg.batch_size - 1) / cfg.batch_size = c at hov
  have e2 : (cfg.epoch_id + 2) * c = cfg.epoch_id * c + c + c := by ring
  have e1 : (cfg.epoch_id + 1) * c = cfg.epoch_id * c + c := by ring
  have hb1 : base_iteration_count cfg.momentum cfg.epoch_id cfg.batch_size
      reader.get_entry_count = Except.ok (cfg.epoch_id * c) := by
    rw [hadam, hcount, ← hc]
    exact base_iteration_count_adam cfg.epoch_id cfg.batch_size E hB (by omega)
      (by rw [hc]; omega)
  have hb2 : base_iteration_count cfg.momentum (cfg.epoch_id + 1) cfg.batch_size
      reader.get_entry_count = Except.ok ((cfg.epoch_id + 1) * c) := by
    rw [hadam, hcount, ← hc]
    exact base_iteration_count_adam (cfg.epoch_id + 1) cfg.batch_size E hB (by omega)
      (by rw [hc]; omega)
  obtain ⟨tr, r, h1, h2, h3⟩ := actual_run_prefix cfg reader E (cfg.epoch_id * c) l fuel
    hB hM hw hE hEB hb1 (by rw [hc]; omega) hread hl1 hl2 hfuel
  obtain ⟨tr2, r2, k1, k2, k3⟩ := actual_run_prefix { cfg with epoch_id := cfg.epoch_id + 1 }
    reader E ((cfg.epoch_id + 1) * c) l fuel hB hM hw hE hEB hb2
    (by show (cfg.epoch_id + 1) * c + (E + cfg.batch_size - 1) / cfg.batch_size < 2 ^ 32
        rw [hc]; omega)
    hread hl1 hl2 hfuel
  rw [hc] at h2 h3
  have k2c : r2.gradient_applied_count = c := by rw [k2]; exact hc
  have k3c : iteration_ids l tr2
      = (List.range c).map (fun i => (cfg.epoch_id + 1) * c + (i + 1)) := by
    rw [k3]
    show (List.range ((E + cfg.batch_size - 1) / cfg.batch_size)).map _ = _
    rw [hc]
  refine ⟨tr, r, tr2, r2, h1, h2, h3, ?_, k1, k2c, ?_⟩
  · rw [h3]
    apply List.Pairwise.map _ _ (List.pairwise_lt_range c)
    intro x y hxy
    omega
  · intro i hi j hj
    rw [h3] at hi
    rw [k3c] at hj
    obtain ⟨x, hx, rfl⟩ := List.mem_map.mp hi
    obtain ⟨y, hy, rfl⟩ := List.mem_map.mp hj
    have := List.mem_range.mp hx
    omega

theorem C10_adam_iteration_ids_witness :
    ∃ tr r tr2 r2,
      actual_run
          { batch_size := 5, max_entry_count := 2
            momentum := training_momentum_type.adam_momentum
            epoch_id := 2, output_layers_tiling_factor := 1
            actions_in_execution_order :=
              [{ name := "fc", action := layer_action.forward },
               { name := "fc", action := layer_action.backward_weights },
               { name := "fc", action := layer_action.update_weights }]
            update_accum_layers := ["fc"] }
          { read := fun id => read_result.entry_read (decide (id < 13))
            get_entry_count := ((13 : Nat) : Int) } 16
        = some (tr, Except.ok r) ∧
      r.gradient_applied_count = ⌈((13 : Nat) : ℚ) / ((5 : Nat) : ℚ)⌉₊ ∧
      iteration_ids "fc" tr
        = (List.range ⌈((13 : Nat) : ℚ) / ((5 : Nat) : ℚ)⌉₊).map
            (fun i => 2 * ⌈((13 : Nat) : ℚ) / ((5 : Nat) : ℚ)⌉₊ + (i + 1)) ∧
      (iteration_ids "fc" tr).Pairwise (fun i j => i < j) ∧
      actual_run
          { batch_size := 5, max_entry_count := 2
            momentum := training_momentum_type.adam_momentum
            epoch_id := 2 + 1, output_layers_tiling_factor := 1
            actions_in_execution_order :=
              [{ name := "fc", action := layer_action.forward },
               { name := "fc", action := layer_action.backward_weights },
               { name := "fc", action := layer_action.update_weights }]
            update_accum_layers := ["fc"] }
          { read := fun id => read_result.entry_read (decide (id < 13))
            get_entry_count := ((13 : Nat) : Int) } 16
        = some (tr2, Except.ok r2) ∧
      r2.gradient_applied_count = ⌈((13 : Nat) : ℚ) / ((5 : Nat) : ℚ)⌉₊ ∧
      ∀ i ∈ iteration_ids "fc" tr, ∀ j ∈ iteration_ids "fc" tr2, i < j :=
  C10_adam_iteration_ids
    { batch_size := 5, max_entry_count := 2
      momentum := training_momentum_type.adam_momentum
      epoch_id := 2, output_layers_tiling_factor := 1
      actions_in_execution_order :=
        [{ name := "fc", action := layer_action.forward },
         { name := "fc", action := layer_action.backward_weights },
         { name := "fc", action := layer_action.update_weights }]
      update_accum_layers := ["fc"] }
    { read := fun id => read_result.entry_read (decide (id < 13))
      get_entry_count := ((13 : Nat) : Int) }
    13 "fc" 16 (by decide) (by decide) (by decide) (by decide) (by decide) rfl
    (fun _ => rfl) rfl
    (by rw [ceil_div_eq 13 5 (by decide)]; decide)
    (by decide) (by decide) (by decide)

/-- A concrete run: 13 entries, batch size 5, at most 2 entries per chunk, epoch 2. The
three applications use the iteration ids 7, 8, 9. -/
theorem actual_run_example_ids :
    (actual_run
        { batch_size := 5, max_entry_count := 2
          momentum := training_momentum_type.adam_momentum
          epoch_id := 2, output_layers_tiling_factor := 1
          actions_in_execution_order :=
            [{ name := "fc", action := layer_action.forward },
             { name := "fc", action := layer_action.backward_weights },
             { name := "fc", action := layer_action.update_weights }]
          update_accum_layers := ["fc"] }
        { read := fun id => read_result.entry_read (decide (id < 13))
          get_entry_count := ((13 : Nat) : Int) } 16).map
      (fun r => (iteration_ids "fc" r.1, r.2))
      = some ([7, 8, 9],
          Except.ok { entries_processed := 13, gradient_applied_count := 3 }) := by
  rfl

/-! ## Whole runs: writes, commands, errors -/

theorem written_ids_join (t : List event) :
    written_ids (t ++ [event.thread_join]) = written_ids t := by
  rw [written_ids_append]
  exact List.append_nil _

theorem command_counts_join (t : List event) :
    command_counts (t ++ [event.thread_join]) = command_counts t := by
  rw [command_counts_append]
  exact List.append_nil _

/-- A whole run over a reader of exactly `E >= 1` entries, as the reader, the writer and the
worker see it: `actual_run` returns, `entries_processed` is `E`, with output tiling factor 1
the ids written are `0, ..., E - 1` in this order, and the commands are non-zero counts
followed by one zero count. -/
theorem actual_run_io_prefix (cfg : run_config) (reader : structured_data_bunch_reader)
    (E base fuel : Nat)
    (hB : 1 ≤ cfg.batch_size) (hM : 1 ≤ cfg.max_entry_count)
    (hw : cfg.batch_size + cfg.max_entry_count - 1 < 2 ^ 32)
    (hE : 1 ≤ E)
    (hov : ∀ x ∈ entry_read_count_list cfg.batch_size cfg.max_entry_count, E + x ≤ 2 ^ 32)
    (hbase : base_iteration_count cfg.momentum cfg.epoch_id cfg.batch_size
      reader.get_entry_count = Except.ok base)
    (hread : ∀ id, reader.read id = read_result.entry_read (decide (id < E)))
    (hfuel : E + 3 ≤ fuel) :
    ∃ tr r, actual_run cfg reader fuel = some (tr, Except.ok r) ∧
      (cfg.output_layers_tiling_factor = 1 → written_ids tr = List.range E) ∧
      r.entries_processed = E ∧
      ∃ pos, command_counts tr = pos ++ [0] ∧ ∀ n ∈ pos, 0 < n := by
  have hL : ∀ x ∈ entry_read_count_list cfg.batch_size cfg.max_entry_count, 1 ≤ x :=
    fun x hx => ((chunk_sizes_bounded_aux cfg.batch_size cfg.max_entry_count hB hM hw) x hx).1
  have hsum := chunk_sizes_sum_aux cfg.batch_size cfg.max_entry_count hM hw
  have hN : 0 < (entry_read_count_list cfg.batch_size cfg.max_entry_count).length := by
    cases hl : entry_read_count_list cfg.batch_size cfg.max_entry_count with
    | nil => rw [hl] at hsum; simp at hsum; omega
    | cons x xs => simp
  obtain ⟨s1, h1, h2, h3, h4, h5, pos, h6, h7⟩ := io_loop_prefix cfg _ E base reader hL hN hov
    hread hE fuel hfuel
  refine ⟨s1.trace ++ [event.thread_join],
    { entries_processed := s1.entry_processed_count
      gradient_applied_count := s1.worker.gradient_applied_count }, ?_, ?_, h3, pos, ?_, h7⟩
  · unfold actual_run
    have hM0 : ¬ cfg.max_entry_count = 0 := by omega
    simp only [if_neg hM0, hbase, h1, h4, h5, Bool.true_eq_false, ne_eq, not_true_eq_false,
      if_false]
  · intro ht
    rw [written_ids_join, h2 ht]
  · rw [command_counts_join, h6]

/-- C11: for a reader yielding exactly E entries (ids 0..E-1 readable), a valid chunk list
and output tiling factor 1, the control loop of `actual_run` ends without exception, has
called `writer.write` exactly E times, with entry ids 0, 1, ..., E-1 in this order, and its
`entry_processed_count`, the value reported as `entries_processed`, is E; for E >= 1 and the
chunk list built by `actual_run` itself, `actual_run` returns with these writes and
`entries_processed == E`. -/
theorem C11_writes_in_order (cfg : run_config) (reader : structured_data_bunch_reader)
    (L : List Nat) (E base fuel : Nat)
    (hne : L ≠ []) (hL : ∀ x ∈ L, 1 ≤ x) (hL32 : ∀ x ∈ L, x < 2 ^ 32)
    (hov : ∀ x ∈ L, E + x ≤ 2 ^ 32)
    (hread : ∀ id, reader.read id = read_result.entry_read (decide (id < E)))
    (ht : cfg.output_layers_tiling_factor = 1) (hfuel : E + 3 ≤ fuel) :
    (∃ s1, actual_run_loop cfg L base reader fuel control_state.init = some (s1, none) ∧
      written_ids s1.trace = List.range E ∧
      (written_ids s1.trace).length = E ∧
      s1.entry_processed_count = E) ∧
    (1 ≤ E → 1 ≤ cfg.batch_size → 1 ≤ cfg.max_entry_count →
      cfg.batch_size + cfg.max_entry_count - 1 < 2 ^ 32 →
      L = entry_read_count_list cfg.batch_size cfg.max_entry_count →
      base_iteration_count cfg.momentum cfg.epoch_id cfg.batch_size
        reader.get_entry_count = Except.ok base →
      ∃ tr r, actual_run cfg reader fuel = some (tr, Except.ok r) ∧
        written_ids tr = List.range E ∧ r.entries_processed = E) := by
  have hN : 0 < L.length := List.length_pos.mpr hne
  constructor
  · by_cases hE : 1 ≤ E
    · obtain ⟨s1, h1, h2, h3, _⟩ := io_loop_prefix cfg L E base reader hL hN hov hread hE
        fuel hfuel
      exact ⟨s1, h1, h2 ht, by rw [h2 ht, List.length_range], h3⟩
    · have hE0 : E = 0 := by omega
      subst hE0
      obtain ⟨s1, h1, h2, _, h4, _⟩ := io_loop_empty cfg L base reader hL32 hN
        (fun id => by rw [hread id]; rfl) fuel (by omega)
      exact ⟨s1, h1, by rw [h2]; rfl, by rw [h2]; rfl, h4⟩
  · intro hE hB hM hw hLeq hbase
    subst hLeq
    obtain ⟨tr, r, h1, h2, h3, _⟩ := actual_run_io_prefix cfg reader E base fuel hB hM hw hE
      hov hbase hread hfuel
    exact ⟨tr, r, h1, h2 ht, h3⟩

theorem C11_writes_in_order_witness :
    ∃ tr r, actual_run
        { batch_size := 5, max_entry_count := 2
          momentum := training_momentum_type.no_momentum
          epoch_id := 0, output_layers_tiling_factor := 1
          actions_in_execution_order :=
            [{ name := "fc", action := layer_action.forward },
             { name := "fc", action := layer_action.update_weights }]
          update_accum_layers := ["fc"] }
        { read := fun id => read_result.entry_read (decide (id < 5))
          get_entry_count := 5 } 8
      = some (tr, Except.ok r) ∧
      written_ids tr = List.range 5 ∧ r.entries_processed = 5 :=
  (C11_writes_in_order
    { batch_size := 5, max_entry_count := 2
      momentum := training_momentum_type.no_momentum
      epoch_id := 0, output_layers_tiling_factor := 1
      actions_in_execution_order :=
        [{ name := "fc", action := layer_action.forward },
         { name := "fc", action := layer_action.update_weights }]
      update_accum_layers := ["fc"] }
    { read := fun id => read_result.entry_read (decide (id < 5))
      get_entry_count := 5 }
    [2, 2, 1] 5 0 8 (by decide) (by decide) (by decide) (by decide) (fun _ => rfl) rfl
    (by decide)).2 (by decide) (by decide) (by decide) (by decide) (by decide) rfl

/-- C12 fails on the code: with output tiling factor 2, batch size 4, at most 2 entries per
chunk and a reader of 4 entries, each chunk of 2 entries is written with 4 consecutive ids
starting at `entry_processed_count`, which advances by 2 only: the ids written are
0, 1, 2, 3, 2, 3, 4, 5, so ids 2 and 3 are written twice and the sequence is not strictly
increasing. -/
theorem C12_tiled_write_ids_overlap :
    (actual_run
        { batch_size := 4, max_entry_count := 2
          momentum := training_momentum_type.no_momentum
          epoch_id := 0, output_layers_tiling_factor := 2
          actions_in_execution_order :=
            [{ name := "fc", action := layer_action.forward },
             { name := "fc", action := layer_action.update_weights }]
          update_accum_layers := ["fc"] }
        { read := fun id => read_result.entry_read (decide (id < 4))
          get_entry_count := 4 } 7).map (fun r => written_ids r.1)
      = some [0, 1, 2, 3, 2, 3, 4, 5] ∧
    ¬ List.Pairwise (fun i j => i < j) [0, 1, 2, 3, 2, 3, 4, 5] := by
  constructor
  · rfl
  · decide

/-- C13 fails on the code: for a reader without entries the control loop is left in its
first iteration without any command having been sent, not even the zero-count one; the
worker has not left its loop, and `actual_run` never returns from the `join` of line 436,
whatever the number of loop iterations allowed. -/
theorem C13_empty_reader_no_command (fuel : Nat) :
    (actual_run_loop
        { batch_size := 5, max_entry_count := 2
          momentum := training_momentum_type.no_momentum
          epoch_id := 0, output_layers_tiling_factor := 1
          actions_in_execution_order :=
            [{ name := "fc", action := layer_action.forward },
             { name := "fc", action := layer_action.update_weights }]
          update_accum_layers := ["fc"] }
        (entry_read_count_list 5 2) 0
        { read := fun _ => read_result.entry_read false, get_entry_count := 0 }
        (fuel + 1) control_state.init).map
      (fun r => (command_counts r.1.trace, r.1.worker.exited, r.2))
      = some ([], false, none) ∧
    actual_run
        { batch_size := 5, max_entry_count := 2
          momentum := training_momentum_type.no_momentum
          epoch_id := 0, output_layers_tiling_factor := 1
          actions_in_execution_order :=
            [{ name := "fc", action := layer_action.forward },
             { name := "fc", action := layer_action.update_weights }]
          update_accum_layers := ["fc"] }
        { read := fun _ => read_result.entry_read false, get_entry_count := 0 } fuel
      = none := by
  constructor
  · rfl
  · cases fuel with
    | zero => rfl
    | succ f => rfl

/-- C14 fails on the code: when the read task of entry 1 fails with the message "disk",
`actual_run` fails with `neural_network_exception(params.error_message)`, whose message is
the worker's (empty) error message, not "disk". -/
theorem C14_read_failure_message_lost :
    actual_run
        { batch_size := 5, max_entry_count := 2
          momentum := training_momentum_type.no_momentum
          epoch_id := 0, output_layers_tiling_factor := 1
          actions_in_execution_order :=
            [{ name := "fc", action := layer_action.forward },
             { name := "fc", action := layer_action.update_weights }]
          update_accum_layers := ["fc"] }
        { read := fun id =>
            if id = 1 then read_result.failure "disk" else read_result.entry_read true
          get_entry_count := 7 } 5
      = some ([event.thread_start, event.read 0, event.read 1,
               event.thread_interrupt, event.thread_join],
          Except.error (run_exception.message "")) ∧
    run_exception.message "" ≠ run_exception.message "disk" := by
  constructor
  · rfl
  · decide

/-- If `actual_run` ends with the exception of line 188, the device reported no room for
even one entry and nothing had been done before. -/
theorem actual_run_insufficient_memory_only (cfg : run_config)
    (reader : structured_data_bunch_reader) (fuel : Nat) (tr : List event)
    (h : actual_run cfg reader fuel
      = some (tr, Except.error run_exception.insufficient_memory)) :
    cfg.max_entry_count = 0 ∧ tr = [] := by
  unfold actual_run at h
  split at h
  · rename_i hM
    simp only [Option.some.injEq, Prod.mk.injEq, and_true] at h
    exact ⟨hM, h.symm⟩
  · simp only [] at h
    split at h
    · rename_i e heq
      simp only [Option.some.injEq, Prod.mk.injEq, Except.error.injEq] at h
      unfold base_iteration_count at heq
      split at heq
      · split at heq
        · simp at heq
        · simp only [Except.error.injEq] at heq
          rw [← heq] at h
          exact absurd h.2 (by decide)
      · simp at heq
    · split at h
      · simp at h
      · rename_i s e heq
        simp only [Option.some.injEq, Prod.mk.injEq, Except.error.injEq] at h
        obtain ⟨m, hm⟩ := actual_run_loop_throw _ _ _ _ _ _ _ _ heq
        rw [hm] at h
        exact absurd h.2 (by simp)
      · split at h
        · simp at h
        · split at h
          · simp at h
          · simp at h

/-- C15: `actual_run` raises the insufficient-memory error if and only if the device reports
`max_entry_count == 0`; when it does, no event has taken place: no entry has been read, no
command has been sent to a worker (none has been started) and nothing has been written. -/
theorem C15_insufficient_memory (cfg : run_config) (reader : structured_data_bunch_reader)
    (fuel : Nat) :
    ((∃ tr, actual_run cfg reader fuel
        = some (tr, Except.error run_exception.insufficient_memory)) ↔
      cfg.max_entry_count = 0) ∧
    (∀ tr, actual_run cfg reader fuel
        = some (tr, Except.error run_exception.insufficient_memory) →
      tr = [] ∧ read_ids tr = [] ∧ command_counts tr = [] ∧ written_ids tr = []) := by
  constructor
  · constructor
    · rintro ⟨tr, h⟩
      exact (actual_run_insufficient_memory_only cfg reader fuel tr h).1
    · intro hM
      refine ⟨[], ?_⟩
      unfold actual_run
      rw [if_pos hM]
  · intro tr h
    have := (actual_run_insufficient_memory_only cfg reader fuel tr h).2
    subst this
    exact ⟨rfl, rfl, rfl, rfl⟩

/-! ## Ordered maps: auxiliary facts -/

theorem map_find_append_some {K V : Type} [DecidableEq K] (m m1 : List (K × V)) (k : K)
    (v : V) (h : map_find m k = some v) : map_find (m ++ m1) k = some v := by
  induction m with
  | nil => simp [map_find] at h
  | cons p rest ih =>
    obtain ⟨k1, v1⟩ := p
    rw [List.cons_append]
    unfold map_find at h ⊢
    by_cases hk : k1 = k
    · rw [if_pos hk] at h ⊢
      exact h
    · rw [if_neg hk] at h ⊢
      exact ih h

theorem map_find_append_none {K V : Type} [DecidableEq K] (m m1 : List (K × V)) (k : K)
    (h : map_find m k = none) : map_find (m ++ m1) k = map_find m1 k := by
  induction m with
  | nil => rfl
  | cons p rest ih =>
    obtain ⟨k1, v1⟩ := p
    rw [List.cons_append]
    unfold map_find at h
    by_cases hk : k1 = k
    · rw [if_pos hk] at h
      simp at h
    · rw [if_neg hk] at h
      rw [map_find, if_neg hk]
      exact ih h

theorem map_find_mem {K V : Type} [DecidableEq K] (m : List (K × V)) (k : K) (v : V)
    (h : map_find m k = some v) : (k, v) ∈ m := by
  induction m with
  | nil => simp [map_find] at h
  | cons p rest ih =>
    obtain ⟨k1, v1⟩ := p
    unfold map_find at h
    by_cases hk : k1 = k
    · rw [if_pos hk] at h
      simp only [Option.some.injEq] at h
      rw [hk, h]
      exact List.mem_cons_self _ _
    · rw [if_neg hk] at h
      exact List.mem_cons_of_mem _ (ih h)

theorem map_find_singleton {K V : Type} [DecidableEq K] (k : K) (v : V) :
    map_find [(k, v)] k = some v := by
  simp [map_find]

theorem map_find_singleton_ne {K V : Type} [DecidableEq K] (k k1 : K) (v : V) (h : k1 ≠ k) :
    map_find [(k1, v)] k = none := by
  simp [map_find, h]

/-- After `insert` the key is present, and earlier entries are kept. -/
theorem map_insert_spec {K V : Type} [DecidableEq K] (m : List (K × V)) (k : K) (v : V) :
    (∃ v1, map_find (map_insert m k v) k = some v1) ∧
    (∀ k1 v1, map_find m k1 = some v1 → map_find (map_insert m k v) k1 = some v1) ∧
    (∀ p ∈ map_insert m k v, p ∈ m ∨ p = (k, v)) := by
  unfold map_insert
  cases h : map_find m k with
  | some v0 =>
    refine ⟨⟨v0, h⟩, fun k1 v1 h1 => h1, fun p hp => Or.inl hp⟩
  | none =>
    refine ⟨⟨v, ?_⟩, fun k1 v1 h1 => map_find_append_some m _ k1 v1 h1, ?_⟩
    · simp only []
      rw [map_find_append_none m _ k h, map_find_singleton]
    · intro p hp
      simp only [] at hp
      rcases List.mem_append.mp hp with h1 | h1
      · exact Or.inl h1
      · exact Or.inr (List.mem_singleton.mp h1)

/-! ## Streams and events: auxiliary facts -/

theorem assign_stream_set_spec (id : Nat) :
    ∀ (set : List layer_name_with_action) (m : List (layer_name_with_action × Nat)),
      (∀ k v, map_find m k = some v → map_find (assign_stream_set id set m) k = some v) ∧
      (∀ a ∈ set, ∃ v, map_find (assign_stream_set id set m) a = some v) ∧
      (∀ p ∈ assign_stream_set id set m, p ∈ m ∨ p.2 = id) := by
  intro set
  induction set with
  | nil =>
    intro m
    exact ⟨fun k v h => h, fun a ha => by simp at ha, fun p hp => Or.inl hp⟩
  | cons a rest ih =>
    intro m
    obtain ⟨i1, i2, i3⟩ := ih (map_insert m a id)
    obtain ⟨j1, j2, j3⟩ := map_insert_spec m a id
    rw [assign_stream_set]
    refine ⟨fun k v h => i1 k v (j2 k v h), ?_, ?_⟩
    · intro x hx
      rcases List.mem_cons.mp hx with h | h
      · obtain ⟨v1, hv1⟩ := j1
        rw [h]
        exact ⟨v1, i1 a v1 hv1⟩
      · exact i2 x h
    · intro p hp
      rcases i3 p hp with h | h
      · rcases j3 p h with h1 | h1
        · exact Or.inl h1
        · right
          rw [h1]
      · exact Or.inr h

theorem assign_stream_sets_spec :
    ∀ (sets : List (List layer_name_with_action)) (id : Nat)
      (m : List (layer_name_with_action × Nat)),
      (∀ k v, map_find m k = some v → map_find (assign_stream_sets id sets m) k = some v) ∧
      (∀ a ∈ sets.flatten, ∃ v, map_find (assign_stream_sets id sets m) a = some v) := by
  intro sets
  induction sets with
  | nil =>
    intro id m
    exact ⟨fun k v h => h, fun a ha => by simp at ha⟩
  | cons set rest ih =>
    intro id m
    obtain ⟨i1, i2⟩ := ih (id + 1) (assign_stream_set id set m)
    obtain ⟨j1, j2, _⟩ := assign_stream_set_spec id set m
    rw [assign_stream_sets]
    refine ⟨fun k v h => i1 k v (j1 k v h), ?_⟩
    intro x hx
    rw [List.flatten_cons] at hx
    rcases List.mem_append.mp hx with h | h
    · obtain ⟨v, hv⟩ := j2 x h
      exact ⟨v, i1 x v hv⟩
    · exact i2 x h

/-- Dependencies in the stream set of the action itself register nothing. -/
theorem collect_previous_events_same (a2s : List (layer_name_with_action × Nat)) (cur : Nat) :
    ∀ (ds : List layer_name_with_action) (events : List (layer_name_with_action × Nat))
      (prev : List Nat),
      (∀ d ∈ ds, map_find a2s d = some cur) →
      collect_previous_events a2s cur ds events prev = some (events, prev) := by
  intro ds
  induction ds with
  | nil => intro events prev _; rfl
  | cons d rest ih =>
    intro events prev h
    rw [collect_previous_events, h d (List.mem_cons_self _ _)]
    simp only [if_true]
    exact ih events prev (fun x hx => h x (List.mem_cons_of_mem _ hx))

/-- When all actions and dependencies are in one stream set no wait is registered. -/
theorem register_previous_events_same (a2s : List (layer_name_with_action × Nat))
    (deps : layer_name_with_action → List layer_name_with_action) (cur : Nat) :
    ∀ (acts : List layer_name_with_action) (events : List (layer_name_with_action × Nat))
      (ape : List (layer_name_with_action × List Nat)),
      (∀ a ∈ acts, map_find a2s a = some cur ∧ ∀ d ∈ deps a, map_find a2s d = some cur) →
      register_previous_events a2s deps acts events ape = some (events, ape) := by
  intro acts
  induction acts with
  | nil => intro events ape _; rfl
  | cons a rest ih =>
    intro events ape h
    obtain ⟨h1, h2⟩ := h a (List.mem_cons_self _ _)
    rw [register_previous_events, h1]
    simp only []
    rw [collect_previous_events_same a2s cur (deps a) events [] h2]
    simp only [if_true]
    exact ih events ape (fun x hx => h x (List.mem_cons_of_mem _ hx))

/-- The expression `m[k]` on a map whose values are all 0. -/
theorem map_index_zero (m : List (layer_name_with_action × Nat)) (k : layer_name_with_action)
    (h : ∀ p ∈ m, p.2 = 0) :
    (map_index m k).2 = 0 ∧ (∀ p ∈ (map_index m k).1, p.2 = 0) ∧
    (∀ k1 v1, map_find m k1 = some v1 → map_find (map_index m k).1 k1 = some v1) := by
  unfold map_index
  cases hf : map_find m k with
  | some v =>
    refine ⟨?_, h, fun k1 v1 h1 => h1⟩
    exact h _ (map_find_mem m k v hf)
  | none =>
    refine ⟨rfl, ?_, fun k1 v1 h1 => map_find_append_some m _ k1 v1 h1⟩
    intro p hp
    simp only [] at hp
    rcases List.mem_append.mp hp with h1 | h1
    · exact h p h1
    · rw [List.mem_singleton.mp h1]

/-- When every stream set id is 0 the loop over the targets registers no event. -/
theorem register_targets_zero :
    ∀ (targets : List layer_name_with_action) (st : target_state),
      (∀ p ∈ st.action_to_stream_set_map, p.2 = 0) →
      (st.defined = true → st.output_data_ready_stream_set_id = 0) →
      (register_targets targets st).action_output_data_ready_events
        = st.action_output_data_ready_events ∧
      (register_targets targets st).output_data_ready_additional_events
        = st.output_data_ready_additional_events ∧
      (∀ p ∈ (register_targets targets st).action_to_stream_set_map, p.2 = 0) ∧
      (∀ k v, map_find st.action_to_stream_set_map k = some v →
        map_find (register_targets targets st).action_to_stream_set_map k = some v) := by
  intro targets
  induction targets with
  | nil => intro st h _; exact ⟨rfl, rfl, h, fun k v hk => hk⟩
  | cons a rest ih =>
    intro st h hd
    obtain ⟨z1, z2, z3⟩ := map_index_zero st.action_to_stream_set_map a h
    rw [register_targets]
    simp only []
    by_cases hdef : st.defined = false
    · rw [if_pos hdef]
      obtain ⟨i1, i2, i3, i4⟩ := ih
        { st with defined := true
                  output_data_ready_stream_set_id := (map_index st.action_to_stream_set_map a).2
                  action_to_stream_set_map := (map_index st.action_to_stream_set_map a).1 }
        z2 (fun _ => z1)
      exact ⟨i1, i2, i3, fun k v hk => i4 k v (z3 k v hk)⟩
    · rw [if_neg hdef]
      have hdt : st.defined = true := by
        cases hb : st.defined
        · exact absurd hb hdef
        · rfl
      have hid := hd hdt
      rw [if_pos (by rw [z1, hid])]
      obtain ⟨i1, i2, i3, i4⟩ := ih
        { st with action_to_stream_set_map := (map_index st.action_to_stream_set_map a).1 }
        z2 hd
      exact ⟨i1, i2, i3, fun k v hk => i4 k v (z3 k v hk)⟩

/-- The result of `setup_streams_and_events` once the loop of lines 1137-1162 has gone
through. -/
theorem setup_streams_and_events_eq (inp : stream_setup_input)
    (events : List (layer_name_with_action × Nat))
    (ape : List (layer_name_with_action × List Nat))
    (h : register_previous_events
        (assign_stream_sets 0
          (coalesce_stream_sets inp.is_single_command_stream inp.action_stream_set) [])
        inp.get_dependencies inp.actions_in_execution_order.reverse [] []
      = some (events, ape)) :
    setup_streams_and_events inp = some
      { layer_stream_set :=
          coalesce_stream_sets inp.is_single_command_stream inp.action_stream_set
        command_streams :=
          (coalesce_stream_sets inp.is_single_command_stream inp.action_stream_set).length
        action_to_stream_set_map := (register_targets
          (target_actions inp.output_layer_names inp.actions_in_execution_order)
          { defined := false
            output_data_ready_stream_set_id := inp.output_data_ready_stream_set_id
            action_to_stream_set_map := assign_stream_sets 0
              (coalesce_stream_sets inp.is_single_command_stream inp.action_stream_set) []
            action_output_data_ready_events := events
            output_data_ready_additional_events := [] }).action_to_stream_set_map
        action_output_data_ready_events := (register_targets
          (target_actions inp.output_layer_names inp.actions_in_execution_order)
          { defined := false
            output_data_ready_stream_set_id := inp.output_data_ready_stream_set_id
            action_to_stream_set_map := assign_stream_sets 0
              (coalesce_stream_sets inp.is_single_command_stream inp.action_stream_set) []
            action_output_data_ready_events := events
            output_data_ready_additional_events := [] }).action_output_data_ready_events
        action_previous_events := ape
        output_data_ready_additional_events := (register_targets
          (target_actions inp.output_layer_names inp.actions_in_execution_order)
          { defined := false
            output_data_ready_stream_set_id := inp.output_data_ready_stream_set_id
            action_to_stream_set_map := assign_stream_sets 0
              (coalesce_stream_sets inp.is_single_command_stream inp.action_stream_set) []
            action_output_data_ready_events := events
            output_data_ready_additional_events := [] }).output_data_ready_additional_events
        output_data_ready_stream_set_id := (register_targets
          (target_actions inp.output_layer_names inp.actions_in_execution_order)
          { defined := false
            output_data_ready_stream_set_id := inp.output_data_ready_stream_set_id
            action_to_stream_set_map := assign_stream_sets 0
              (coalesce_stream_sets inp.is_single_command_stream inp.action_stream_set) []
            action_output_data_ready_events := events
            output_data_ready_additional_events := [] }).output_data_ready_stream_set_id } := by
  unfold setup_streams_and_events
  simp only [h]

/-- C16: when the configuration demands a single command stream (and every action in
execution order and each of its dependencies belongs to a stream set),
`setup_streams_and_events` coalesces the stream sets into exactly one set, the concatenation
in order of the original sets; one stream is created, every action is mapped to stream set
0, no action gets a cross-stream wait event (`action_previous_events` is empty) and no
additional output-ready event is registered. -/
theorem C16_single_command_stream (inp : stream_setup_input)
    (hsingle : inp.is_single_command_stream = true)
    (hmem : ∀ a ∈ inp.actions_in_execution_order,
      a ∈ inp.action_stream_set.flatten ∧
      ∀ d ∈ inp.get_dependencies a, d ∈ inp.action_stream_set.flatten) :
    ∃ r, setup_streams_and_events inp = some r ∧
      r.layer_stream_set = [inp.action_stream_set.flatten] ∧
      r.command_streams = 1 ∧
      (∀ a ∈ inp.action_stream_set.flatten, map_find r.action_to_stream_set_map a = some 0) ∧
      (∀ p ∈ r.action_to_stream_set_map, p.2 = 0) ∧
      r.action_previous_events = [] ∧
      r.action_output_data_ready_events = [] ∧
      r.output_data_ready_additional_events = [] := by
  have hco : coalesce_stream_sets inp.is_single_command_stream inp.action_stream_set
      = [inp.action_stream_set.flatten] := by
    unfold coalesce_stream_sets
    rw [hsingle]
    rfl
  have ha2s : assign_stream_sets 0 [inp.action_stream_set.flatten] []
      = assign_stream_set 0 inp.action_stream_set.flatten [] := rfl
  obtain ⟨_, s2, s3⟩ := assign_stream_set_spec 0 inp.action_stream_set.flatten []
  have hzero : ∀ p ∈ assign_stream_set 0 inp.action_stream_set.flatten [], p.2 = 0 := by
    intro p hp
    rcases s3 p hp with h | h
    · simp at h
    · exact h
  have hfound : ∀ a ∈ inp.action_stream_set.flatten,
      map_find (assign_stream_set 0 inp.action_stream_set.flatten []) a = some 0 := by
    intro a ha
    obtain ⟨v, hv⟩ := s2 a ha
    have := hzero _ (map_find_mem _ a v hv)
    simp only [] at this
    rw [hv, this]
  have hreg := register_previous_events_same
    (assign_stream_set 0 inp.action_stream_set.flatten []) inp.get_dependencies 0
    inp.actions_in_execution_order.reverse [] []
    (fun a ha => by
      obtain ⟨h1, h2⟩ := hmem a (List.mem_reverse.mp ha)
      exact ⟨hfound a h1, fun d hd => hfound d (h2 d hd)⟩)
  obtain ⟨t1, t2, t3, t4⟩ := register_targets_zero
    (target_actions inp.output_layer_names inp.actions_in_execution_order)
    { defined := false
      output_data_ready_stream_set_id := inp.output_data_ready_stream_set_id
      action_to_stream_set_map := assign_stream_set 0 inp.action_stream_set.flatten []
      action_output_data_ready_events := []
      output_data_ready_additional_events := [] }
    hzero (fun h => by simp at h)
  have hres := setup_streams_and_events_eq inp [] [] (by rw [hco, ha2s]; exact hreg)
  rw [hco, ha2s] at hres
  exact ⟨_, hres, rfl, rfl, fun a ha => t4 a 0 (hfound a ha), t3, rfl, t1, t2⟩

theorem C16_single_command_stream_witness :
    ∃ r, setup_streams_and_events
        { action_stream_set :=
            [[{ name := "a", action := layer_action.forward },
              { name := "b", action := layer_action.forward }],
             [{ name := "b", action := layer_action.update_weights }]]
          get_dependencies := fun x =>
            if x = { name := "b", action := layer_action.forward } then
              [{ name := "a", action := layer_action.forward }]
            else if x = { name := "b", action := layer_action.update_weights } then
              [{ name := "b", action := layer_action.forward }]
            else []
          actions_in_execution_order :=
            [{ name := "a", action := layer_action.forward },
             { name := "b", action := layer_action.forward },
             { name := "b", action := layer_action.update_weights }]
          output_layer_names := ["b"]
          is_single_command_stream := true
          output_data_ready_stream_set_id := 3 } = some r ∧
      r.layer_stream_set =
        [[{ name := "a", action := layer_action.forward },
          { name := "b", action := layer_action.forward },
          { name := "b", action := layer_action.update_weights }]] ∧
      r.command_streams = 1 ∧
      r.action_previous_events = [] ∧
      r.output_data_ready_additional_events = [] := by
  obtain ⟨r, h1, h2, h3, _, _, h6, _, h8⟩ := C16_single_command_stream
    { action_stream_set :=
        [[{ name := "a", action := layer_action.forward },
          { name := "b", action := layer_action.forward }],
         [{ name := "b", action := layer_action.update_weights }]]
      get_dependencies := fun x =>
        if x = { name := "b", action := layer_action.forward } then
          [{ name := "a", action := layer_action.forward }]
        else if x = { name := "b", action := layer_action.update_weights } then
          [{ name := "b", action := layer_action.forward }]
        else []
      actions_in_execution_order :=
        [{ name := "a", action := layer_action.forward },
         { name := "b", action := layer_action.forward },
         { name := "b", action := layer_action.update_weights }]
      output_layer_names := ["b"]
      is_single_command_stream := true
      output_data_ready_stream_set_id := 3 } rfl (by decide)
  exact ⟨r, h1, h2, h3, h6, h8⟩


/-! ### Cross-stream waits -/

/-- Creating or fetching the output-ready event of an action keeps the event map well
formed (the event stored at position `i` is event `i`), keeps the events already there, and
returns the event stored for the action. -/
theorem output_data_ready_event_spec (events : List (layer_name_with_action × Nat))
    (d : layer_name_with_action) (hwf : events.map Prod.snd = List.range events.length) :
    (output_data_ready_event events d).1.map Prod.snd
      = List.range (output_data_ready_event events d).1.length ∧
    (∀ k v, map_find events k = some v →
      map_find (output_data_ready_event events d).1 k = some v) ∧
    map_find (output_data_ready_event events d).1 d
      = some (output_data_ready_event events d).2 := by
  unfold output_data_ready_event
  cases h : map_find events d with
  | some e => exact ⟨hwf, fun k v hk => hk, h⟩
  | none =>
    refine ⟨?_, fun k v hk => map_find_append_some events _ k v hk, ?_⟩
    · simp only [List.map_append, List.map_cons, List.map_nil, List.length_append,
        List.length_singleton, List.range_succ, hwf]
    · simp only []
      rw [map_find_append_none events _ d h, map_find_singleton]

/-- Two actions never share an output-ready event. -/
theorem events_injective (events : List (layer_name_with_action × Nat))
    (hwf : events.map Prod.snd = List.range events.length)
    (d1 d2 : layer_name_with_action) (e : Nat)
    (h1 : map_find events d1 = some e) (h2 : map_find events d2 = some e) : d1 = d2 := by
  have hnd : (events.map Prod.snd).Nodup := by
    rw [hwf]
    exact List.nodup_range _
  have := List.inj_on_of_nodup_map hnd (map_find_mem events d1 e h1)
    (map_find_mem events d2 e h2) rfl
  exact (Prod.mk.inj this).1

theorem forall₂_events_mono (ev ev1 : List (layer_name_with_action × Nat))
    (hmono : ∀ k v, map_find ev k = some v → map_find ev1 k = some v)
    (ds : List layer_name_with_action) (es : List Nat)
    (h : List.Forall₂ (fun d e => map_find ev d = some e) ds es) :
    List.Forall₂ (fun d e => map_find ev1 d = some e) ds es := by
  induction h with
  | nil => exact List.Forall₂.nil
  | cons h1 _ ih => exact List.Forall₂.cons (hmono _ _ h1) ih

/-- The loop over the dependencies of an action: one event is appended for each dependency
of another stream set, in order, and it is the event stored for that dependency. -/
theorem collect_previous_events_spec (a2s : List (layer_name_with_action × Nat)) (cur : Nat) :
    ∀ (ds : List layer_name_with_action) (events : List (layer_name_with_action × Nat))
      (prev : List Nat),
      events.map Prod.snd = List.range events.length →
      (∀ d ∈ ds, ∃ sd, map_find a2s d = some sd) →
      ∃ events1 new,
        collect_previous_events a2s cur ds events prev = some (events1, prev ++ new) ∧
        events1.map Prod.snd = List.range events1.length ∧
        (∀ k v, map_find events k = some v → map_find events1 k = some v) ∧
        List.Forall₂ (fun d e => map_find events1 d = some e)
          (ds.filter (fun d => decide (map_find a2s d ≠ some cur))) new := by
  intro ds
  induction ds with
  | nil =>
    intro events prev hwf _
    exact ⟨events, [], by rw [List.append_nil]; rfl, hwf, fun k v hk => hk, List.Forall₂.nil⟩
  | cons d rest ih =>
    intro events prev hwf hfound
    obtain ⟨sd, hsd⟩ := hfound d (List.mem_cons_self _ _)
    have hrest : ∀ x ∈ rest, ∃ sx, map_find a2s x = some sx :=
      fun x hx => hfound x (List.mem_cons_of_mem _ hx)
    rw [collect_previous_events, hsd]
    simp only []
    by_cases hsame : sd = cur
    · rw [if_pos hsame]
      obtain ⟨ev1, new, i1, i2, i3, i4⟩ := ih events prev hwf hrest
      refine ⟨ev1, new, i1, i2, i3, ?_⟩
      have : decide (map_find a2s d ≠ some cur) = false := by
        rw [hsd, hsame]
        simp
      rw [List.filter_cons_of_neg (by rw [this]; simp)]
      exact i4
    · rw [if_neg hsame]
      obtain ⟨o1, o2, o3⟩ := output_data_ready_event_spec events d hwf
      obtain ⟨ev1, new, i1, i2, i3, i4⟩ := ih (output_data_ready_event events d).1
        (prev ++ [(output_data_ready_event events d).2]) o1 hrest
      refine ⟨ev1, (output_data_ready_event events d).2 :: new, ?_, i2,
        fun k v hk => i3 k v (o2 k v hk), ?_⟩
      · rw [i1, List.append_assoc]
        rfl
      · have : decide (map_find a2s d ≠ some cur) = true := by
          rw [hsd]
          simp [hsame]
        rw [List.filter_cons]
        simp only [this, if_true]
        exact List.Forall₂.cons (i3 _ _ o3) i4


theorem map_find_insert_ne {K V : Type} [DecidableEq K] (m : List (K × V)) (k k1 : K) (v : V)
    (h : k ≠ k1) : map_find (map_insert m k v) k1 = map_find m k1 := by
  unfold map_insert
  cases hf : map_find m k with
  | some v0 => rfl
  | none =>
    simp only []
    cases h1 : map_find m k1 with
    | some v1 => exact map_find_append_some m _ k1 v1 h1
    | none => rw [map_find_append_none m _ k1 h1, map_find_singleton_ne k1 k v h]

theorem map_find_insert_none {K V : Type} [DecidableEq K] (m : List (K × V)) (k : K) (v : V)
    (h : map_find m k = none) : map_find (map_insert m k v) k = some v := by
  unfold map_insert
  rw [h]
  simp only []
  rw [map_find_append_none m _ k h, map_find_singleton]

theorem map_find_insert_some {K V : Type} [DecidableEq K] (m : List (K × V)) (k : K) (v v0 : V)
    (h : map_find m k = some v0) : map_find (map_insert m k v) k = some v0 := by
  unfold map_insert
  rw [h]
  exact h

/-- The loop over the actions: every visited action ends with one wait per dependency of
another stream set, in order, each on the event stored for that dependency. `visited` are
the actions handled before. -/
theorem register_previous_events_spec (a2s : List (layer_name_with_action × Nat))
    (deps : layer_name_with_action → List layer_name_with_action) :
    ∀ (acts : List layer_name_with_action) (events : List (layer_name_with_action × Nat))
      (ape : List (layer_name_with_action × List Nat)) (visited : List layer_name_with_action),
      events.map Prod.snd = List.range events.length →
      (∀ a ∈ acts, (∃ sa, map_find a2s a = some sa) ∧
        ∀ d ∈ deps a, ∃ sd, map_find a2s d = some sd) →
      (∀ k l, map_find ape k = some l → k ∈ visited) →
      (∀ a ∈ visited, ∀ sa, map_find a2s a = some sa →
        List.Forall₂ (fun d e => map_find events d = some e)
          ((deps a).filter (fun d => decide (map_find a2s d ≠ some sa)))
          ((map_find ape a).getD [])) →
      ∃ events1 ape1,
        register_previous_events a2s deps acts events ape = some (events1, ape1) ∧
        events1.map Prod.snd = List.range events1.length ∧
        (∀ k v, map_find events k = some v → map_find events1 k = some v) ∧
        (∀ a ∈ visited ++ acts, ∀ sa, map_find a2s a = some sa →
          List.Forall₂ (fun d e => map_find events1 d = some e)
            ((deps a).filter (fun d => decide (map_find a2s d ≠ some sa)))
            ((map_find ape1 a).getD [])) := by
  intro acts
  induction acts with
  | nil =>
    intro events ape visited hwf _ _ h2
    refine ⟨events, ape, rfl, hwf, fun k v hk => hk, ?_⟩
    intro a ha
    rw [List.append_nil] at ha
    exact h2 a ha
  | cons a rest ih =>
    intro events ape visited hwf hfound h1 h2
    obtain ⟨⟨sa, hsa⟩, hdeps⟩ := hfound a (List.mem_cons_self _ _)
    obtain ⟨ev1, new, c1, c2, c3, c4⟩ :=
      collect_previous_events_spec a2s sa (deps a) events [] hwf hdeps
    rw [List.nil_append] at c1
    have hkeep : ∀ k, k ≠ a →
        map_find (if new = [] then ape else map_insert ape a new) k = map_find ape k := by
      intro k hk
      by_cases hn : new = []
      · rw [if_pos hn]
      · rw [if_neg hn]
        exact map_find_insert_ne ape a k new (fun h => hk h.symm)
    have j1 : ∀ k l, map_find (if new = [] then ape else map_insert ape a new) k = some l →
        k ∈ visited ++ [a] := by
      intro k l hkl
      by_cases hk : k = a
      · rw [hk]
        exact List.mem_append_right _ (List.mem_singleton_self a)
      · rw [hkeep k hk] at hkl
        exact List.mem_append_left _ (h1 k l hkl)
    have j2 : ∀ x ∈ visited ++ [a], ∀ sx, map_find a2s x = some sx →
        List.Forall₂ (fun d e => map_find ev1 d = some e)
          ((deps x).filter (fun d => decide (map_find a2s d ≠ some sx)))
          ((map_find (if new = [] then ape else map_insert ape a new) x).getD []) := by
      intro x hx sx hsx
      by_cases hxa : x = a
      · subst hxa
        have hsxa : sx = sa := by
          rw [hsa] at hsx
          exact (Option.some.inj hsx).symm
        subst hsxa
        cases hfa : map_find ape x with
        | some l =>
          have hsame : map_find (if new = [] then ape else map_insert ape x new) x = some l := by
            by_cases hn : new = []
            · rw [if_pos hn]
              exact hfa
            · rw [if_neg hn]
              exact map_find_insert_some ape x new l hfa
          rw [hsame]
          have := h2 x (h1 x l hfa) sx hsx
          rw [hfa] at this
          exact forall₂_events_mono events ev1 c3 _ _ this
        | none =>
          by_cases hn : new = []
          · rw [if_pos hn, hfa]
            rw [hn] at c4
            exact c4
          · rw [if_neg hn, map_find_insert_none ape x new hfa]
            exact c4
      · rw [hkeep x hxa]
        have hxv : x ∈ visited := by
          rcases List.mem_append.mp hx with h | h
          · exact h
          · exact absurd (List.mem_singleton.mp h) hxa
        exact forall₂_events_mono events ev1 c3 _ _ (h2 x hxv sx hsx)
    obtain ⟨ev2, ape2, r1, r2, r3, r4⟩ := ih ev1
      (if new = [] then ape else map_insert ape a new) (visited ++ [a]) c2
      (fun x hx => hfound x (List.mem_cons_of_mem _ hx)) j1 j2
    refine ⟨ev2, ape2, ?_, r2, fun k v hk => r3 k v (c3 k v hk), ?_⟩
    · rw [register_previous_events, hsa]
      simp only []
      rw [c1]
      exact r1
    · intro x hx
      apply r4 x
      rw [List.append_assoc]
      exact hx

theorem map_index_mono (m : List (layer_name_with_action × Nat)) (k : layer_name_with_action) :
    ∀ k1 v1, map_find m k1 = some v1 → map_find (map_index m k).1 k1 = some v1 := by
  intro k1 v1 h1
  unfold map_index
  cases hf : map_find m k with
  | some v => exact h1
  | none => exact map_find_append_some m _ k1 v1 h1

/-- The loop over the target actions keeps the stream sets and the events found before
it, and the event map stays well formed. -/
theorem register_targets_mono :
    ∀ (targets : List layer_name_with_action) (st : target_state),
      st.action_output_data_ready_events.map Prod.snd
        = List.range st.action_output_data_ready_events.length →
      (register_targets targets st).action_output_data_ready_events.map Prod.snd
        = List.range (register_targets targets st).action_output_data_ready_events.length ∧
      (∀ k v, map_find st.action_output_data_ready_events k = some v →
        map_find (register_targets targets st).action_output_data_ready_events k = some v) ∧
      (∀ k v, map_find st.action_to_stream_set_map k = some v →
        map_find (register_targets targets st).action_to_stream_set_map k = some v) := by
  intro targets
  induction targets with
  | nil =>
    intro st hwf
    exact ⟨hwf, fun k v h => h, fun k v h => h⟩
  | cons a rest ih =>
    intro st hwf
    have hm := map_index_mono st.action_to_stream_set_map a
    rw [register_targets]
    simp only []
    split
    · obtain ⟨i1, i2, i3⟩ := ih
        { st with defined := true
                  output_data_ready_stream_set_id := (map_index st.action_to_stream_set_map a).2
                  action_to_stream_set_map := (map_index st.action_to_stream_set_map a).1 } hwf
      exact ⟨i1, i2, fun k v h => i3 k v (hm k v h)⟩
    · split
      · obtain ⟨i1, i2, i3⟩ := ih
          { st with action_to_stream_set_map := (map_index st.action_to_stream_set_map a).1 }
          hwf
        exact ⟨i1, i2, fun k v h => i3 k v (hm k v h)⟩
      · obtain ⟨o1, o2, _⟩ :=
          output_data_ready_event_spec st.action_output_data_ready_events a hwf
        obtain ⟨i1, i2, i3⟩ := ih
          { st with action_to_stream_set_map := (map_index st.action_to_stream_set_map a).1
                    action_output_data_ready_events :=
                      (output_data_ready_event st.action_output_data_ready_events a).1
                    output_data_ready_additional_events :=
                      st.output_data_ready_additional_events ++
                        [(output_data_ready_event st.action_output_data_ready_events a).2] }
          o1
        exact ⟨i1, fun k v h => i2 k v (o2 k v h), fun k v h => i3 k v (hm k v h)⟩

theorem forall₂_left_mem {α β : Type} (R : α → β → Prop) (l1 : List α) (l2 : List β)
    (h : List.Forall₂ R l1 l2) : ∀ x ∈ l1, ∃ y ∈ l2, R x y := by
  induction h with
  | nil => intro x hx; simp at hx
  | cons h1 _ ih =>
    intro x hx
    rcases List.mem_cons.mp hx with hx | hx
    · rw [hx]
      exact ⟨_, List.mem_cons_self _ _, h1⟩
    · obtain ⟨y, hy, hr⟩ := ih x hx
      exact ⟨y, List.mem_cons_of_mem _ hy, hr⟩

theorem forall₂_right_mem {α β : Type} (R : α → β → Prop) (l1 : List α) (l2 : List β)
    (h : List.Forall₂ R l1 l2) : ∀ y ∈ l2, ∃ x ∈ l1, R x y := by
  induction h with
  | nil => intro y hy; simp at hy
  | cons h1 _ ih =>
    intro y hy
    rcases List.mem_cons.mp hy with hy | hy
    · rw [hy]
      exact ⟨_, List.mem_cons_self _ _, h1⟩
    · obtain ⟨x, hx, hr⟩ := ih y hy
      exact ⟨x, List.mem_cons_of_mem _ hx, hr⟩

theorem coalesce_stream_sets_flatten (single : Bool) (orig : List (List layer_name_with_action)) :
    (coalesce_stream_sets single orig).flatten = orig.flatten := by
  unfold coalesce_stream_sets
  cases single
  · rfl
  · simp

/-- Claim C17. After `setup_streams_and_events` (every action in execution order and each of
its dependencies belonging to a stream set): no two actions share an output-ready event;
for every action `a` in execution order and every dependency `d` of `a`, the waits registered
for `a` (those `run_kernels` enqueues at lines 551-560) contain the output-ready event of
`d` if and only if `d` is assigned to another stream set than `a`; the number of waits of `a`
is the number of its dependencies of another stream set. The event of `d` is the one stored
under `d`, hence the same for every consumer of `d`. -/
theorem C17_cross_stream_waits (inp : stream_setup_input)
    (hmem : ∀ a ∈ inp.actions_in_execution_order,
      a ∈ inp.action_stream_set.flatten ∧
      ∀ d ∈ inp.get_dependencies a, d ∈ inp.action_stream_set.flatten) :
    ∃ r, setup_streams_and_events inp = some r ∧
      (∀ d1 d2 e, map_find r.action_output_data_ready_events d1 = some e →
        map_find r.action_output_data_ready_events d2 = some e → d1 = d2) ∧
      ∀ a ∈ inp.actions_in_execution_order,
        ∃ sa, map_find r.action_to_stream_set_map a = some sa ∧
          (previous_events_of r a).length
            = ((inp.get_dependencies a).filter
                (fun d => decide (map_find r.action_to_stream_set_map d ≠ some sa))).length ∧
          ∀ d ∈ inp.get_dependencies a,
            ((∃ e, map_find r.action_output_data_ready_events d = some e ∧
                e ∈ previous_events_of r a) ↔
              map_find r.action_to_stream_set_map d ≠ some sa) := by
  obtain ⟨_, hall⟩ := assign_stream_sets_spec
    (coalesce_stream_sets inp.is_single_command_stream inp.action_stream_set) 0 []
  rw [coalesce_stream_sets_flatten] at hall
  obtain ⟨ev, ape, p1, p2, _, p4⟩ := register_previous_events_spec
    (assign_stream_sets 0
      (coalesce_stream_sets inp.is_single_command_stream inp.action_stream_set) [])
    inp.get_dependencies inp.actions_in_execution_order.reverse [] [] [] rfl
    (fun a ha => by
      obtain ⟨h1, h2⟩ := hmem a (List.mem_reverse.mp ha)
      exact ⟨hall a h1, fun d hd => hall d (h2 d hd)⟩)
    (fun k l h => by simp [map_find] at h)
    (fun a ha => by simp at ha)
  obtain ⟨t1, t2, t3⟩ := register_targets_mono
    (target_actions inp.output_layer_names inp.actions_in_execution_order)
    { defined := false
      output_data_ready_stream_set_id := inp.output_data_ready_stream_set_id
      action_to_stream_set_map := assign_stream_sets 0
        (coalesce_stream_sets inp.is_single_command_stream inp.action_stream_set) []
      action_output_data_ready_events := ev
      output_data_ready_additional_events := [] } p2
  have hres := setup_streams_and_events_eq inp ev ape p1
  refine ⟨_, hres, ?_, ?_⟩
  · intro d1 d2 e h1 h2
    exact events_injective _ t1 d1 d2 e h1 h2
  · intro a ha
    obtain ⟨h1, h2⟩ := hmem a ha
    obtain ⟨sa, hsa⟩ := hall a h1
    have hF := p4 a (by
      rw [List.nil_append]
      exact List.mem_reverse.mpr ha) sa hsa
    have hprev : previous_events_of
        { layer_stream_set :=
            coalesce_stream_sets inp.is_single_command_stream inp.action_stream_set
          command_streams :=
            (coalesce_stream_sets inp.is_single_command_stream inp.action_stream_set).length
          action_to_stream_set_map := (register_targets
            (target_actions inp.output_layer_names inp.actions_in_execution_order)
            { defined := false
              output_data_ready_stream_set_id := inp.output_data_ready_stream_set_id
              action_to_stream_set_map := assign_stream_sets 0
                (coalesce_stream_sets inp.is_single_command_stream inp.action_stream_set) []
              action_output_data_ready_events := ev
              output_data_ready_additional_events := [] }).action_to_stream_set_map
          action_output_data_ready_events := (register_targets
            (target_actions inp.output_layer_names inp.actions_in_execution_order)
            { defined := false
              output_data_ready_stream_set_id := inp.output_data_ready_stream_set_id
              action_to_stream_set_map := assign_stream_sets 0
                (coalesce_stream_sets inp.is_single_command_stream inp.action_stream_set) []
              action_output_data_ready_events := ev
              output_data_ready_additional_events := [] }).action_output_data_ready_events
          action_previous_events := ape
          output_data_ready_additional_events := (register_targets
            (target_actions inp.output_layer_names inp.actions_in_execution_order)
            { defined := false
              output_data_ready_stream_set_id := inp.output_data_ready_stream_set_id
              action_to_stream_set_map := assign_stream_sets 0
                (coalesce_stream_sets inp.is_single_command_stream inp.action_stream_set) []
              action_output_data_ready_events := ev
              output_data_ready_additional_events := [] }).output_data_ready_additional_events
          output_data_ready_stream_set_id := (register_targets
            (target_actions inp.output_layer_names inp.actions_in_execution_order)
            { defined := false
              output_data_ready_stream_set_id := inp.output_data_ready_stream_set_id
              action_to_stream_set_map := assign_stream_sets 0
                (coalesce_stream_sets inp.is_single_command_stream inp.action_stream_set) []
              action_output_data_ready_events := ev
              output_data_ready_additional_events := [] }).output_data_ready_stream_set_id } a
        = (map_find ape a).getD [] := by
      unfold previous_events_of
      cases map_find ape a <;> rfl
    rw [hprev]
    have hcong : ∀ d ∈ inp.get_dependencies a, ∀ s,
        (map_find (register_targets
            (target_actions inp.output_layer_names inp.actions_in_execution_order)
            { defined := false
              output_data_ready_stream_set_id := inp.output_data_ready_stream_set_id
              action_to_stream_set_map := assign_stream_sets 0
                (coalesce_stream_sets inp.is_single_command_stream inp.action_stream_set) []
              action_output_data_ready_events := ev
              output_data_ready_additional_events := [] }).action_to_stream_set_map d ≠ some s
          ↔ map_find (assign_stream_sets 0
            (coalesce_stream_sets inp.is_single_command_stream inp.action_stream_set) []) d
              ≠ some s) := by
      intro d hd s
      obtain ⟨sd, hsd⟩ := hall d (h2 d hd)
      rw [t3 d sd hsd, hsd]
    refine ⟨sa, t3 a sa hsa, ?_, ?_⟩
    · rw [← hF.length_eq]
      congr 1
      apply List.filter_congr
      intro d hd
      exact decide_eq_decide.mpr (hcong d hd sa).symm
    · intro d hd
      rw [hcong d hd sa]
      constructor
      · rintro ⟨e, he, hin⟩ hne
        obtain ⟨d1, hd1, hr⟩ := forall₂_right_mem _ _ _ hF e hin
        have hdd : d1 = d := events_injective _ t1 d1 d e (t2 d1 e hr) he
        rw [hdd] at hd1
        have := (List.mem_filter.mp hd1).2
        simp only [decide_eq_true_eq] at this
        exact this hne
      · intro hne
        have hin : d ∈ (inp.get_dependencies a).filter (fun d => decide (map_find
            (assign_stream_sets 0
              (coalesce_stream_sets inp.is_single_command_stream inp.action_stream_set) []) d
            ≠ some sa)) := by
          apply List.mem_filter.mpr
          exact ⟨hd, by simpa using hne⟩
        obtain ⟨e, he, hr⟩ := forall₂_left_mem _ _ _ hF d hin
        exact ⟨e, t2 d e hr, he⟩

theorem C17_cross_stream_waits_witness :
    (∀ a ∈ two_stream_schema.actions_in_execution_order,
      a ∈ two_stream_schema.action_stream_set.flatten ∧
      ∀ d ∈ two_stream_schema.get_dependencies a,
        d ∈ two_stream_schema.action_stream_set.flatten) ∧
    ∃ r, setup_streams_and_events two_stream_schema = some r ∧
      (∀ d1 d2 e, map_find r.action_output_data_ready_events d1 = some e →
        map_find r.action_output_data_ready_events d2 = some e → d1 = d2) ∧
      ∀ a ∈ two_stream_schema.actions_in_execution_order,
        ∃ sa, map_find r.action_to_stream_set_map a = some sa ∧
          (previous_events_of r a).length
            = ((two_stream_schema.get_dependencies a).filter
                (fun d => decide (map_find r.action_to_stream_set_map d ≠ some sa))).length ∧
          ∀ d ∈ two_stream_schema.get_dependencies a,
            ((∃ e, map_find r.action_output_data_ready_events d = some e ∧
                e ∈ previous_events_of r a) ↔
              map_find r.action_to_stream_set_map d ≠ some sa) :=
  ⟨by decide, C17_cross_stream_waits two_stream_schema (by decide)⟩

/-! ## Fixed buffers: auxiliary facts -/

theorem fixed_set_requests_ok (inp : fixed_buffer_input) (set_id : Nat) :
    ∀ (action_list : List buffer_request) (max_buffer_size : Nat) (st : fixed_buffer_sizes),
      (∀ r ∈ action_list, r.2 ≠ buffer_lifetime.action_output_buffer) →
      ∃ st1, fixed_set_requests inp set_id action_list (max_buffer_size, st)
          = Except.ok (fixed_set_size inp max_buffer_size action_list, st1) ∧
        st1.fixed_set_size_list = st.fixed_set_size_list := by
  intro action_list
  induction action_list with
  | nil =>
    intro m st _
    exact ⟨st, rfl, rfl⟩
  | cons r rest ih =>
    intro m st h
    have hr := h r (List.mem_cons_self _ _)
    have hrest : ∀ x ∈ rest, x.2 ≠ buffer_lifetime.action_output_buffer :=
      fun x hx => h x (List.mem_cons_of_mem _ hx)
    obtain ⟨a, l⟩ := r
    cases l with
    | action_output_buffer => exact absurd rfl hr
    | working_buffer =>
      obtain ⟨st1, h1, h2⟩ := ih
        (max m (inp.get_temporary_working_fixed_buffer_size a.name a.action).1)
        { st with temporary_working_fixed_data_action_to_set_map :=
            map_insert st.temporary_working_fixed_data_action_to_set_map a set_id } hrest
      exact ⟨st1, h1, h2⟩
    | temporary_buffer =>
      obtain ⟨st1, h1, h2⟩ := ih
        (max m (inp.get_temporary_fixed_buffer_size a.name))
        { st with temporary_fixed_data_action_to_set_map :=
            map_insert st.temporary_fixed_data_action_to_set_map a set_id } hrest
      exact ⟨st1, h1, h2⟩

/-- Without an output lifetime among the requests the loop over the sets ends normally and
appends one size per set: the largest of the starting value and the sizes of its requests. -/
theorem fixed_sets_ok (inp : fixed_buffer_input) (share : Nat) (hungry : List Nat) :
    ∀ (sets : List (List buffer_request)) (set_id : Nat) (st : fixed_buffer_sizes),
      (∀ r ∈ sets.flatten, r.2 ≠ buffer_lifetime.action_output_buffer) →
      ∃ res sizes, fixed_sets inp share hungry set_id sets st = Except.ok res ∧
        res.fixed_set_size_list = st.fixed_set_size_list ++ sizes ∧
        sizes.length = sets.length ∧
        ∀ i, i < sets.length →
          sizes.getD i 0
            = fixed_set_size inp (if set_id + i ∈ hungry then share else 1) (sets.getD i []) := by
  intro sets
  induction sets with
  | nil =>
    intro set_id st _
    exact ⟨st, [], rfl, (List.append_nil _).symm, rfl, fun i hi => absurd hi (Nat.not_lt_zero i)⟩
  | cons action_list rest ih =>
    intro set_id st h
    have h1 : ∀ r ∈ action_list, r.2 ≠ buffer_lifetime.action_output_buffer := by
      intro r hr
      apply h r
      rw [List.flatten_cons]
      exact List.mem_append_left _ hr
    have h2 : ∀ r ∈ rest.flatten, r.2 ≠ buffer_lifetime.action_output_buffer := by
      intro r hr
      apply h r
      rw [List.flatten_cons]
      exact List.mem_append_right _ hr
    obtain ⟨st1, e1, e2⟩ := fixed_set_requests_ok inp set_id action_list
      (if set_id ∈ hungry then share else 1) st h1
    obtain ⟨res, sizes, r1, r2, r3, r4⟩ := ih (set_id + 1)
      { st1 with fixed_set_size_list := st1.fixed_set_size_list ++
          [fixed_set_size inp (if set_id ∈ hungry then share else 1) action_list] } h2
    refine ⟨res, fixed_set_size inp (if set_id ∈ hungry then share else 1) action_list :: sizes,
      ?_, ?_, ?_, ?_⟩
    · rw [fixed_sets, e1]
      exact r1
    · rw [r2]
      simp only [e2, List.append_assoc, List.singleton_append]
    · simp only [List.length_cons, r3]
    · intro i hi
      cases i with
      | zero => rfl
      | succ k =>
        have hk : k < rest.length := by
          simp only [List.length_cons] at hi
          omega
        have := r4 k hk
        simp only [List.getD_cons_succ]
        rw [this]
        have e : set_id + 1 + k = set_id + (k + 1) := by omega
        rw [e]

theorem fixed_set_size_ge (inp : fixed_buffer_input) :
    ∀ (action_list : List buffer_request) (start : Nat),
      start ≤ fixed_set_size inp start action_list := by
  intro action_list
  induction action_list with
  | nil => intro start; exact Nat.le_refl _
  | cons r rest ih =>
    intro start
    unfold fixed_set_size
    rw [List.foldl_cons]
    cases hsz : fixed_buffer_size inp r with
    | error e => exact ih start
    | ok sz => exact Nat.le_trans (Nat.le_max_left _ _) (ih (max start sz))

theorem fixed_set_size_eq_start (inp : fixed_buffer_input) :
    ∀ (action_list : List buffer_request) (start : Nat),
      (∀ r ∈ action_list, ∀ sz, fixed_buffer_size inp r = Except.ok sz → sz ≤ start) →
      fixed_set_size inp start action_list = start := by
  intro action_list
  induction action_list with
  | nil => intro start _; rfl
  | cons r rest ih =>
    intro start h
    have hrest : ∀ x ∈ rest, ∀ sz, fixed_buffer_size inp x = Except.ok sz → sz ≤ start :=
      fun x hx => h x (List.mem_cons_of_mem _ hx)
    unfold fixed_set_size
    rw [List.foldl_cons]
    cases hsz : fixed_buffer_size inp r with
    | error e => exact ih start hrest
    | ok sz =>
      have hle := h r (List.mem_cons_self _ _) sz hsz
      simp only []
      rw [Nat.max_eq_left hle]
      exact ih start hrest

theorem hungry_share_mul_le (S k : Nat) (hk : k ≤ 1 → k = 0 ∨ k = 1) :
    k * hungry_share S k ≤ S := by
  unfold hungry_share
  by_cases h : 1 < k
  · rw [if_pos h]
    exact Nat.mul_div_le S k
  · rw [if_neg h]
    rcases hk (by omega) with h0 | h1
    · rw [h0]
      simp
    · rw [h1]
      simp

theorem set_ids_with_hungry_working_buffers_lt (inp : fixed_buffer_input)
    (sets : List (List buffer_request)) :
    ∀ set_id ∈ set_ids_with_hungry_working_buffers inp sets, set_id < sets.length := by
  intro set_id h
  unfold set_ids_with_hungry_working_buffers at h
  exact List.mem_range.mp (List.mem_filter.mp h).1

/-- The result of `setup_fixed_buffer_sizes` when no request has the output lifetime. -/
theorem setup_fixed_buffer_sizes_ok (inp : fixed_buffer_input)
    (hlife : ∀ r ∈ (fixed_buffer_set_list inp).flatten,
      r.2 ≠ buffer_lifetime.action_output_buffer) :
    ∃ res, setup_fixed_buffer_sizes inp = Except.ok res ∧
      res.fixed_set_size_list.length = (fixed_buffer_set_list inp).length ∧
      ∀ i, i < (fixed_buffer_set_list inp).length →
        res.fixed_set_size_list.getD i 0
          = fixed_set_size inp
              (if i ∈ set_ids_with_hungry_working_buffers inp (fixed_buffer_set_list inp) then
                hungry_share inp.max_fixed_working_buffers_size
                  (set_ids_with_hungry_working_buffers inp (fixed_buffer_set_list inp)).length
               else 1)
              ((fixed_buffer_set_list inp).getD i []) := by
  obtain ⟨res, sizes, r1, r2, r3, r4⟩ := fixed_sets_ok inp
    (hungry_share inp.max_fixed_working_buffers_size
      (set_ids_with_hungry_working_buffers inp (fixed_buffer_set_list inp)).length)
    (set_ids_with_hungry_working_buffers inp (fixed_buffer_set_list inp))
    (fixed_buffer_set_list inp) 0
    { fixed_set_size_list := []
      temporary_working_fixed_data_action_to_set_map := []
      temporary_fixed_data_action_to_set_map := [] } hlife
  simp only [List.nil_append] at r2
  refine ⟨res, r1, ?_, ?_⟩
  · rw [r2, r3]
  · intro i hi
    rw [r2, r4 i hi, Nat.zero_add]

theorem countP_eq_one_of_nodup {α : Type} [DecidableEq α] :
    ∀ (l : List α) (r : α), l.Nodup → r ∈ l → l.countP (fun x => decide (x = r)) = 1 := by
  intro l
  induction l with
  | nil => intro r _ h; simp at h
  | cons x rest ih =>
    intro r hnd hr
    rw [List.nodup_cons] at hnd
    rw [List.countP_cons]
    by_cases hx : x = r
    · subst hx
      have : rest.countP (fun y => decide (y = x)) = 0 := by
        apply List.countP_eq_zero.mpr
        intro y hy
        simp only [decide_eq_true_eq]
        intro hyx
        exact hnd.1 (hyx ▸ hy)
      rw [this]
      simp
    · have hr2 : r ∈ rest := by
        rcases List.mem_cons.mp hr with h | h
        · exact absurd h.symm hx
        · exact h
      rw [ih r hnd.2 hr2]
      simp [hx]

theorem dont_share_sets_spec (orig : List (List buffer_request)) :
    (∀ set ∈ dont_share_sets orig, set.length = 1) ∧
    (dont_share_sets orig).flatten = orig.flatten ∧
    (dont_share_sets orig).length = orig.flatten.length ∧
    (∀ r, ((dont_share_sets orig).filter (fun set => decide (r ∈ set))).length
      = orig.flatten.countP (fun x => decide (x = r))) := by
  unfold dont_share_sets
  refine ⟨?_, ?_, ?_, ?_⟩
  · intro set hset
    obtain ⟨r, _, hr⟩ := List.mem_map.mp hset
    rw [← hr]
    rfl
  · induction orig.flatten with
    | nil => rfl
    | cons x rest ih =>
      rw [List.map_cons, List.flatten_cons, ih]
      rfl
  · exact List.length_map _ _
  · intro r
    induction orig.flatten with
    | nil => rfl
    | cons x rest ih =>
      rw [List.map_cons, List.filter_cons, List.countP_cons]
      by_cases hx : r = x
      · subst hx
        simp [ih]
      · have hx2 : ¬ x = r := fun h => hx h.symm
        simp [ih, hx, hx2]

/-! ## Fixed buffers: the claims -/

/-- Claim C18. Fixed pool with buffer sharing disabled: whatever partition the allocator
returns, `setup_fixed_buffer_sizes` replaces it by a list in which every set holds exactly
one request, with the same requests in the same order; a request is in as many sets as it
has occurrences in the partition, hence in exactly one set when the partition has no
repeated request; the number of sets is the number of requests, and so is the number of
entries of `fixed_set_size_list` (the function ends normally when no request carries the
output lifetime, the only case in which it throws). -/
theorem C18_fixed_dont_share (inp : fixed_buffer_input)
    (hds : inp.is_dont_share_buffers = true) :
    (∀ set ∈ fixed_buffer_set_list inp, set.length = 1) ∧
    (fixed_buffer_set_list inp).flatten
      = (inp.get_buffer_set (fixed_buffers inp) (fixed_dependencies inp) []).flatten ∧
    (∀ r, ((fixed_buffer_set_list inp).filter (fun set => decide (r ∈ set))).length
      = (inp.get_buffer_set (fixed_buffers inp) (fixed_dependencies inp) []).flatten.countP
          (fun x => decide (x = r))) ∧
    ((inp.get_buffer_set (fixed_buffers inp) (fixed_dependencies inp) []).flatten.Nodup →
      ∀ r ∈ (inp.get_buffer_set (fixed_buffers inp) (fixed_dependencies inp) []).flatten,
        ((fixed_buffer_set_list inp).filter (fun set => decide (r ∈ set))).length = 1) ∧
    (fixed_buffer_set_list inp).length
      = (inp.get_buffer_set (fixed_buffers inp) (fixed_dependencies inp) []).flatten.length ∧
    ((∀ r ∈ (inp.get_buffer_set (fixed_buffers inp) (fixed_dependencies inp) []).flatten,
        r.2 ≠ buffer_lifetime.action_output_buffer) →
      ∃ res, setup_fixed_buffer_sizes inp = Except.ok res ∧
        res.fixed_set_size_list.length
          = (inp.get_buffer_set (fixed_buffers inp) (fixed_dependencies inp) []).flatten.length)
    := by
  have hlist : fixed_buffer_set_list inp
      = dont_share_sets (inp.get_buffer_set (fixed_buffers inp) (fixed_dependencies inp) []) := by
    unfold fixed_buffer_set_list
    rw [hds]
    rfl
  obtain ⟨d1, d2, d3, d4⟩ :=
    dont_share_sets_spec (inp.get_buffer_set (fixed_buffers inp) (fixed_dependencies inp) [])
  rw [← hlist] at d1 d2 d3 d4
  refine ⟨d1, d2, d4, ?_, d3, ?_⟩
  · intro hnd r hr
    rw [d4 r]
    exact countP_eq_one_of_nodup _ r hnd hr
  · intro hlife
    obtain ⟨res, r1, r2, _⟩ := setup_fixed_buffer_sizes_ok inp (by rw [d2]; exact hlife)
    exact ⟨res, r1, by rw [r2, d3]⟩

theorem C18_fixed_dont_share_witness :
    (∀ set ∈ fixed_buffer_set_list two_hungry_sets, set.length = 1) ∧
    (fixed_buffer_set_list two_hungry_sets).length = 3 ∧
    ∃ res, setup_fixed_buffer_sizes two_hungry_sets = Except.ok res ∧
      res.fixed_set_size_list.length = 3 := by
  obtain ⟨h1, _, _, _, h5, h6⟩ := C18_fixed_dont_share two_hungry_sets rfl
  exact ⟨h1, h5, h6 (by decide)⟩


theorem fixed_set_size_max (inp : fixed_buffer_input) :
    ∀ (action_list : List buffer_request) (start : Nat),
      fixed_set_size inp start action_list
        = max start (fixed_set_size inp 0 action_list) := by
  intro action_list
  induction action_list with
  | nil =>
    intro start
    simp [fixed_set_size]
  | cons r rest ih =>
    intro start
    unfold fixed_set_size
    rw [List.foldl_cons, List.foldl_cons]
    cases hsz : fixed_buffer_size inp r with
    | error e => exact ih start
    | ok sz =>
      simp only []
      have h1 := ih (max start sz)
      have h2 := ih (max 0 sz)
      unfold fixed_set_size at h1 h2
      rw [h1, h2]
      simp only [Nat.zero_max, Nat.max_assoc]

theorem sum_map_const_of_forall (l : List Nat) (f : Nat → Nat) (c : Nat)
    (h : ∀ x ∈ l, f x = c) : (l.map f).sum = l.length * c := by
  induction l with
  | nil => simp
  | cons x rest ih =>
    rw [List.map_cons, List.sum_cons, h x (List.mem_cons_self _ _),
      ih (fun y hy => h y (List.mem_cons_of_mem _ hy)), List.length_cons]
    ring

/-- The claim C21 as stated fails: with a budget of 10 bytes and one hungry working buffer
that needs at least 20 bytes, the only hungry set gets 20 bytes, more than the budget. -/
theorem C21_counterexample :
    ∃ res, setup_fixed_buffer_sizes hungry_over_budget = Except.ok res ∧
      set_ids_with_hungry_working_buffers hungry_over_budget
        (fixed_buffer_set_list hungry_over_budget) = [0] ∧
      res.fixed_set_size_list = [20] ∧
      ¬ (hungry_total [0] res.fixed_set_size_list
          ≤ hungry_over_budget.max_fixed_working_buffers_size) := by
  have h : setup_fixed_buffer_sizes hungry_over_budget = Except.ok
      { fixed_set_size_list := [20]
        temporary_working_fixed_data_action_to_set_map :=
          [({ name := "L", action := layer_action.forward }, 0)]
        temporary_fixed_data_action_to_set_map := [] } := rfl
  exact ⟨_, h, by decide, rfl, by decide⟩

/-- Claim C21, amended. When no request of the fixed pool carries the output lifetime,
`setup_fixed_buffer_sizes` ends normally and every set that holds a hungry working buffer
gets the larger of the even share (the budget divided by the number `k` of hungry sets when
`k > 1`, the budget itself otherwise) and the largest size its requests need. When no
request of a hungry set needs more than the share, every hungry set gets exactly the share
and the sizes of the hungry sets add up to `k` times the share, which is at most the
budget. -/
theorem C21_hungry_budget (inp : fixed_buffer_input)
    (hlife : ∀ r ∈ (fixed_buffer_set_list inp).flatten,
      r.2 ≠ buffer_lifetime.action_output_buffer) :
    ∃ res, setup_fixed_buffer_sizes inp = Except.ok res ∧
      (∀ set_id ∈ set_ids_with_hungry_working_buffers inp (fixed_buffer_set_list inp),
        res.fixed_set_size_list.getD set_id 0
          = max (hungry_share inp.max_fixed_working_buffers_size
                  (set_ids_with_hungry_working_buffers inp (fixed_buffer_set_list inp)).length)
              (fixed_set_size inp 0 ((fixed_buffer_set_list inp).getD set_id []))) ∧
      ((∀ set_id ∈ set_ids_with_hungry_working_buffers inp (fixed_buffer_set_list inp),
          fixed_set_size inp 0 ((fixed_buffer_set_list inp).getD set_id [])
            ≤ hungry_share inp.max_fixed_working_buffers_size
                (set_ids_with_hungry_working_buffers inp (fixed_buffer_set_list inp)).length) →
        hungry_total (set_ids_with_hungry_working_buffers inp (fixed_buffer_set_list inp))
            res.fixed_set_size_list
          = (set_ids_with_hungry_working_buffers inp (fixed_buffer_set_list inp)).length
              * hungry_share inp.max_fixed_working_buffers_size
                  (set_ids_with_hungry_working_buffers inp (fixed_buffer_set_list inp)).length ∧
        hungry_total (set_ids_with_hungry_working_buffers inp (fixed_buffer_set_list inp))
            res.fixed_set_size_list
          ≤ inp.max_fixed_working_buffers_size) := by
  obtain ⟨res, r1, _, r3⟩ := setup_fixed_buffer_sizes_ok inp hlife
  have hsize : ∀ set_id ∈ set_ids_with_hungry_working_buffers inp (fixed_buffer_set_list inp),
      res.fixed_set_size_list.getD set_id 0
        = max (hungry_share inp.max_fixed_working_buffers_size
                (set_ids_with_hungry_working_buffers inp (fixed_buffer_set_list inp)).length)
            (fixed_set_size inp 0 ((fixed_buffer_set_list inp).getD set_id [])) := by
    intro set_id hid
    rw [r3 set_id (set_ids_with_hungry_working_buffers_lt inp _ set_id hid), if_pos hid]
    exact fixed_set_size_max inp _ _
  refine ⟨res, r1, hsize, ?_⟩
  intro hle
  have htotal : hungry_total (set_ids_with_hungry_working_buffers inp (fixed_buffer_set_list inp))
      res.fixed_set_size_list
      = (set_ids_with_hungry_working_buffers inp (fixed_buffer_set_list inp)).length
          * hungry_share inp.max_fixed_working_buffers_size
              (set_ids_with_hungry_working_buffers inp (fixed_buffer_set_list inp)).length := by
    unfold hungry_total
    apply sum_map_const_of_forall
    intro set_id hid
    rw [hsize set_id hid]
    exact Nat.max_eq_left (hle set_id hid)
  refine ⟨htotal, ?_⟩
  rw [htotal]
  apply hungry_share_mul_le
  intro h
  omega

theorem C21_hungry_budget_witness :
    ∃ res, setup_fixed_buffer_sizes two_hungry_sets = Except.ok res ∧
      hungry_total (set_ids_with_hungry_working_buffers two_hungry_sets
          (fixed_buffer_set_list two_hungry_sets)) res.fixed_set_size_list
        = 2 * hungry_share 11 2 ∧
      hungry_total (set_ids_with_hungry_working_buffers two_hungry_sets
          (fixed_buffer_set_list two_hungry_sets)) res.fixed_set_size_list ≤ 11 := by
  obtain ⟨res, h1, _, h3⟩ := C21_hungry_budget two_hungry_sets (by decide)
  exact ⟨res, h1, h3 (by decide)⟩

/-- Claim C23, the failing input. A forward action whose layer reports a temporary fixed
size of 5 and a working fixed size of 7: the request map handed to the allocator holds only
the working request of the action, the temporary request is missing (line 1345 creates the
entry of the action, so the `insert` of line 1350 changes nothing). -/
theorem C23_temporary_request_dropped :
    forward_with_both_requests.get_temporary_fixed_buffer_size "L" = 5 ∧
    forward_with_both_requests.get_temporary_working_fixed_buffer_size "L" layer_action.forward
      = (7, false) ∧
    fixed_buffers forward_with_both_requests
      = [({ name := "L", action := layer_action.forward },
          [(buffer_lifetime.working_buffer, 7)])] ∧
    ∀ requests, map_find (fixed_buffers forward_with_both_requests)
        { name := "L", action := layer_action.forward } = some requests →
      (buffer_lifetime.temporary_buffer, 5) ∉ requests := by
  refine ⟨rfl, rfl, by decide, ?_⟩
  intro requests h
  have h2 : map_find (fixed_buffers forward_with_both_requests)
      { name := "L", action := layer_action.forward }
      = some [(buffer_lifetime.working_buffer, 7)] := by decide
  rw [h2] at h
  rw [← Option.some.inj h]
  decide

/-! ## Buffer sets per entry: auxiliary facts -/

theorem map_find_map_modify {K V : Type} [DecidableEq K] (k : K) (f : V → V) :
    ∀ (m : List (K × V)) (k1 : K),
      map_find (m.map (fun p => if p.1 = k then (p.1, f p.2) else p)) k1
        = if k1 = k then (map_find m k1).map f else map_find m k1 := by
  intro m
  induction m with
  | nil =>
    intro k1
    simp [map_find]
  | cons p rest ih =>
    intro k1
    obtain ⟨k0, v0⟩ := p
    rw [List.map_cons]
    by_cases h0 : k0 = k
    · have hp : (if (k0, v0).1 = k then ((k0, v0).1, f (k0, v0).2) else (k0, v0))
          = (k0, f v0) := if_pos h0
      rw [hp]
      simp only [map_find]
      by_cases h1 : k0 = k1
      · have h2 : k1 = k := h1.symm.trans h0
        rw [if_pos h1, if_pos h1, if_pos h2]
        rfl
      · rw [if_neg h1, if_neg h1]
        exact ih k1
    · have hp : (if (k0, v0).1 = k then ((k0, v0).1, f (k0, v0).2) else (k0, v0))
          = (k0, v0) := if_neg h0
      rw [hp]
      simp only [map_find]
      by_cases h1 : k0 = k1
      · have h2 : ¬ k1 = k := fun h => h0 (h1.trans h)
        rw [if_pos h1, if_pos h1, if_neg h2]
      · rw [if_neg h1, if_neg h1]
        exact ih k1

theorem map_find_modify_self {K V : Type} [DecidableEq K] (m : List (K × V)) (k : K) (d : V)
    (f : V → V) :
    map_find (map_modify m k d f) k = some (f ((map_find m k).getD d)) := by
  unfold map_modify
  cases h : map_find m k with
  | some v =>
    simp only []
    rw [map_find_map_modify, if_pos rfl, h]
    rfl
  | none =>
    simp only []
    rw [map_find_append_none m _ k h, map_find_singleton]
    rfl

theorem map_find_modify_ne {K V : Type} [DecidableEq K] (m : List (K × V)) (k k1 : K) (d : V)
    (f : V → V) (hne : k1 ≠ k) :
    map_find (map_modify m k d f) k1 = map_find m k1 := by
  unfold map_modify
  cases h : map_find m k with
  | some v =>
    simp only []
    rw [map_find_map_modify, if_neg hne]
  | none =>
    simp only []
    cases h1 : map_find m k1 with
    | some v1 => exact map_find_append_some m _ k1 v1 h1
    | none => rw [map_find_append_none m _ k1 h1, map_find_singleton_ne k1 k _ (fun e => hne e.symm)]

theorem is_buffer_processed_step (m : List (layer_name_with_action × List buffer_lifetime))
    (x r : buffer_request) :
    is_buffer_processed (map_modify m x.1 []
        (fun lifetimes => if x.2 ∈ lifetimes then lifetimes else lifetimes ++ [x.2])) r = true
      ↔ (is_buffer_processed m r = true ∨ r = x) := by
  obtain ⟨xa, xl⟩ := x
  obtain ⟨ra, rl⟩ := r
  unfold is_buffer_processed
  by_cases ha : ra = xa
  · subst ha
    simp only []
    rw [map_find_modify_self]
    cases hm : map_find m ra with
    | none =>
      simp only [Option.getD_none, List.not_mem_nil, if_false, List.nil_append,
        List.mem_singleton, decide_eq_true_eq, Prod.mk.injEq, true_and, Bool.false_eq_true,
        false_or]
    | some lifetimes =>
      simp only [Option.getD_some, decide_eq_true_eq, Prod.mk.injEq, true_and]
      by_cases hx : xl ∈ lifetimes
      · rw [if_pos hx]
        constructor
        · intro h
          exact Or.inl h
        · rintro (h | h)
          · exact h
          · rw [h]
            exact hx
      · rw [if_neg hx, List.mem_append, List.mem_singleton]
  · simp only []
    rw [map_find_modify_ne m xa ra [] _ ha]
    constructor
    · intro h
      exact Or.inl h
    · rintro (h | h)
      · exact h
      · exact absurd (Prod.mk.inj h).1 ha

theorem is_buffer_processed_foldl :
    ∀ (xs : List buffer_request) (m : List (layer_name_with_action × List buffer_lifetime))
      (r : buffer_request),
      is_buffer_processed (xs.foldl
          (fun m x => map_modify m x.1 []
            (fun lifetimes => if x.2 ∈ lifetimes then lifetimes else lifetimes ++ [x.2])) m) r
          = true
        ↔ (is_buffer_processed m r = true ∨ r ∈ xs) := by
  intro xs
  induction xs with
  | nil =>
    intro m r
    simp
  | cons x rest ih =>
    intro m r
    rw [List.foldl_cons, ih, is_buffer_processed_step, List.mem_cons, or_assoc]

/-- The flag of lines 1641-1648 is set exactly for the requests of the forced groups. -/
theorem is_buffer_processed_iff (groups : List (List buffer_request)) (r : buffer_request) :
    is_buffer_processed (same_buffers groups) r = true ↔ r ∈ groups.flatten := by
  unfold same_buffers
  rw [is_buffer_processed_foldl]
  simp [is_buffer_processed, map_find]

theorem layer_buffer_set_list_dont_share (inp : per_entry_buffer_input)
    (hds : inp.is_dont_share_buffers = true) :
    layer_buffer_set_list inp
      = should_be_placed_into_the_same_buffers inp.same_output_action_sets ++
        ((inp.get_buffer_set
            (should_be_placed_into_the_same_buffers inp.same_output_action_sets)).flatten.filter
          (fun r => decide (r ∉
            (should_be_placed_into_the_same_buffers inp.same_output_action_sets).flatten))).map
          (fun r => [r]) := by
  unfold layer_buffer_set_list
  rw [hds]
  simp only [if_true]
  congr 2
  apply List.filter_congr
  intro r _
  have := is_buffer_processed_iff
    (should_be_placed_into_the_same_buffers inp.same_output_action_sets) r
  by_cases hr : r ∈ (should_be_placed_into_the_same_buffers inp.same_output_action_sets).flatten
  · rw [this.mpr hr]
    simp [hr]
  · have h2 : is_buffer_processed
        (same_buffers (should_be_placed_into_the_same_buffers inp.same_output_action_sets)) r
        = false := by
      cases h : is_buffer_processed
        (same_buffers (should_be_placed_into_the_same_buffers inp.same_output_action_sets)) r
      · rfl
      · exact absurd (this.mp h) hr
    rw [h2]
    simp [hr]

theorem insert_action_kept (st : per_entry_buffer_sizes) (r : buffer_request) (set_id : Nat)
    (l : buffer_lifetime) (a : layer_name_with_action) (v : Nat)
    (h : map_find (st.action_to_set_map l) a = some v) :
    map_find ((st.insert_action r set_id).action_to_set_map l) a = some v := by
  obtain ⟨ra, rl⟩ := r
  cases rl <;> cases l <;>
    first
    | exact h
    | exact (map_insert_spec _ ra set_id).2.1 a v h

theorem insert_action_new (st : per_entry_buffer_sizes) (r : buffer_request) (set_id : Nat)
    (l : buffer_lifetime) (a : layer_name_with_action)
    (h : map_find (st.action_to_set_map l) a = none) :
    map_find ((st.insert_action r set_id).action_to_set_map l) a
      = if (a, l) = r then some set_id else none := by
  obtain ⟨ra, rl⟩ := r
  by_cases hl : l = rl
  · subst hl
    by_cases ha : a = ra
    · subst ha
      rw [if_pos rfl]
      cases l <;> exact map_find_insert_none _ a set_id h
    · have hne : ¬ (a, l) = (ra, l) := fun e => ha (Prod.mk.inj e).1
      rw [if_neg hne, ← h]
      cases l <;> exact map_find_insert_ne _ ra a set_id (fun e => ha e.symm)
  · have hne : ¬ (a, l) = (ra, rl) := fun e => hl (Prod.mk.inj e).2
    rw [if_neg hne, ← h]
    cases rl <;> cases l <;>
      first
      | exact absurd rfl hl
      | rfl

theorem insert_action_size_list (st : per_entry_buffer_sizes) (r : buffer_request)
    (set_id : Nat) :
    (st.insert_action r set_id).layer_buffer_set_per_entry_size_list
      = st.layer_buffer_set_per_entry_size_list := by
  obtain ⟨ra, rl⟩ := r
  cases rl <;> rfl

/-- The loop over the requests of one set, all of which have a size: it ends normally, the
recorded size bounds the starting value and every size, and is one of them; every request
is entered under the set id in the map of its lifetime unless the action is already there. -/
theorem per_entry_set_requests_ok (inp : per_entry_buffer_input) (set_id : Nat) :
    ∀ (action_list : List buffer_request) (m : Nat) (st : per_entry_buffer_sizes),
      (∀ r ∈ action_list, ∃ sz, per_entry_buffer_size inp r = Except.ok sz) →
      ∃ m1 st1, per_entry_set_requests inp set_id action_list (m, st) = Except.ok (m1, st1) ∧
        st1.layer_buffer_set_per_entry_size_list = st.layer_buffer_set_per_entry_size_list ∧
        m ≤ m1 ∧
        (∀ r ∈ action_list, ∃ sz, per_entry_buffer_size inp r = Except.ok sz ∧ sz ≤ m1) ∧
        (m1 = m ∨ ∃ r ∈ action_list, per_entry_buffer_size inp r = Except.ok m1) ∧
        (∀ l a v, map_find (st.action_to_set_map l) a = some v →
          map_find (st1.action_to_set_map l) a = some v) ∧
        (∀ l a, map_find (st.action_to_set_map l) a = none →
          map_find (st1.action_to_set_map l) a
            = if (a, l) ∈ action_list then some set_id else none) := by
  intro action_list
  induction action_list with
  | nil =>
    intro m st _
    refine ⟨m, st, rfl, rfl, Nat.le_refl _, ?_, Or.inl rfl, fun l a v h => h, ?_⟩
    · intro r hr
      simp at hr
    · intro l a h
      simp [h]
  | cons r rest ih =>
    intro m st hsz
    obtain ⟨sz, hr⟩ := hsz r (List.mem_cons_self _ _)
    obtain ⟨m1, st1, e1, e2, e3, e4, e5, e6, e7⟩ := ih (max m sz) (st.insert_action r set_id)
      (fun x hx => hsz x (List.mem_cons_of_mem _ hx))
    refine ⟨m1, st1, ?_, ?_, ?_, ?_, ?_, ?_, ?_⟩
    · rw [per_entry_set_requests, hr]
      exact e1
    · rw [e2, insert_action_size_list]
    · exact Nat.le_trans (Nat.le_max_left _ _) e3
    · intro x hx
      rcases List.mem_cons.mp hx with h | h
      · rw [h]
        exact ⟨sz, hr, Nat.le_trans (Nat.le_max_right _ _) e3⟩
      · exact e4 x h
    · rcases e5 with h | ⟨x, hx, hxs⟩
      · by_cases hle : sz ≤ m
        · left
          rw [h]
          exact Nat.max_eq_left hle
        · right
          refine ⟨r, List.mem_cons_self _ _, ?_⟩
          rw [hr, h, Nat.max_eq_right (by omega)]
      · exact Or.inr ⟨x, List.mem_cons_of_mem _ hx, hxs⟩
    · intro l a v h
      exact e6 l a v (insert_action_kept st r set_id l a v h)
    · intro l a h
      have hnew := insert_action_new st r set_id l a h
      by_cases hra : (a, l) = r
      · rw [if_pos hra] at hnew
        rw [e6 l a set_id hnew, if_pos (by rw [hra]; exact List.mem_cons_self _ _)]
      · rw [if_neg hra] at hnew
        rw [e7 l a hnew]
        by_cases hin : (a, l) ∈ rest
        · rw [if_pos hin, if_pos (List.mem_cons_of_mem _ hin)]
        · rw [if_neg hin, if_neg]
          intro hc
          rcases List.mem_cons.mp hc with h1 | h1
          · exact hra h1
          · exact hin h1

/-- The loop over the sets of a duplicate-free set list whose requests all have a size. -/
theorem per_entry_sets_ok (inp : per_entry_buffer_input) :
    ∀ (sets : List (List buffer_request)) (set_id : Nat) (st : per_entry_buffer_sizes),
      (∀ r ∈ sets.flatten, ∃ sz, per_entry_buffer_size inp r = Except.ok sz) →
      sets.flatten.Nodup →
      ∃ res sizes, per_entry_sets inp set_id sets st = Except.ok res ∧
        res.layer_buffer_set_per_entry_size_list
          = st.layer_buffer_set_per_entry_size_list ++ sizes ∧
        sizes.length = sets.length ∧
        (∀ i, i < sets.length →
          (∀ r ∈ sets.getD i [], ∃ sz, per_entry_buffer_size inp r = Except.ok sz ∧
            sz ≤ sizes.getD i 0) ∧
          (sets.getD i [] ≠ [] →
            ∃ r ∈ sets.getD i [], per_entry_buffer_size inp r = Except.ok (sizes.getD i 0))) ∧
        (∀ l a v, map_find (st.action_to_set_map l) a = some v →
          map_find (res.action_to_set_map l) a = some v) ∧
        (∀ l a, map_find (st.action_to_set_map l) a = none →
          ∀ i, i < sets.length → (a, l) ∈ sets.getD i [] →
            map_find (res.action_to_set_map l) a = some (set_id + i)) := by
  intro sets
  induction sets with
  | nil =>
    intro set_id st _ _
    exact ⟨st, [], rfl, (List.append_nil _).symm, rfl,
      fun i hi => absurd hi (Nat.not_lt_zero i), fun l a v h => h,
      fun l a _ i hi => absurd hi (Nat.not_lt_zero i)⟩
  | cons action_list rest ih =>
    intro set_id st hsz hnd
    rw [List.flatten_cons] at hsz hnd
    obtain ⟨_, hnd2, hdis⟩ := List.nodup_append.mp hnd
    obtain ⟨m1, st1, e1, e2, _, e4, e5, e6, e7⟩ := per_entry_set_requests_ok inp set_id
      action_list 0 st (fun r hr => hsz r (List.mem_append_left _ hr))
    obtain ⟨res, sizes, r1, r2, r3, r4, r5, r6⟩ := ih (set_id + 1)
      { st1 with layer_buffer_set_per_entry_size_list :=
          st1.layer_buffer_set_per_entry_size_list ++ [m1] }
      (fun r hr => hsz r (List.mem_append_right _ hr)) hnd2
    have hmaps : ∀ l, ({ st1 with layer_buffer_set_per_entry_size_list :=
        st1.layer_buffer_set_per_entry_size_list ++ [m1] } : per_entry_buffer_sizes).action_to_set_map l
        = st1.action_to_set_map l := by
      intro l
      cases l <;> rfl
    refine ⟨res, m1 :: sizes, ?_, ?_, ?_, ?_, ?_, ?_⟩
    · rw [per_entry_sets, e1]
      exact r1
    · rw [r2]
      simp only [e2, List.append_assoc, List.singleton_append]
    · simp only [List.length_cons, r3]
    · intro i hi
      cases i with
      | zero =>
        refine ⟨e4, ?_⟩
        intro hne
        rcases e5 with h | h
        · have hne2 : action_list ≠ [] := hne
          obtain ⟨r, rs, hrs⟩ := List.exists_cons_of_ne_nil hne2
          have hmem : r ∈ action_list := by
            rw [hrs]
            exact List.mem_cons_self _ _
          obtain ⟨sz, h1, h2⟩ := e4 r hmem
          refine ⟨r, hmem, ?_⟩
          have : sz = m1 := by omega
          rw [h1, this]
          rfl
        · exact h
      | succ k =>
        have hk : k < rest.length := by
          simp only [List.length_cons] at hi
          omega
        exact r4 k hk
    · intro l a v h
      apply r5 l a v
      rw [hmaps]
      exact e6 l a v h
    · intro l a h i hi hmem
      cases i with
      | zero =>
        have hmem2 : (a, l) ∈ action_list := hmem
        have h1 := e7 l a h
        rw [if_pos hmem2] at h1
        have h2 := r5 l a set_id (by rw [hmaps]; exact h1)
        rw [h2]
        rfl
      | succ k =>
        have hk : k < rest.length := by
          simp only [List.length_cons] at hi
          omega
        have hin : (a, l) ∈ rest.flatten := by
          apply List.mem_flatten.mpr
          refine ⟨rest.getD k [], ?_, hmem⟩
          rw [List.getD_eq_getElem _ _ hk]
          exact List.getElem_mem _
        have hnot : (a, l) ∉ action_list := fun hc => hdis hc hin
        have h1 := e7 l a h
        rw [if_neg hnot] at h1
        have h2 := r6 l a (by rw [hmaps]; exact h1) k hk hmem
        rw [h2]
        have e : set_id + 1 + k = set_id + (k + 1) := by omega
        rw [e]

/-! ## Buffer sets per entry: the claims -/

/-- The claim C19 as stated fails: with sharing disabled and the forced group
`[A:forward, B:forward]`, the first set of the list holds two requests and the list has two
sets for the three requests of the allocator's partition. -/
theorem C19_counterexample :
    layer_buffer_set_list forced_group_of_two
      = [[({ name := "A", action := layer_action.forward }, buffer_lifetime.action_output_buffer),
          ({ name := "B", action := layer_action.forward }, buffer_lifetime.action_output_buffer)],
         [({ name := "A", action := layer_action.forward }, buffer_lifetime.working_buffer)]] ∧
    ¬ (∀ set ∈ layer_buffer_set_list forced_group_of_two, set.length = 1) ∧
    (forced_group_of_two.get_buffer_set
      (should_be_placed_into_the_same_buffers
        forced_group_of_two.same_output_action_sets)).flatten.length = 3 ∧
    (layer_buffer_set_list forced_group_of_two).length ≠ 3 := by
  refine ⟨by decide, by decide, by decide, by decide⟩

/-- Claim C19, amended. Per-entry pool with buffer sharing disabled: the set list built by
`setup_per_entry_buffer_sizes` consists of the forced same-buffer groups, in order, followed
by one set for each request of the allocator's partition that is in no forced group, in
order. Every set after the forced groups holds exactly one request, every request of the
partition is in a set, and without forced groups the list has exactly one set per request. -/
theorem C19_per_entry_dont_share (inp : per_entry_buffer_input)
    (hds : inp.is_dont_share_buffers = true) :
    layer_buffer_set_list inp
      = should_be_placed_into_the_same_buffers inp.same_output_action_sets ++
        ((inp.get_buffer_set
            (should_be_placed_into_the_same_buffers inp.same_output_action_sets)).flatten.filter
          (fun r => decide (r ∉
            (should_be_placed_into_the_same_buffers inp.same_output_action_sets).flatten))).map
          (fun r => [r]) ∧
    (∀ i, (should_be_placed_into_the_same_buffers inp.same_output_action_sets).length ≤ i →
      i < (layer_buffer_set_list inp).length →
      ((layer_buffer_set_list inp).getD i []).length = 1) ∧
    (∀ r ∈ (inp.get_buffer_set
        (should_be_placed_into_the_same_buffers inp.same_output_action_sets)).flatten,
      r ∈ (layer_buffer_set_list inp).flatten) ∧
    (inp.same_output_action_sets = [] →
      layer_buffer_set_list inp = dont_share_sets (inp.get_buffer_set []) ∧
      (∀ set ∈ layer_buffer_set_list inp, set.length = 1) ∧
      (layer_buffer_set_list inp).length = (inp.get_buffer_set []).flatten.length) := by
  have hl := layer_buffer_set_list_dont_share inp hds
  refine ⟨hl, ?_, ?_, ?_⟩
  · intro i hi hlt
    rw [hl] at hlt ⊢
    rw [List.getD_eq_getElem _ _ hlt, List.getElem_append_right hi]
    have hmem := List.getElem_mem (l := ((inp.get_buffer_set
        (should_be_placed_into_the_same_buffers inp.same_output_action_sets)).flatten.filter
      (fun r => decide (r ∉
        (should_be_placed_into_the_same_buffers inp.same_output_action_sets).flatten))).map
      (fun r => [r])) (n := i - (should_be_placed_into_the_same_buffers
        inp.same_output_action_sets).length) (by
          rw [List.length_append] at hlt
          omega)
    obtain ⟨r, _, hr⟩ := List.mem_map.mp hmem
    rw [← hr]
    rfl
  · intro r hr
    rw [hl, List.flatten_append, List.mem_append]
    by_cases hg : r ∈ (should_be_placed_into_the_same_buffers
        inp.same_output_action_sets).flatten
    · exact Or.inl hg
    · right
      apply List.mem_flatten.mpr
      refine ⟨[r], ?_, List.mem_singleton_self r⟩
      apply List.mem_map.mpr
      exact ⟨r, List.mem_filter.mpr ⟨hr, by simpa using hg⟩, rfl⟩
  · intro hnone
    have hl2 : layer_buffer_set_list inp = dont_share_sets (inp.get_buffer_set []) := by
      rw [hl, hnone]
      simp only [should_be_placed_into_the_same_buffers, List.map_nil, List.flatten_nil,
        List.not_mem_nil, not_false_eq_true, decide_True, List.filter_true, List.nil_append]
      rfl
    obtain ⟨d1, _, d3, _⟩ := dont_share_sets_spec (inp.get_buffer_set [])
    rw [← hl2] at d1 d3
    exact ⟨hl2, d1, d3⟩

theorem C19_per_entry_dont_share_witness :
    (∀ i, 1 ≤ i → i < (layer_buffer_set_list forced_group_of_two).length →
      ((layer_buffer_set_list forced_group_of_two).getD i []).length = 1) ∧
    (∀ r ∈ (forced_group_of_two.get_buffer_set
        (should_be_placed_into_the_same_buffers
          forced_group_of_two.same_output_action_sets)).flatten,
      r ∈ (layer_buffer_set_list forced_group_of_two).flatten) := by
  obtain ⟨_, h2, h3, _⟩ := C19_per_entry_dont_share forced_group_of_two rfl
  exact ⟨h2, h3⟩


/-- Claim C20. When every request of the per-entry set list has a size (no request makes
line 1690 throw) and no request is listed twice, `setup_per_entry_buffer_sizes` ends
normally with one size per set; for every set, the recorded size is at least the size of
every member, it is the size of some member when the set is not empty, and every member is
mapped to the id of the set in the action-to-set map of its lifetime tag. -/
theorem C20_per_entry_set_sizes (inp : per_entry_buffer_input)
    (hsz : ∀ r ∈ (layer_buffer_set_list inp).flatten,
      ∃ sz, per_entry_buffer_size inp r = Except.ok sz)
    (hnd : (layer_buffer_set_list inp).flatten.Nodup) :
    ∃ res, setup_per_entry_buffer_sizes inp = Except.ok res ∧
      res.layer_buffer_set_per_entry_size_list.length = (layer_buffer_set_list inp).length ∧
      ∀ set_id, set_id < (layer_buffer_set_list inp).length →
        (∀ r ∈ (layer_buffer_set_list inp).getD set_id [],
          (∃ sz, per_entry_buffer_size inp r = Except.ok sz ∧
            sz ≤ res.layer_buffer_set_per_entry_size_list.getD set_id 0) ∧
          map_find (res.action_to_set_map r.2) r.1 = some set_id) ∧
        ((layer_buffer_set_list inp).getD set_id [] ≠ [] →
          ∃ r ∈ (layer_buffer_set_list inp).getD set_id [],
            per_entry_buffer_size inp r
              = Except.ok (res.layer_buffer_set_per_entry_size_list.getD set_id 0)) := by
  obtain ⟨res, sizes, r1, r2, r3, r4, _, r6⟩ := per_entry_sets_ok inp (layer_buffer_set_list inp)
    0 { layer_buffer_set_per_entry_size_list := []
        layer_buffer_action_to_set_map := []
        temporary_working_per_entry_data_action_to_set_map := []
        temporary_per_entry_data_action_to_set_map := [] } hsz hnd
  simp only [List.nil_append] at r2
  refine ⟨res, r1, by rw [r2, r3], ?_⟩
  intro set_id hid
  rw [r2]
  refine ⟨?_, (r4 set_id hid).2⟩
  intro r hr
  refine ⟨(r4 set_id hid).1 r hr, ?_⟩
  have := r6 r.2 r.1 (by cases r.2 <;> rfl) set_id hid hr
  rw [Nat.zero_add] at this
  exact this

theorem C20_per_entry_set_sizes_witness :
    ∃ res, setup_per_entry_buffer_sizes forced_group_of_two = Except.ok res ∧
      res.layer_buffer_set_per_entry_size_list.length = 2 ∧
      (∃ sz, per_entry_buffer_size forced_group_of_two
          ({ name := "B", action := layer_action.forward }, buffer_lifetime.action_output_buffer)
          = Except.ok sz ∧ sz ≤ res.layer_buffer_set_per_entry_size_list.getD 0 0) ∧
      map_find res.layer_buffer_action_to_set_map { name := "B", action := layer_action.forward }
        = some 0 := by
  obtain ⟨res, h1, h2, h3⟩ := C20_per_entry_set_sizes forced_group_of_two
    (by
      intro r hr
      have hl : (layer_buffer_set_list forced_group_of_two).flatten
          = [({ name := "A", action := layer_action.forward },
                buffer_lifetime.action_output_buffer),
             ({ name := "B", action := layer_action.forward },
                buffer_lifetime.action_output_buffer),
             ({ name := "A", action := layer_action.forward },
                buffer_lifetime.working_buffer)] := by decide
      rw [hl] at hr
      simp only [List.mem_cons, List.mem_singleton, List.not_mem_nil, or_false] at hr
      rcases hr with h | h | h <;> rw [h] <;> exact ⟨_, rfl⟩)
    (by decide)
  have h4 := (h3 0 (by decide)).1
    ({ name := "B", action := layer_action.forward }, buffer_lifetime.action_output_buffer)
    (by decide)
  exact ⟨res, h1, h2, h4.1, h4.2⟩

/-! ## The optimizer on the two paths -/

theorem applied_layers_flush_calls (layers : List String) (nrm : normalizer) (id : Nat) :
    applied_layers (flush_calls layers nrm id) = layers := by
  unfold applied_layers flush_calls
  induction layers with
  | nil => rfl
  | cons x xs ih =>
    rw [List.map_cons, List.filterMap_cons]
    simp only []
    rw [ih]

theorem applied_layers_action_calls (actions : List layer_name_with_action) (apply : Bool)
    (nrm : normalizer) (id : Nat) :
    applied_layers (action_calls actions apply nrm id)
      = if apply then update_weights_layers actions else [] := by
  unfold applied_layers action_calls update_weights_layers
  induction actions with
  | nil => cases apply <;> rfl
  | cons x xs ih =>
    obtain ⟨xn, xa⟩ := x
    rw [List.filterMap_cons]
    cases xa <;> cases apply <;> simpa using ih

/-- What the worker's pass over one command enqueues: nothing when the optimizer is not
applied; on a zero-count command (lines 509-536) one update for every key of
`update_accum_buffers`; on a non-empty command (lines 945-973) one update for each
`update_weights` action of the action list, in execution order. -/
theorem run_kernels_command_applied_layers
    (actions_in_execution_order : List layer_name_with_action)
    (update_accum_layers : List String) (batch_size base_iteration_count : Nat)
    (w : run_kernels_state) (n : Nat) :
    applied_layers (run_kernels_command actions_in_execution_order update_accum_layers
        batch_size base_iteration_count w n).2
      = if (accumulate batch_size w.gradient_accumulated_entry_count
            w.gradient_applied_count n).apply_gradient then
          (if n = 0 then update_accum_layers
           else update_weights_layers actions_in_execution_order)
        else [] := by
  unfold run_kernels_command
  by_cases hn : n = 0
  · simp only [if_pos hn]
    split
    · exact applied_layers_flush_calls _ _ _
    · rfl
  · simp only [if_neg hn]
    rw [applied_layers_action_calls]

/-- C22 fails on the code: with weights in the layers `a` and `b` and an `update_weights`
action for `a` only (`b` is left out of the data update), a full batch inside a non-empty
dispatch applies the update rule to `a` alone, whereas the end-of-batch flush of a partial
batch applies it to `a` and to `b`. In a run with batch size 2 over a reader of 3 entries the
optimizer is applied to `a` (full batch of 2 entries), then to `a` and `b` (flush of the
remaining entry). -/
theorem C22_flush_updates_other_layers :
    applied_layers (run_kernels_command
        [{ name := "a", action := layer_action.forward },
         { name := "b", action := layer_action.forward },
         { name := "a", action := layer_action.update_weights }]
        ["a", "b"] 2 0 run_kernels_state.init 2).2 = ["a"] ∧
    applied_layers (run_kernels_command
        [{ name := "a", action := layer_action.forward },
         { name := "b", action := layer_action.forward },
         { name := "a", action := layer_action.update_weights }]
        ["a", "b"] 2 0
        (run_kernels_command
          [{ name := "a", action := layer_action.forward },
           { name := "b", action := layer_action.forward },
           { name := "a", action := layer_action.update_weights }]
          ["a", "b"] 2 0 run_kernels_state.init 1).1 0).2 = ["a", "b"] ∧
    (actual_run
        { batch_size := 2, max_entry_count := 2
          momentum := training_momentum_type.no_momentum
          epoch_id := 0, output_layers_tiling_factor := 1
          actions_in_execution_order :=
            [{ name := "a", action := layer_action.forward },
             { name := "b", action := layer_action.forward },
             { name := "a", action := layer_action.update_weights }]
          update_accum_layers := ["a", "b"] }
        { read := fun id => read_result.entry_read (decide (id < 3))
          get_entry_count := 3 } 6).map (fun r => applied_layers r.1)
      = some ["a", "a", "b"] := by
  refine ⟨by decide, by decide, rfl⟩

/-! ## Read slots -/

theorem foldl_max_of_le : ∀ (l : List Nat) (a : Nat), (∀ x ∈ l, x ≤ a) → l.foldl max a = a := by
  intro l
  induction l with
  | nil => intro a _; rfl
  | cons x rest ih =>
    intro a h
    rw [List.foldl_cons, Nat.max_eq_left (h x (List.mem_cons_self _ _))]
    exact ih a (fun y hy => h y (List.mem_cons_of_mem _ hy))

/-- The chunk list is non-increasing. -/
theorem entry_read_count_list_pairwise (B M : Nat) (hM : 1 ≤ M) (h : B + M - 1 < 2 ^ 32) :
    (entry_read_count_list B M).Pairwise (fun x y => y ≤ x) := by
  by_cases hBM : B ≤ M
  · rw [entry_read_count_list_single B M hBM]
    exact List.pairwise_singleton _ _
  · rw [entry_read_count_list_split B M hM (by omega) h]
    rw [List.pairwise_append]
    refine ⟨?_, ?_, ?_⟩
    · rw [List.pairwise_replicate]
      right
      exact Nat.le_refl _
    · rw [List.pairwise_replicate]
      right
      exact Nat.le_refl _
    · intro x hx y hy
      rw [List.eq_of_mem_replicate hx, List.eq_of_mem_replicate hy]
      omega

theorem pairwise_getD_le_head : ∀ (l : List Nat), l.Pairwise (fun x y => y ≤ x) →
    ∀ j, j < l.length → l.getD j 0 ≤ l.getD 0 0 := by
  intro l hl j hj
  cases l with
  | nil => simp at hj
  | cons x rest =>
    cases j with
    | zero => exact Nat.le_refl _
    | succ k =>
      have hk : k < rest.length := by
        simp only [List.length_cons] at hj
        omega
      rw [List.getD_cons_succ, List.getD_cons_zero, List.getD_eq_getElem _ _ hk]
      exact (List.pairwise_cons.mp hl).1 _ (List.getElem_mem _)

theorem max_chunk_size_eq_head (B M : Nat) (hM : 1 ≤ M) (h : B + M - 1 < 2 ^ 32) :
    max_chunk_size B M = read_entry_info_list_size (entry_read_count_list B M) := by
  have hp := entry_read_count_list_pairwise B M hM h
  unfold max_chunk_size read_entry_info_list_size
  cases hl : entry_read_count_list B M with
  | nil => rfl
  | cons x rest =>
    rw [hl] at hp
    rw [List.foldl_cons, List.getD_cons_zero, Nat.zero_max]
    exact foldl_max_of_le rest x (List.pairwise_cons.mp hp).1

/-- Claim C25. For a batch size and a chunk bound of at least 1 (no unsigned wrap), the chunk
size list is non-increasing and its first element is `max_chunk_size`; the chunk index
stays below the length of the list under the cyclic advance of line 423; for every chunk
index below the length and every slot `i` below the chunk size at that index, `i` is below
the number of slots of `read_entry_info_list`, and the slot, which starts at its float
offset and takes one entry of `size` bytes, ends inside the host buffer of `max_chunk_size`
entries (for every per-entry size for which the buffer size does not wrap). -/
theorem C25_read_slots_in_range (B M : Nat) (hB : 1 ≤ B) (hM : 1 ≤ M)
    (h : B + M - 1 < 2 ^ 32) :
    (entry_read_count_list B M).Pairwise (fun x y => y ≤ x) ∧
    read_entry_info_list_size (entry_read_count_list B M) = max_chunk_size B M ∧
    0 < (entry_read_count_list B M).length ∧
    (∀ chunk_index, (uadd chunk_index 1) % (entry_read_count_list B M).length
      < (entry_read_count_list B M).length) ∧
    ∀ chunk_index, chunk_index < (entry_read_count_list B M).length →
      ∀ i, i < (entry_read_count_list B M).getD chunk_index 0 →
        i < read_entry_info_list_size (entry_read_count_list B M) ∧
        ∀ size, size * max_chunk_size B M < size_t_range →
          4 * slot_float_offset i size + size ≤ host_buffer_size size (max_chunk_size B M) := by
  have hp := entry_read_count_list_pairwise B M hM h
  have hmax := max_chunk_size_eq_head B M hM h
  have hlen : 0 < (entry_read_count_list B M).length := by
    by_cases hBM : B ≤ M
    · rw [entry_read_count_list_single B M hBM]
      exact Nat.zero_lt_one
    · have hcc := chunk_count_pos B M hB hM h
      have hpl := plus1_chunk_count_lt B M hB hM h
      rw [entry_read_count_list_split B M hM (by omega) h, List.length_append,
        List.length_replicate, List.length_replicate]
      omega
  refine ⟨hp, hmax.symm, hlen, fun c => Nat.mod_lt _ hlen, ?_⟩
  intro chunk_index hci i hi
  have hle := pairwise_getD_le_head _ hp chunk_index hci
  have hi2 : i < read_entry_info_list_size (entry_read_count_list B M) := by
    unfold read_entry_info_list_size
    omega
  refine ⟨hi2, ?_⟩
  intro size hsize
  rw [← hmax] at hi2
  unfold slot_float_offset host_buffer_size
  have h1 : i * (size / 4) ≤ i * size := Nat.mul_le_mul_left i (Nat.div_le_self size 4)
  have h2 : (i + 1) * size ≤ max_chunk_size B M * size := Nat.mul_le_mul_right size hi2
  have h3 : 4 * (i * (size / 4)) ≤ i * size := by
    have := Nat.mul_div_le size 4
    calc 4 * (i * (size / 4)) = i * (4 * (size / 4)) := by ring
      _ ≤ i * size := Nat.mul_le_mul_left i this
  have h4 : (i + 1) * size = i * size + size := by ring
  have h5 : max_chunk_size B M * size = size * max_chunk_size B M := Nat.mul_comm _ _
  rw [Nat.mod_eq_of_lt (by omega), Nat.mod_eq_of_lt hsize]
  omega

theorem C25_read_slots_in_range_witness :
    entry_read_count_list 5 2 = [2, 2, 1] ∧
    read_entry_info_list_size (entry_read_count_list 5 2) = max_chunk_size 5 2 ∧
    (∀ i, i < (entry_read_count_list 5 2).getD 2 0 →
      i < read_entry_info_list_size (entry_read_count_list 5 2)) := by
  obtain ⟨_, h2, _, _, h5⟩ := C25_read_slots_in_range 5 2 (by decide) (by decide) (by decide)
  exact ⟨by decide, h2, fun i hi => (h5 2 (by decide) i hi).1⟩

/-! ## Double buffering: auxiliary facts -/

theorem usub_one (r : Nat) (h : r ≤ 1) : usub 1 r = 1 - r := by
  interval_cases r <;> rfl

theorem io_set_uses_append (a b : List event) :
    io_set_uses (a ++ b) = io_set_uses a ++ io_set_uses b := by
  unfold io_set_uses
  exact List.filterMap_append _ _ _

theorem io_set_uses_map_read (ids : List Nat) : io_set_uses (ids.map event.read) = [] := by
  unfold io_set_uses
  induction ids with
  | nil => rfl
  | cons x xs ih => simp

theorem io_set_uses_map_write (ids : List Nat) : io_set_uses (ids.map event.write) = [] := by
  unfold io_set_uses
  induction ids with
  | nil => rfl
  | cons x xs ih => simp

theorem io_set_uses_run_kernels_command (actions : List layer_name_with_action)
    (layers : List String) (B base : Nat) (w : run_kernels_state) (n : Nat) :
    io_set_uses (run_kernels_command actions layers B base w n).2 = [] := by
  have hflush : ∀ nrm id, io_set_uses (flush_calls layers nrm id) = [] := by
    intro nrm id
    unfold io_set_uses flush_calls
    induction layers with
    | nil => rfl
    | cons x xs ih => simp
  have hact : ∀ apply nrm id, io_set_uses (action_calls actions apply nrm id) = [] := by
    intro apply nrm id
    unfold io_set_uses action_calls
    induction actions with
    | nil => rfl
    | cons x xs ih =>
      obtain ⟨xn, xa⟩ := x
      rw [List.filterMap_cons]
      cases xa <;> cases apply <;> simpa using ih
  unfold run_kernels_command
  by_cases hn : n = 0
  · simp only [if_pos hn]
    split
    · exact hflush _ _
    · rfl
  · simp only [if_neg hn]
    exact hact _ _ _

/-- The command of an iteration, as a use of the I/O sets, and the worker's message. -/
theorem set_command_uses (cfg : run_config) (base : Nat) (s : control_state) :
    io_set_uses (set_command cfg base s).events
      = (if s.initial_iteration = false ∧ s.run_kernels_thread_stopped = false then
          [io_set_use.compute s.run_kernels_thread_io_set s.entry_to_process_count]
        else []) ∧
    (set_command cfg base s).worker.error_message = s.worker.error_message := by
  by_cases h : s.initial_iteration = false ∧ s.run_kernels_thread_stopped = false
  · rw [if_pos h, set_command_dispatch cfg base s h.1 h.2]
    refine ⟨?_, (run_kernels_command_io _ _ _ _ _ _).1⟩
    show io_set_uses (event.command _ _ :: _) = _
    show io_set_use.compute _ _ :: io_set_uses _ = _
    rw [io_set_uses_run_kernels_command]
  · rw [if_neg h]
    have : set_command cfg base s
        = { worker := s.worker, events := []
            run_kernels_thread_stopped := s.run_kernels_thread_stopped
            wait_for_kernels_to_finish := false } := by
      unfold set_command
      rw [if_neg]
      intro hc
      apply h
      cases h1 : s.initial_iteration <;> cases h2 : s.run_kernels_thread_stopped <;>
        simp [h1, h2] at hc ⊢
    rw [this]
    exact ⟨rfl, rfl⟩

/-- The iteration in which a read task fails with a message. -/
theorem actual_run_iteration_read_failure (cfg : run_config) (chunks : List Nat) (base : Nat)
    (reader : structured_data_bunch_reader) (s : control_state)
    (hrd : (read_input_data chunks reader s).2 = none) :
    actual_run_iteration cfg chunks base reader s
      = ({ s with
            worker := (set_command cfg base s).worker
            run_kernels_thread_stopped := (set_command cfg base s).run_kernels_thread_stopped
            trace := s.trace ++ (set_command cfg base s).events
              ++ (if 0 < s.entry_to_write_count then
                    [event.copy_device_to_host (usub 1 s.run_kernels_thread_io_set)
                      s.entry_to_write_count]
                  else [])
              ++ (read_input_data chunks reader s).1.map event.read },
         loop_control.throw
           (run_exception.message (set_command cfg base s).worker.error_message)) := by
  unfold actual_run_iteration
  simp only [hrd]

theorem io_set_uses_ite_copy_out (p : Prop) [Decidable p] (k n : Nat) :
    io_set_uses (if p then [event.copy_device_to_host k n] else [])
      = if p then [io_set_use.copy_out k n] else [] := by
  split <;> rfl

theorem io_set_uses_ite_copy_in (p : Prop) [Decidable p] (k n : Nat) :
    io_set_uses (if p then [event.copy_host_to_device k n] else [])
      = if p then [io_set_use.copy_in k n] else [] := by
  split <;> rfl

theorem io_set_uses_ite_write (p : Prop) [Decidable p] (ids : List Nat) :
    io_set_uses (if p then ids.map event.write else []) = [] := by
  split
  · exact io_set_uses_map_write ids
  · rfl

/-- The uses of the I/O sets in one iteration: the command (past the first iteration, worker
running) on `run_kernels_thread_io_set`, the copy of the outputs to write and the copy of
the inputs read, both on `copy_data_thread_io_set`. -/
theorem iteration_uses (cfg : run_config) (chunks : List Nat) (base : Nat)
    (reader : structured_data_bunch_reader) (s : control_state)
    (herr : s.worker.error_message = "") :
    io_set_uses (iteration_events cfg chunks base reader s)
      = (if s.initial_iteration = false ∧ s.run_kernels_thread_stopped = false then
            [io_set_use.compute s.run_kernels_thread_io_set s.entry_to_process_count]
          else [])
        ++ (if 0 < s.entry_to_write_count then
              [io_set_use.copy_out (usub 1 s.run_kernels_thread_io_set) s.entry_to_write_count]
            else [])
        ++ (match (read_input_data chunks reader s).2 with
            | some (entry_read_count, _) =>
                if 0 < entry_read_count then
                  [io_set_use.copy_in (usub 1 s.run_kernels_thread_io_set) entry_read_count]
                else []
            | none => []) := by
  obtain ⟨c1, c2⟩ := set_command_uses cfg base s
  unfold iteration_events
  cases hrd : (read_input_data chunks reader s).2 with
  | none =>
    rw [actual_run_iteration_read_failure cfg chunks base reader s hrd]
    simp only [List.append_assoc, List.drop_left, io_set_uses_append, c1,
      io_set_uses_ite_copy_out, io_set_uses_map_read, List.append_nil]
  | some p =>
    obtain ⟨erc, enc⟩ := p
    rw [actual_run_iteration_ok cfg chunks base reader s erc enc hrd (by rw [c2]; exact herr)]
    simp only [List.append_assoc, List.drop_left, io_set_uses_append, c1,
      io_set_uses_ite_copy_out, io_set_uses_ite_copy_in, io_set_uses_ite_write,
      io_set_uses_map_read, List.append_nil, List.nil_append]

theorem wait_for_reads_true : ∀ (l : List read_result) (c c1 : Nat) (e1 : Bool),
    wait_for_reads l c true = some (c1, e1) → c1 = c ∧ e1 = true := by
  intro l
  induction l with
  | nil =>
    intro c c1 e1 h
    simp only [wait_for_reads, Option.some.injEq, Prod.mk.injEq] at h
    exact ⟨h.1.symm, h.2.symm⟩
  | cons x rest ih =>
    intro c c1 e1 h
    cases x with
    | failure m =>
      simp only [wait_for_reads] at h
      split at h
      · exact Option.noConfusion h
      · exact ih c c1 e1 h
    | entry_read flag =>
      simp only [wait_for_reads, Bool.not_true, Bool.false_eq_true, if_false] at h
      exact ih c c1 e1 h

theorem wait_for_reads_mono : ∀ (l : List read_result) (c : Nat) (e : Bool) (c1 : Nat)
    (e1 : Bool), c + l.length < 2 ^ 32 →
    wait_for_reads l c e = some (c1, e1) → c ≤ c1 := by
  intro l
  induction l with
  | nil =>
    intro c e c1 e1 _ h
    simp only [wait_for_reads, Option.some.injEq, Prod.mk.injEq] at h
    omega
  | cons x rest ih =>
    intro c e c1 e1 hlen h
    simp only [List.length_cons] at hlen
    cases x with
    | failure m =>
      simp only [wait_for_reads] at h
      split at h
      · exact Option.noConfusion h
      · exact ih c true c1 e1 (by omega) h
    | entry_read flag =>
      cases e with
      | true =>
        simp only [wait_for_reads, Bool.not_true, Bool.false_eq_true, if_false] at h
        exact ih c true c1 e1 (by omega) h
      | false =>
        cases flag with
        | true =>
          simp only [wait_for_reads, Bool.not_false, if_true] at h
          rw [uadd_eq c 1 (by omega)] at h
          have := ih (c + 1) false c1 e1 (by omega) h
          omega
        | false =>
          simp only [wait_for_reads, Bool.not_false, if_true, Bool.false_eq_true,
            if_false] at h
          exact ih c true c1 e1 (by omega) h

/-- A chunk of at least one slot in which no entry is read ends the data. -/
theorem wait_for_reads_none_read (l : List read_result) (e1 : Bool) (hne : l ≠ [])
    (hlen : l.length < 2 ^ 32) (h : wait_for_reads l 0 false = some (0, e1)) : e1 = true := by
  cases l with
  | nil => exact absurd rfl hne
  | cons x rest =>
    simp only [List.length_cons] at hlen
    cases x with
    | failure m =>
      simp only [wait_for_reads] at h
      split at h
      · exact Option.noConfusion h
      · exact (wait_for_reads_true rest 0 0 e1 h).2
    | entry_read flag =>
      cases flag with
      | true =>
        simp only [wait_for_reads, Bool.not_false, if_true] at h
        rw [uadd_eq 0 1 (by omega)] at h
        have := wait_for_reads_mono rest (0 + 1) false 0 e1 (by omega) h
        omega
      | false =>
        simp only [wait_for_reads, Bool.not_false, if_true, Bool.false_eq_true,
          if_false] at h
        exact (wait_for_reads_true rest 0 0 e1 h).2


theorem loop_sets_init (L : List Nat) (hne : L ≠ []) : loop_sets L control_state.init where
  io_set_le := Nat.zero_le _
  not_stopped := rfl
  no_error := rfl
  index_lt := List.length_pos.mpr hne
  drained := fun h => Bool.noConfusion h

/-- What the control thread finds after the read tasks of a state at the loop head: nothing
is read only when the end of the data has been met. -/
theorem read_input_data_none_read (L : List Nat) (reader : structured_data_bunch_reader)
    (s : control_state) (hL : ∀ x ∈ L, 1 ≤ x ∧ x < 2 ^ 32) (hidx : s.chunk_index < L.length)
    (enc : Bool) (h : (read_input_data L reader s).2 = some (0, enc)) : enc = true := by
  unfold read_input_data at h
  by_cases he : s.entry_not_read_encountered = true
  · rw [if_pos he] at h
    simp only [Option.some.injEq, Prod.mk.injEq, true_and] at h
    exact h.symm
  · rw [if_neg he] at h
    simp only [] at h
    have hk := hL _ (getD_mem L _ hidx)
    have hlen : ((posted_entry_ids s.base_entry_to_read_id (L.getD s.chunk_index 0)).map
        reader.read).length = L.getD s.chunk_index 0 := by
      unfold posted_entry_ids
      simp
    apply wait_for_reads_none_read _ enc _ (by rw [hlen]; exact hk.2) h
    intro hnil
    rw [hnil] at hlen
    simp only [List.length_nil] at hlen
    omega

/-- An iteration that ends with `next` keeps the condition of the loop head. -/
theorem loop_sets_next (cfg : run_config) (L : List Nat) (base : Nat)
    (reader : structured_data_bunch_reader) (s s1 : control_state)
    (hL : ∀ x ∈ L, 1 ≤ x ∧ x < 2 ^ 32) (inv : loop_sets L s)
    (h : actual_run_iteration cfg L base reader s = (s1, loop_control.next)) :
    loop_sets L s1 ∧
    s1.run_kernels_thread_io_set = 1 - s.run_kernels_thread_io_set ∧
    s1.initial_iteration = false ∧
    s1.entry_to_write_count = s.entry_to_process_count ∧
    ∃ enc, (read_input_data L reader s).2 = some (s1.entry_to_process_count, enc) := by
  obtain ⟨c1, c2⟩ := set_command_uses cfg base s
  cases hrd : (read_input_data L reader s).2 with
  | none =>
    rw [actual_run_iteration_read_failure cfg L base reader s hrd] at h
    exact loop_control.noConfusion (Prod.mk.inj h).2
  | some p =>
    obtain ⟨erc, enc⟩ := p
    rw [actual_run_iteration_ok cfg L base reader s erc enc hrd
      (by rw [c2]; exact inv.no_error)] at h
    obtain ⟨h1, h2⟩ := Prod.mk.inj h
    have hnext : ¬ (erc = 0 ∧ (set_command cfg base s).wait_for_kernels_to_finish = false) := by
      intro hc
      rw [if_pos hc] at h2
      exact loop_control.noConfusion h2
    have hstop : (set_command cfg base s).run_kernels_thread_stopped = false := by
      by_cases hi : s.initial_iteration = false
      · obtain ⟨_, _, _, _, k5, k6⟩ := set_command_io cfg base s hi inv.not_stopped
        by_cases hz : s.entry_to_process_count = 0
        · exfalso
          have henc := inv.drained hi hz
          have : (read_input_data L reader s).2 = some (0, true) := by
            unfold read_input_data
            rw [if_pos henc]
          rw [hrd] at this
          simp only [Option.some.injEq, Prod.mk.injEq] at this
          apply hnext
          refine ⟨this.1, ?_⟩
          rw [k6, decide_eq_true hz]
          rfl
        · rw [k5, decide_eq_false hz]
      · have hi2 : s.initial_iteration = true := by
          cases hv : s.initial_iteration
          · exact absurd hv hi
          · rfl
        unfold set_command
        rw [hi2]
        exact inv.not_stopped
    have hlen : 0 < L.length := Nat.lt_of_le_of_lt (Nat.zero_le _) inv.index_lt
    rw [← h1]
    refine ⟨?_, usub_one _ inv.io_set_le, rfl, rfl, enc, rfl⟩
    constructor
    · show usub 1 s.run_kernels_thread_io_set ≤ 1
      rw [usub_one _ inv.io_set_le]
      omega
    · exact hstop
    · show (set_command cfg base s).worker.error_message = ""
      rw [c2]
      exact inv.no_error
    · exact Nat.mod_lt _ hlen
    · intro _ hz
      have hz2 : erc = 0 := hz
      rw [hz2] at hrd
      exact read_input_data_none_read L reader s hL inv.index_lt enc hrd

theorem loop_state_at_succ (cfg : run_config) (L : List Nat) (base : Nat)
    (reader : structured_data_bunch_reader) :
    ∀ (i : Nat) (s0 s s1 : control_state),
      loop_state_at cfg L base reader i s0 = some s →
      actual_run_iteration cfg L base reader s = (s1, loop_control.next) →
      loop_state_at cfg L base reader (i + 1) s0 = some s1 := by
  intro i
  induction i with
  | zero =>
    intro s0 s s1 h0 h1
    simp only [loop_state_at, Option.some.injEq] at h0
    rw [loop_state_at, h0, h1]
    rfl
  | succ k ih =>
    intro s0 s s1 h0 h1
    rw [loop_state_at] at h0 ⊢
    split at h0
    · rename_i s0n hq
      exact ih s0n s s1 h0 h1
    · exact Option.noConfusion h0

theorem loop_sets_at (cfg : run_config) (L : List Nat) (base : Nat)
    (reader : structured_data_bunch_reader) (hL : ∀ x ∈ L, 1 ≤ x ∧ x < 2 ^ 32) :
    ∀ (i : Nat) (s0 s : control_state), loop_sets L s0 →
      loop_state_at cfg L base reader i s0 = some s → loop_sets L s := by
  intro i
  induction i with
  | zero =>
    intro s0 s inv h
    simp only [loop_state_at, Option.some.injEq] at h
    rw [← h]
    exact inv
  | succ k ih =>
    intro s0 s inv h
    rw [loop_state_at] at h
    split at h
    · rename_i s0n hq
      exact ih s0n s (loop_sets_next cfg L base reader s0 s0n hL inv hq).1 h
    · exact Option.noConfusion h


/-! ## Double buffering: the claim -/

/-- Claim C24. For every chunk list with chunks of at least one entry and every reader, at
the head `s` of every iteration `i` the control loop reaches: the worker's set index
`run_kernels_thread_io_set` and the copy index `copy_data_thread_io_set` are in {0, 1} and
complementary; in the iteration the command is given on the worker's index and both copies
use the copy index; and when `n` entries are copied host-to-device into set `c` in
iteration `i`, iteration `i + 1` takes place, its worker index is `c` and its command
processes `n` entries on set `c`, and either iteration `i + 1` ends with an exception or
iteration `i + 2` takes place and copies the outputs of `n` entries device-to-host from
set `c`. -/
theorem C24_double_buffering (cfg : run_config) (L : List Nat) (base : Nat)
    (reader : structured_data_bunch_reader) (hne : L ≠ [])
    (hL : ∀ x ∈ L, 1 ≤ x ∧ x < 2 ^ 32) (i : Nat) (s : control_state)
    (hs : loop_state_at cfg L base reader i control_state.init = some s) :
    s.run_kernels_thread_io_set ≤ 1 ∧
    usub 1 s.run_kernels_thread_io_set = 1 - s.run_kernels_thread_io_set ∧
    (∀ u ∈ io_set_uses (iteration_events cfg L base reader s),
      match u with
      | io_set_use.compute io_set _ => io_set = s.run_kernels_thread_io_set
      | io_set_use.copy_in io_set _ => io_set = 1 - s.run_kernels_thread_io_set
      | io_set_use.copy_out io_set _ => io_set = 1 - s.run_kernels_thread_io_set) ∧
    ∀ c n, io_set_use.copy_in c n ∈ io_set_uses (iteration_events cfg L base reader s) →
      ∃ s1, loop_state_at cfg L base reader (i + 1) control_state.init = some s1 ∧
        s1.run_kernels_thread_io_set = c ∧
        io_set_use.compute c n ∈ io_set_uses (iteration_events cfg L base reader s1) ∧
        ((∃ e, (actual_run_iteration cfg L base reader s1).2 = loop_control.throw e) ∨
          ∃ s2, loop_state_at cfg L base reader (i + 2) control_state.init = some s2 ∧
            io_set_use.copy_out c n
              ∈ io_set_uses (iteration_events cfg L base reader s2)) := by
  have inv := loop_sets_at cfg L base reader hL i control_state.init s (loop_sets_init L hne) hs
  have hu := usub_one _ inv.io_set_le
  have huses := iteration_uses cfg L base reader s inv.no_error
  refine ⟨inv.io_set_le, hu, ?_, ?_⟩
  · intro u hmem
    rw [huses, hu] at hmem
    rcases List.mem_append.mp hmem with h12 | h3
    · rcases List.mem_append.mp h12 with h1 | h2
      · split at h1
        · rw [List.mem_singleton.mp h1]
        · simp at h1
      · split at h2
        · rw [List.mem_singleton.mp h2]
        · simp at h2
    · split at h3
      · split at h3
        · rw [List.mem_singleton.mp h3]
        · simp at h3
      · simp at h3
  · intro c n hmem
    rw [huses, hu] at hmem
    have hrd : ∃ enc, (read_input_data L reader s).2 = some (n, enc) ∧ 0 < n ∧
        c = 1 - s.run_kernels_thread_io_set := by
      rcases List.mem_append.mp hmem with h12 | h3
      · rcases List.mem_append.mp h12 with h1 | h2
        · split at h1
          · exact io_set_use.noConfusion (List.mem_singleton.mp h1)
          · simp at h1
        · split at h2
          · exact io_set_use.noConfusion (List.mem_singleton.mp h2)
          · simp at h2
      · split at h3
        · rename_i erc enc hq
          split at h3
          · rename_i hpos
            have := List.mem_singleton.mp h3
            simp only [io_set_use.copy_in.injEq] at this
            refine ⟨enc, ?_, ?_, this.1⟩
            · rw [hq, this.2]
            · rw [this.2]
              exact hpos
          · simp at h3
        · simp at h3
    obtain ⟨enc, hrd, hn, hc⟩ := hrd
    obtain ⟨c1, c2⟩ := set_command_uses cfg base s
    have hit := actual_run_iteration_ok cfg L base reader s n enc hrd
      (by rw [c2]; exact inv.no_error)
    have hnext : actual_run_iteration cfg L base reader s
        = ((actual_run_iteration cfg L base reader s).1, loop_control.next) := by
      apply pair_eq_of_snd
      rw [hit]
      simp only []
      rw [if_neg]
      intro hcon
      omega
    obtain ⟨inv1, j1, j2, _, _, j5⟩ := loop_sets_next cfg L base reader s _ hL inv hnext
    have hp1 : (actual_run_iteration cfg L base reader s).1.entry_to_process_count = n := by
      rw [hit]
    have hs1 := loop_state_at_succ cfg L base reader i control_state.init s _ hs hnext
    have huses1 := iteration_uses cfg L base reader _ inv1.no_error
    refine ⟨_, hs1, by rw [j1, hc], ?_, ?_⟩
    · rw [huses1, if_pos ⟨j2, inv1.not_stopped⟩, j1, hp1, ← hc]
      simp
    · obtain ⟨d1, d2⟩ := set_command_uses cfg base (actual_run_iteration cfg L base reader s).1
      obtain ⟨_, _, _, _, _, k6⟩ := set_command_io cfg base
        (actual_run_iteration cfg L base reader s).1 j2 inv1.not_stopped
      rw [hp1, decide_eq_false (by omega)] at k6
      cases hrd1 : (read_input_data L reader (actual_run_iteration cfg L base reader s).1).2 with
      | none =>
        left
        rw [actual_run_iteration_read_failure cfg L base reader _ hrd1]
        exact ⟨_, rfl⟩
      | some p =>
        obtain ⟨erc1, enc1⟩ := p
        right
        have hit1 := actual_run_iteration_ok cfg L base reader
          (actual_run_iteration cfg L base reader s).1 erc1 enc1 hrd1
          (by rw [d2]; exact inv1.no_error)
        have hnext1 : actual_run_iteration cfg L base reader
            (actual_run_iteration cfg L base reader s).1
            = ((actual_run_iteration cfg L base reader
                (actual_run_iteration cfg L base reader s).1).1, loop_control.next) := by
          apply pair_eq_of_snd
          rw [hit1]
          simp only []
          rw [if_neg]
          intro hcon
          rw [k6] at hcon
          exact Bool.noConfusion hcon.2
        obtain ⟨inv2, m1, _, m3, _⟩ := loop_sets_next cfg L base reader _ _ hL inv1 hnext1
        have hs2 := loop_state_at_succ cfg L base reader (i + 1) control_state.init _ _ hs1 hnext1
        have huses2 := iteration_uses cfg L base reader _ inv2.no_error
        refine ⟨_, hs2, ?_⟩
        have hio2 : usub 1 (actual_run_iteration cfg L base reader
            (actual_run_iteration cfg L base reader s).1).1.run_kernels_thread_io_set = c := by
          rw [usub_one _ inv2.io_set_le, m1, j1, hc]
          have := inv.io_set_le
          omega
        rw [huses2, hio2, m3, hp1, if_pos hn]
        simp

theorem C24_double_buffering_witness :
    ∃ s1, loop_state_at four_entry_run [2, 2] 0 four_entry_reader 1 control_state.init
        = some s1 ∧
      s1.run_kernels_thread_io_set = 1 ∧
      io_set_use.compute 1 2
        ∈ io_set_uses (iteration_events four_entry_run [2, 2] 0 four_entry_reader s1) ∧
      ((∃ e, (actual_run_iteration four_entry_run [2, 2] 0 four_entry_reader s1).2
          = loop_control.throw e) ∨
        ∃ s2, loop_state_at four_entry_run [2, 2] 0 four_entry_reader 2 control_state.init
            = some s2 ∧
          io_set_use.copy_out 1 2
            ∈ io_set_uses (iteration_events four_entry_run [2, 2] 0 four_entry_reader s2)) :=
  (C24_double_buffering four_entry_run [2, 2] 0 four_entry_reader (by decide) (by decide) 0
    control_state.init rfl).2.2.2 1 2 (by decide)

/-! ## The untile layer: auxiliary facts -/

theorem list_ext_getD (l1 l2 : List Nat) (hlen : l1.length = l2.length)
    (h : ∀ j, j < l1.length → l1.getD j 0 = l2.getD j 0) : l1 = l2 := by
  apply List.ext_getElem hlen
  intro j h1 h2
  have := h j h1
  rw [List.getD_eq_getElem _ _ h1, List.getD_eq_getElem _ _ h2] at this
  exact this

/-- What `check()` establishes for level vectors of fewer than 2^32 elements. -/
theorem check_ok (upsampling_sizes_list : List (List Nat))
    (hsmall : ∀ l ∈ upsampling_sizes_list, l.length < 2 ^ 32)
    (hcheck : untile_layer.check upsampling_sizes_list = Except.ok ()) :
    upsampling_sizes_list ≠ [] ∧ (upsampling_sizes_list.headD []).length ≠ 0 ∧
    ∀ l ∈ upsampling_sizes_list, l.length = (upsampling_sizes_list.headD []).length := by
  cases upsampling_sizes_list with
  | nil => exact Except.noConfusion hcheck
  | cons front rest =>
    have hf := hsmall front (List.mem_cons_self _ _)
    unfold untile_layer.check at hcheck
    simp only [uint_range, Nat.mod_eq_of_lt hf] at hcheck
    split at hcheck
    · exact Except.noConfusion hcheck
    · rename_i h0
      split at hcheck
      · rename_i hall
        refine ⟨List.cons_ne_nil _ _, h0, ?_⟩
        intro l hl
        rcases List.mem_cons.mp hl with h | h
        · rw [h]
          rfl
        · have := List.all_eq_true.mp hall l h
          simp only [decide_eq_true_eq] at this
          rw [Nat.mod_eq_of_lt (hsmall l (List.mem_cons_of_mem _ h))] at this
          exact this.symm
      · exact Except.noConfusion hcheck

theorem multiply_dimension_sizes_length : ∀ (ds us : List Nat),
    (multiply_dimension_sizes ds us).length = ds.length := by
  intro ds
  induction ds with
  | nil =>
    intro us
    cases us <;> rfl
  | cons d rest ih =>
    intro us
    cases us with
    | nil => rfl
    | cons u urest =>
      simp only [multiply_dimension_sizes, List.length_cons, ih urest]

theorem multiply_dimension_sizes_getD : ∀ (ds us : List Nat) (j : Nat),
    j < ds.length → j < us.length →
    (multiply_dimension_sizes ds us).getD j 0 = umul (ds.getD j 0) (us.getD j 1) := by
  intro ds
  induction ds with
  | nil =>
    intro us j hj _
    simp at hj
  | cons d rest ih =>
    intro us j hj hu
    cases us with
    | nil => simp at hu
    | cons u urest =>
      cases j with
      | zero => rfl
      | succ k =>
        simp only [List.length_cons] at hj hu
        simp only [multiply_dimension_sizes, List.getD_cons_succ]
        exact ih urest k (by omega) (by omega)

theorem upsampling_product_cons (us : List Nat) (rest : List (List Nat)) (j : Nat) :
    upsampling_product (us :: rest) j = us.getD j 1 * upsampling_product rest j := by
  unfold upsampling_product
  rw [List.map_cons, List.prod_cons]

theorem upsampling_product_pos (levels : List (List Nat))
    (hpos : ∀ l ∈ levels, ∀ u ∈ l, 1 ≤ u) (j : Nat) : 1 ≤ upsampling_product levels j := by
  induction levels with
  | nil => exact Nat.le_refl _
  | cons us rest ih =>
    rw [upsampling_product_cons]
    have h1 : 1 ≤ us.getD j 1 := by
      by_cases hj : j < us.length
      · rw [List.getD_eq_getElem _ _ hj]
        exact hpos us (List.mem_cons_self _ _) _ (List.getElem_mem _)
      · rw [List.getD_eq_default _ _ (by omega)]
    have h2 := ih (fun l hl => hpos l (List.mem_cons_of_mem _ hl))
    exact Nat.mul_pos h1 h2

/-- The dimension sizes after all levels of the output computation, without overflow. -/
theorem multiply_levels_spec (n : Nat) :
    ∀ (levels : List (List Nat)) (ds : List Nat),
      (∀ l ∈ levels, l.length = n) → (∀ l ∈ levels, ∀ u ∈ l, 1 ≤ u) → ds.length = n →
      (∀ j, j < n → ds.getD j 0 * upsampling_product levels j < 2 ^ 32) →
      (levels.foldl multiply_dimension_sizes ds).length = n ∧
      ∀ j, j < n → (levels.foldl multiply_dimension_sizes ds).getD j 0
        = ds.getD j 0 * upsampling_product levels j := by
  intro levels
  induction levels with
  | nil =>
    intro ds _ _ hlen _
    refine ⟨hlen, ?_⟩
    intro j _
    simp [upsampling_product]
  | cons us rest ih =>
    intro ds hlens hpos hlen hov
    have hus : us.length = n := hlens us (List.mem_cons_self _ _)
    have hm : ∀ j, j < n → (multiply_dimension_sizes ds us).getD j 0
        = ds.getD j 0 * us.getD j 1 := by
      intro j hj
      rw [multiply_dimension_sizes_getD ds us j (by omega) (by omega)]
      unfold umul uint_range
      apply Nat.mod_eq_of_lt
      have h1 := hov j hj
      rw [upsampling_product_cons] at h1
      have h2 := upsampling_product_pos rest
        (fun l hl => hpos l (List.mem_cons_of_mem _ hl)) j
      calc ds.getD j 0 * us.getD j 1
          = ds.getD j 0 * us.getD j 1 * 1 := (Nat.mul_one _).symm
        _ ≤ ds.getD j 0 * us.getD j 1 * upsampling_product rest j :=
            Nat.mul_le_mul_left _ h2
        _ = ds.getD j 0 * (us.getD j 1 * upsampling_product rest j) := Nat.mul_assoc _ _ _
        _ < 2 ^ 32 := h1
    obtain ⟨i1, i2⟩ := ih (multiply_dimension_sizes ds us)
      (fun l hl => hlens l (List.mem_cons_of_mem _ hl))
      (fun l hl => hpos l (List.mem_cons_of_mem _ hl))
      (by rw [multiply_dimension_sizes_length, hlen])
      (by
        intro j hj
        rw [hm j hj, Nat.mul_assoc, ← upsampling_product_cons]
        exact hov j hj)
    rw [List.foldl_cons]
    refine ⟨i1, ?_⟩
    intro j hj
    rw [i2 j hj, hm j hj, Nat.mul_assoc, ← upsampling_product_cons]

/-- One level of the input computation, for sizes of at least 1: it succeeds exactly when
every dimension is divisible by the size of the level, with the quotients as result. -/
theorem divide_dimension_sizes_spec : ∀ (ds us : List Nat),
    ds.length = us.length → (∀ u ∈ us, 1 ≤ u) →
    ((∀ j, j < ds.length → us.getD j 1 ∣ ds.getD j 0) →
      ∃ r, divide_dimension_sizes ds us = Except.ok r ∧ r.length = ds.length ∧
        ∀ j, j < ds.length → r.getD j 0 = ds.getD j 0 / us.getD j 1) ∧
    ((¬ ∀ j, j < ds.length → us.getD j 1 ∣ ds.getD j 0) →
      divide_dimension_sizes ds us = Except.error untile_exception.cannot_evenly_divide) := by
  intro ds
  induction ds with
  | nil =>
    intro us hlen _
    cases us with
    | nil =>
      refine ⟨fun _ => ⟨[], rfl, rfl, fun j hj => absurd hj (Nat.not_lt_zero j)⟩, ?_⟩
      intro h
      exfalso
      apply h
      intro j hj
      exact absurd hj (Nat.not_lt_zero j)
    | cons u urest => simp at hlen
  | cons d rest ih =>
    intro us hlen hpos
    cases us with
    | nil => simp at hlen
    | cons u urest =>
      simp only [List.length_cons, Nat.add_right_cancel_iff] at hlen
      have hu : 1 ≤ u := hpos u (List.mem_cons_self _ _)
      have hu0 : ¬ u = 0 := by omega
      obtain ⟨ih1, ih2⟩ := ih urest hlen (fun x hx => hpos x (List.mem_cons_of_mem _ hx))
      constructor
      · intro hall
        have h0 : u ∣ d := hall 0 (by simp)
        have hrest : ∀ j, j < rest.length → urest.getD j 1 ∣ rest.getD j 0 := by
          intro j hj
          have := hall (j + 1) (by simp only [List.length_cons]; omega)
          simpa using this
        obtain ⟨r, r1, r2, r3⟩ := ih1 hrest
        refine ⟨d / u :: r, ?_, ?_, ?_⟩
        · rw [divide_dimension_sizes, if_neg hu0, if_pos (Nat.mod_eq_zero_of_dvd h0), r1]
        · simp only [List.length_cons, r2]
        · intro j hj
          cases j with
          | zero => rfl
          | succ k =>
            simp only [List.length_cons] at hj
            simp only [List.getD_cons_succ]
            exact r3 k (by omega)
      · intro hnot
        rw [divide_dimension_sizes, if_neg hu0]
        by_cases h0 : d % u = 0
        · rw [if_pos h0]
          have hrest : ¬ ∀ j, j < rest.length → urest.getD j 1 ∣ rest.getD j 0 := by
            intro hc
            apply hnot
            intro j hj
            cases j with
            | zero => exact Nat.dvd_of_mod_eq_zero h0
            | succ k =>
              simp only [List.length_cons] at hj
              simp only [List.getD_cons_succ]
              exact hc k (by omega)
          rw [ih2 hrest]
        · rw [if_neg h0]

theorem mul_dvd_iff_dvd_div (a b d : Nat) (ha : 1 ≤ a) :
    a * b ∣ d ↔ a ∣ d ∧ b ∣ d / a := by
  constructor
  · rintro ⟨k, hk⟩
    refine ⟨⟨b * k, by rw [hk, Nat.mul_assoc]⟩, ⟨k, ?_⟩⟩
    rw [hk, Nat.mul_assoc, Nat.mul_div_cancel_left _ (by omega)]
  · rintro ⟨⟨m, hm⟩, ⟨k, hk⟩⟩
    rw [hm, Nat.mul_div_cancel_left _ (by omega)] at hk
    exact ⟨k, by rw [hm, hk, Nat.mul_assoc]⟩

/-- All levels of the input computation, for sizes of at least 1: they succeed exactly
when every dimension is divisible by the product of the sizes over the levels, with the
quotients as result; otherwise the 'cannot evenly divide' exception is thrown. -/
theorem divide_levels_spec (n : Nat) :
    ∀ (levels : List (List Nat)) (ds : List Nat),
      (∀ l ∈ levels, l.length = n) → (∀ l ∈ levels, ∀ u ∈ l, 1 ≤ u) → ds.length = n →
      ((∀ j, j < n → upsampling_product levels j ∣ ds.getD j 0) →
        ∃ r, divide_levels levels ds = Except.ok r ∧ r.length = n ∧
          ∀ j, j < n → r.getD j 0 = ds.getD j 0 / upsampling_product levels j) ∧
      ((¬ ∀ j, j < n → upsampling_product levels j ∣ ds.getD j 0) →
        divide_levels levels ds = Except.error untile_exception.cannot_evenly_divide) := by
  intro levels
  induction levels with
  | nil =>
    intro ds _ _ hlen
    constructor
    · intro _
      refine ⟨ds, rfl, hlen, ?_⟩
      intro j _
      simp [upsampling_product]
    · intro hnot
      exfalso
      apply hnot
      intro j _
      simp [upsampling_product]
  | cons us rest ih =>
    intro ds hlens hpos hlen
    have hus : us.length = n := hlens us (List.mem_cons_self _ _)
    have hposu : ∀ u ∈ us, 1 ≤ u := hpos us (List.mem_cons_self _ _)
    have hu1 : ∀ j, j < n → 1 ≤ us.getD j 1 := by
      intro j hj
      rw [List.getD_eq_getElem _ _ (by omega)]
      exact hposu _ (List.getElem_mem _)
    obtain ⟨l1, l2⟩ := divide_dimension_sizes_spec ds us (by rw [hlen, hus]) hposu
    rw [hlen] at l1 l2
    constructor
    · intro hall
      have hsplit : ∀ j, j < n → us.getD j 1 ∣ ds.getD j 0 ∧
          upsampling_product rest j ∣ ds.getD j 0 / us.getD j 1 := by
        intro j hj
        have := hall j hj
        rw [upsampling_product_cons] at this
        exact (mul_dvd_iff_dvd_div _ _ _ (hu1 j hj)).mp this
      obtain ⟨r1, e1, e2, e3⟩ := l1 (fun j hj => (hsplit j hj).1)
      obtain ⟨i1, _⟩ := ih r1 (fun l hl => hlens l (List.mem_cons_of_mem _ hl))
        (fun l hl => hpos l (List.mem_cons_of_mem _ hl)) e2
      obtain ⟨r, f1, f2, f3⟩ := i1 (by
        intro j hj
        rw [e3 j hj]
        exact (hsplit j hj).2)
      refine ⟨r, ?_, f2, ?_⟩
      · rw [divide_levels, e1]
        exact f1
      · intro j hj
        rw [f3 j hj, e3 j hj, upsampling_product_cons, Nat.div_div_eq_div_mul]
    · intro hnot
      rw [divide_levels]
      by_cases hlev : ∀ j, j < n → us.getD j 1 ∣ ds.getD j 0
      · obtain ⟨r1, e1, e2, e3⟩ := l1 hlev
        obtain ⟨_, i2⟩ := ih r1 (fun l hl => hlens l (List.mem_cons_of_mem _ hl))
          (fun l hl => hpos l (List.mem_cons_of_mem _ hl)) e2
        rw [e1]
        apply i2
        intro hc
        apply hnot
        intro j hj
        rw [upsampling_product_cons]
        apply (mul_dvd_iff_dvd_div _ _ _ (hu1 j hj)).mpr
        refine ⟨hlev j hj, ?_⟩
        rw [← e3 j hj]
        exact hc j hj
      · rw [l2 hlev]


/-! ## The untile layer: the claims -/

/-- Claim C26. Shape round trip: for an untile layer accepted by `check()` (level vectors of
fewer than 2^32 elements) whose upsampling sizes are all at least 1, and an input
configuration `c` with the dimension count of the layer such that no product
`c_j * P_j` overflows (`P_j` the product over all levels of `upsampling_sizes[level][j]`),
`get_output_layer_configuration_specific([c])` succeeds with the feature map count of `c`
and dimension `j` equal to `c_j * P_j`, and `get_input_layer_configuration_specific`
applied to it succeeds and yields exactly `c`. -/
theorem C26_untile_round_trip (upsampling_sizes_list : List (List Nat))
    (c : layer_configuration_specific)
    (hsmall : ∀ l ∈ upsampling_sizes_list, l.length < 2 ^ 32)
    (hcheck : untile_layer.check upsampling_sizes_list = Except.ok ())
    (hpos : ∀ l ∈ upsampling_sizes_list, ∀ u ∈ l, 1 ≤ u)
    (hdim : c.dimension_sizes.length = (upsampling_sizes_list.headD []).length)
    (hov : ∀ j, j < c.dimension_sizes.length →
      c.dimension_sizes.getD j 0 * upsampling_product upsampling_sizes_list j < 2 ^ 32) :
    ∃ o, untile_layer.get_output_layer_configuration_specific upsampling_sizes_list [c]
        = Except.ok o ∧
      o.feature_map_count = c.feature_map_count ∧
      o.dimension_sizes.length = c.dimension_sizes.length ∧
      (∀ j, j < c.dimension_sizes.length →
        o.dimension_sizes.getD j 0
          = c.dimension_sizes.getD j 0 * upsampling_product upsampling_sizes_list j) ∧
      untile_layer.get_input_layer_configuration_specific upsampling_sizes_list o
        = Except.ok c := by
  obtain ⟨_, _, hlens⟩ := check_ok upsampling_sizes_list hsmall hcheck
  rw [← hdim] at hlens
  obtain ⟨m1, m2⟩ := multiply_levels_spec c.dimension_sizes.length upsampling_sizes_list
    c.dimension_sizes hlens hpos rfl hov
  have hout : untile_layer.get_output_layer_configuration_specific upsampling_sizes_list [c]
      = Except.ok { c with
          dimension_sizes := upsampling_sizes_list.foldl multiply_dimension_sizes
            c.dimension_sizes } := by
    unfold untile_layer.get_output_layer_configuration_specific
    simp only [hdim, ne_eq, not_true_eq_false, if_false]
  refine ⟨_, hout, rfl, m1, m2, ?_⟩
  obtain ⟨d1, _⟩ := divide_levels_spec c.dimension_sizes.length upsampling_sizes_list
    (upsampling_sizes_list.foldl multiply_dimension_sizes c.dimension_sizes) hlens hpos m1
  obtain ⟨r, r1, r2, r3⟩ := d1 (by
    intro j hj
    rw [m2 j hj]
    exact Nat.dvd_mul_left _ _)
  have hr : r = c.dimension_sizes := by
    apply list_ext_getD r c.dimension_sizes r2
    intro j hj
    rw [r2] at hj
    rw [r3 j hj, m2 j hj]
    exact Nat.mul_div_cancel _ (upsampling_product_pos upsampling_sizes_list hpos j)
  unfold untile_layer.get_input_layer_configuration_specific
  simp only [m1, hdim, ne_eq, not_true_eq_false, if_false, r1, hr]

theorem C26_untile_round_trip_witness :
    ∃ o, untile_layer.get_output_layer_configuration_specific [[2, 3], [2, 1]]
        [{ feature_map_count := 5, dimension_sizes := [4, 7] }] = Except.ok o ∧
      o.dimension_sizes.getD 0 0 = 4 * upsampling_product [[2, 3], [2, 1]] 0 ∧
      untile_layer.get_input_layer_configuration_specific [[2, 3], [2, 1]] o
        = Except.ok { feature_map_count := 5, dimension_sizes := [4, 7] } := by
  obtain ⟨o, h1, _, _, h4, h5⟩ := C26_untile_round_trip [[2, 3], [2, 1]]
    { feature_map_count := 5, dimension_sizes := [4, 7] } (by decide) rfl (by decide) rfl
    (by
      intro j hj
      have hj2 : j < 2 := hj
      interval_cases j <;> decide)
  exact ⟨o, h1, h4 0 (by decide), h5⟩

/-- Claim C27. For an untile layer accepted by `check()` (level vectors of fewer than 2^32
elements) with all upsampling sizes at least 1 and every output configuration `o`:
`get_input_layer_configuration_specific` fails with the dimension-count error if and only
if the dimension count of `o` differs from the layer's; otherwise it succeeds if and only
if every dimension `o_j` is divisible by the product `P_j` of the sizes
`upsampling_sizes[level][j]` over all levels, on success the result keeps the feature map
count and has dimension `j` equal to `o_j / P_j`, and otherwise it fails with the 'cannot
evenly divide' error. -/
theorem C27_untile_input_configuration (upsampling_sizes_list : List (List Nat))
    (o : layer_configuration_specific)
    (hsmall : ∀ l ∈ upsampling_sizes_list, l.length < 2 ^ 32)
    (hcheck : untile_layer.check upsampling_sizes_list = Except.ok ())
    (hpos : ∀ l ∈ upsampling_sizes_list, ∀ u ∈ l, 1 ≤ u) :
    ((∃ a b, untile_layer.get_input_layer_configuration_specific upsampling_sizes_list o
        = Except.error (untile_exception.dimension_count_mismatch a b))
      ↔ o.dimension_sizes.length ≠ (upsampling_sizes_list.headD []).length) ∧
    (o.dimension_sizes.length = (upsampling_sizes_list.headD []).length →
      ((∃ c, untile_layer.get_input_layer_configuration_specific upsampling_sizes_list o
          = Except.ok c)
        ↔ ∀ j, j < o.dimension_sizes.length →
            upsampling_product upsampling_sizes_list j ∣ o.dimension_sizes.getD j 0) ∧
      (∀ c, untile_layer.get_input_layer_configuration_specific upsampling_sizes_list o
          = Except.ok c →
        c.feature_map_count = o.feature_map_count ∧
        c.dimension_sizes.length = o.dimension_sizes.length ∧
        ∀ j, j < o.dimension_sizes.length →
          c.dimension_sizes.getD j 0
            = o.dimension_sizes.getD j 0 / upsampling_product upsampling_sizes_list j) ∧
      ((¬ ∀ j, j < o.dimension_sizes.length →
            upsampling_product upsampling_sizes_list j ∣ o.dimension_sizes.getD j 0) →
        untile_layer.get_input_layer_configuration_specific upsampling_sizes_list o
          = Except.error untile_exception.cannot_evenly_divide)) := by
  obtain ⟨_, _, hlens⟩ := check_ok upsampling_sizes_list hsmall hcheck
  have hyes : ∀ hd : o.dimension_sizes.length = (upsampling_sizes_list.headD []).length,
      untile_layer.get_input_layer_configuration_specific upsampling_sizes_list o
        = match divide_levels upsampling_sizes_list o.dimension_sizes with
          | Except.error e => Except.error e
          | Except.ok ds => Except.ok { o with dimension_sizes := ds } := by
    intro hd
    unfold untile_layer.get_input_layer_configuration_specific
    simp only [hd, ne_eq, not_true_eq_false, if_false]
  constructor
  · constructor
    · rintro ⟨a, b, hab⟩ hd
      obtain ⟨d1, d2⟩ := divide_levels_spec o.dimension_sizes.length upsampling_sizes_list
        o.dimension_sizes (by rw [hd]; exact hlens) hpos rfl
      rw [hyes hd] at hab
      by_cases hall : ∀ j, j < o.dimension_sizes.length →
          upsampling_product upsampling_sizes_list j ∣ o.dimension_sizes.getD j 0
      · obtain ⟨r, r1, _⟩ := d1 hall
        rw [r1] at hab
        exact Except.noConfusion hab
      · rw [d2 hall] at hab
        simp only [Except.error.injEq] at hab
        exact untile_exception.noConfusion hab
    · intro hd
      refine ⟨(upsampling_sizes_list.headD []).length, o.dimension_sizes.length, ?_⟩
      unfold untile_layer.get_input_layer_configuration_specific
      rw [if_pos hd]
  · intro hd
    obtain ⟨d1, d2⟩ := divide_levels_spec o.dimension_sizes.length upsampling_sizes_list
      o.dimension_sizes (by rw [hd]; exact hlens) hpos rfl
    have hfail : (¬ ∀ j, j < o.dimension_sizes.length →
          upsampling_product upsampling_sizes_list j ∣ o.dimension_sizes.getD j 0) →
        untile_layer.get_input_layer_configuration_specific upsampling_sizes_list o
          = Except.error untile_exception.cannot_evenly_divide := by
      intro hnot
      rw [hyes hd, d2 hnot]
    refine ⟨?_, ?_, hfail⟩
    · constructor
      · rintro ⟨c, hc⟩
        by_contra hnot
        rw [hfail hnot] at hc
        exact Except.noConfusion hc
      · intro hall
        obtain ⟨r, r1, _⟩ := d1 hall
        exact ⟨_, by rw [hyes hd, r1]⟩
    · intro c hc
      by_cases hall : ∀ j, j < o.dimension_sizes.length →
          upsampling_product upsampling_sizes_list j ∣ o.dimension_sizes.getD j 0
      · obtain ⟨r, r1, r2, r3⟩ := d1 hall
        rw [hyes hd, r1] at hc
        simp only [Except.ok.injEq] at hc
        rw [← hc]
        exact ⟨rfl, r2, r3⟩
      · rw [hfail hall] at hc
        exact Except.noConfusion hc

theorem C27_untile_input_configuration_witness :
    ((∃ c, untile_layer.get_input_layer_configuration_specific [[2, 3], [2, 1]]
        { feature_map_count := 5, dimension_sizes := [16, 21] } = Except.ok c)
      ↔ ∀ j, j < 2 → upsampling_product [[2, 3], [2, 1]] j ∣ [16, 21].getD j 0) ∧
    untile_layer.get_input_layer_configuration_specific [[2, 3], [2, 1]]
        { feature_map_count := 5, dimension_sizes := [16, 21] }
      = Except.ok { feature_map_count := 5, dimension_sizes := [4, 7] } :=
  ⟨((C27_untile_input_configuration [[2, 3], [2, 1]]
      { feature_map_count := 5, dimension_sizes := [16, 21] } (by decide) rfl (by decide)).2
      rfl).1, rfl⟩

/-- Claim C28, the failing input. The level list `[[0]]` passes `check()`, which tests
only the number of levels and the dimension counts; for an output configuration with one
dimension of size 4, `get_input_layer_configuration_specific` then evaluates `4 % 0`. -/
theorem C28_zero_upsampling_size_accepted :
    untile_layer.check [[0]] = Except.ok () ∧
    untile_layer.get_input_layer_configuration_specific [[0]]
        { feature_map_count := 1, dimension_sizes := [4] }
      = Except.error untile_exception.zero_divisor :=
  ⟨rfl, rfl⟩

/-! ## Entry convolution: auxiliary facts -/

theorem foldl_range_add {R : Type} [CommRing R] (h : Nat → R) :
    ∀ (n : Nat) (init : R),
      (List.range n).foldl (fun acc i => acc + h i) init
        = init + ∑ i in Finset.range n, h i := by
  intro n
  induction n with
  | zero =>
    intro init
    simp
  | succ k ih =>
    intro init
    rw [List.range_succ, List.foldl_append, ih, Finset.sum_range_succ]
    simp only [List.foldl_cons, List.foldl_nil]
    ring

/-- The loop of line 91 as a sum over its iterations. -/
theorem forward_output_eq_range {R : Type} [CommRing R] (F o : Nat) (hF : 1 ≤ F)
    (a b : Int → R) :
    forward_output (F : Int) (o : Int) a b
      = ∑ k in Finset.range (min F (o + 1) - (o + 1 - F)),
          a (((o + 1 - F + k : Nat)) : Int) * b (((o - (o + 1 - F + k) : Nat)) : Int) := by
  unfold forward_output forward_input_indices
  simp only []
  rw [List.foldl_map, foldl_range_add, zero_add]
  by_cases ho : o < F
  · have h1 : ¬ ((o : Int) > (F : Int) - 1) := by omega
    simp only [if_neg h1]
    have hc : (min ((F : Int) - 0) ((o : Int) + 1)).toNat = min F (o + 1) - (o + 1 - F) := by
      omega
    rw [hc]
    apply Finset.sum_congr rfl
    intro k hk
    have hk2 := Finset.mem_range.mp hk
    have e1 : (0 : Int) + (k : Int) = ((o + 1 - F + k : Nat) : Int) := by omega
    have e2 : (o : Int) - (k : Int) = ((o - (o + 1 - F + k) : Nat) : Int) := by omega
    rw [e1, e2]
  · have h1 : (o : Int) > (F : Int) - 1 := by omega
    simp only [if_pos h1]
    have hc : (min ((F : Int) - ((o : Int) - ((F : Int) - 1))) ((F : Int) - 1 + 1)).toNat
        = min F (o + 1) - (o + 1 - F) := by
      omega
    rw [hc]
    apply Finset.sum_congr rfl
    intro k hk
    have hk2 := Finset.mem_range.mp hk
    have e1 : (o : Int) - ((F : Int) - 1) + (k : Int) = ((o + 1 - F + k : Nat) : Int) := by
      omega
    have e2 : (F : Int) - 1 - (k : Int) = ((o - (o + 1 - F + k) : Nat) : Int) := by omega
    rw [e1, e2]

/-- The convolution sum over the index range the loop visits. -/
theorem convolution_sum_eq_range {R : Type} [CommRing R] (F o : Nat) (a b : Int → R) :
    convolution_sum F o a b
      = ∑ k in Finset.range (min F (o + 1) - (o + 1 - F)),
          a (((o + 1 - F + k : Nat)) : Int) * b (((o - (o + 1 - F + k) : Nat)) : Int) := by
  unfold convolution_sum
  have hinner : ∀ i ∈ Finset.range F,
      (∑ j in Finset.range F, if i + j = o then a (i : Int) * b (j : Int) else 0)
        = if o + 1 - F ≤ i ∧ i < min F (o + 1) then
            a (i : Int) * b (((o - i : Nat)) : Int)
          else 0 := by
    intro i hi
    have hi2 := Finset.mem_range.mp hi
    by_cases hio : i ≤ o
    · have hcongr : ∀ j ∈ Finset.range F,
          (if i + j = o then a (i : Int) * b (j : Int) else 0)
            = if j = o - i then a (i : Int) * b (((o - i : Nat)) : Int) else 0 := by
        intro j _
        by_cases hj : j = o - i
        · rw [if_pos hj, if_pos (by omega), hj]
        · rw [if_neg hj, if_neg (by omega)]
      rw [Finset.sum_congr rfl hcongr, Finset.sum_ite_eq']
      by_cases hin : o - i < F
      · rw [if_pos (Finset.mem_range.mpr hin), if_pos (by omega)]
      · rw [if_neg (fun hc => hin (Finset.mem_range.mp hc)), if_neg (by omega)]
    · rw [if_neg (by omega)]
      apply Finset.sum_eq_zero
      intro j _
      rw [if_neg (by omega)]
  rw [Finset.sum_congr rfl hinner, ← Finset.sum_filter]
  have hset : (Finset.range F).filter (fun i => o + 1 - F ≤ i ∧ i < min F (o + 1))
      = Finset.Ico (o + 1 - F) (o + 1 - F + (min F (o + 1) - (o + 1 - F))) := by
    ext i
    simp only [Finset.mem_filter, Finset.mem_range, Finset.mem_Ico]
    omega
  rw [hset, Finset.sum_Ico_eq_sum_range]
  apply Finset.sum_congr (by rw [Nat.add_sub_cancel_left])
  intro k _
  rfl

/-- The stored value is the full convolution sum. -/
theorem forward_output_spec {R : Type} [CommRing R] (F o : Nat) (hF : 1 ≤ F)
    (a b : Int → R) :
    forward_output (F : Int) (o : Int) a b = convolution_sum F o a b := by
  rw [forward_output_eq_range F o hF, convolution_sum_eq_range]

theorem convolution_sum_comm {R : Type} [CommRing R] (F o : Nat) (a b : Int → R) :
    convolution_sum F o a b = convolution_sum F o b a := by
  unfold convolution_sum
  rw [Finset.sum_comm]
  apply Finset.sum_congr rfl
  intro i _
  apply Finset.sum_congr rfl
  intro j _
  by_cases h : i + j = o
  · rw [if_pos h, if_pos (by omega), mul_comm]
  · rw [if_neg h, if_neg (by omega)]

theorem forward_input_indices_range (F o : Nat) :
    ∀ p ∈ forward_input_indices (F : Int) (o : Int),
      0 ≤ p.1 ∧ p.1 < (F : Int) ∧ 0 ≤ p.2 ∧ p.2 < (F : Int) ∧ p.1 + p.2 = (o : Int) := by
  intro p hp
  unfold forward_input_indices at hp
  simp only [] at hp
  obtain ⟨k, hk, hpk⟩ := List.mem_map.mp hp
  have hk2 := List.mem_range.mp hk
  rw [← hpk]
  simp only []
  by_cases ho : o < F
  · have h1 : ¬ ((o : Int) > (F : Int) - 1) := by omega
    simp only [if_neg h1] at hk2 ⊢
    omega
  · have h1 : (o : Int) > (F : Int) - 1 := by omega
    simp only [if_pos h1] at hk2 ⊢
    omega


theorem foldl_range_pair {R : Type} [CommRing R] (h1 h2 : Nat → R) :
    ∀ (n : Nat) (init : R × R),
      (List.range n).foldl (fun sums j => (sums.1 + h1 j, sums.2 + h2 j)) init
        = (init.1 + ∑ j in Finset.range n, h1 j, init.2 + ∑ j in Finset.range n, h2 j) := by
  intro n
  induction n with
  | zero =>
    intro init
    simp
  | succ k ih =>
    intro init
    rw [List.range_succ, List.foldl_append, ih, Finset.sum_range_succ, Finset.sum_range_succ]
    simp only [List.foldl_cons, List.foldl_nil]
    ext
    · simp only []
      ring
    · simp only []
      ring

/-- The two sums of the backward pass. -/
theorem backward_sums_spec {R : Type} [CommRing R] (F i : Nat) (a b err : Int → R) :
    backward_sums (F : Int) (i : Int) a b err
      = (∑ j in Finset.range F, b (j : Int) * err ((i : Int) + (j : Int)),
         ∑ j in Finset.range F, a (j : Int) * err ((i : Int) + (j : Int))) := by
  unfold backward_sums
  rw [Int.toNat_ofNat, foldl_range_pair]
  simp

/-- The pairing of the output errors with the convolution, summed over the outputs. -/
theorem sum_err_convolution {R : Type} [CommRing R] (F : Nat) (a b err : Int → R) :
    ∑ o in Finset.range (2 * F - 1), err (o : Int) * convolution_sum F o a b
      = ∑ i in Finset.range F, ∑ j in Finset.range F,
          a (i : Int) * b (j : Int) * err ((i : Int) + (j : Int)) := by
  unfold convolution_sum
  have h1 : ∀ o ∈ Finset.range (2 * F - 1),
      err (o : Int) * (∑ i in Finset.range F, ∑ j in Finset.range F,
        if i + j = o then a (i : Int) * b (j : Int) else 0)
      = ∑ i in Finset.range F, ∑ j in Finset.range F,
          if o = i + j then a (i : Int) * b (j : Int) * err ((i : Int) + (j : Int)) else 0 := by
    intro o _
    rw [Finset.mul_sum]
    apply Finset.sum_congr rfl
    intro i _
    rw [Finset.mul_sum]
    apply Finset.sum_congr rfl
    intro j _
    by_cases h : i + j = o
    · rw [if_pos h, if_pos h.symm, ← h]
      push_cast
      ring
    · rw [if_neg h, if_neg (fun e => h e.symm), mul_zero]
  rw [Finset.sum_congr rfl h1, Finset.sum_comm]
  apply Finset.sum_congr rfl
  intro i hi
  rw [Finset.sum_comm]
  apply Finset.sum_congr rfl
  intro j hj
  rw [Finset.sum_ite_eq', if_pos]
  have := Finset.mem_range.mp hi
  have := Finset.mem_range.mp hj
  apply Finset.mem_range.mpr
  omega

/-! ## Entry convolution: the claims -/

/-- Claim C29. Forward pass of the entry convolution (plain), at one neuron position of one
entry, with `a` and `b` the feature-map vectors of the two paired input entries and
`F ≥ 1` input feature maps, in exact arithmetic: for every output feature map index `o` the
stored value is the full discrete convolution sum over all `(i, j)` with `i + j = o`,
`i < F`, `j < F` of `a i * b j`; it is 0 for `o ≥ 2F - 1`; every pair of feature-map
indices the loop reads lies in `[0, F)` and adds up to `o`; and swapping the two input
entries leaves the stored value unchanged. -/
theorem C29_forward_convolution {R : Type} [CommRing R] (F o : Nat) (hF : 1 ≤ F)
    (a b : Int → R) :
    forward_output (F : Int) (o : Int) a b = convolution_sum F o a b ∧
    (2 * F - 1 ≤ o → forward_output (F : Int) (o : Int) a b = 0) ∧
    (∀ p ∈ forward_input_indices (F : Int) (o : Int),
      0 ≤ p.1 ∧ p.1 < (F : Int) ∧ 0 ≤ p.2 ∧ p.2 < (F : Int) ∧ p.1 + p.2 = (o : Int)) ∧
    forward_output (F : Int) (o : Int) a b = forward_output (F : Int) (o : Int) b a := by
  refine ⟨forward_output_spec F o hF a b, ?_, forward_input_indices_range F o, ?_⟩
  · intro ho
    rw [forward_output_eq_range F o hF]
    have : min F (o + 1) - (o + 1 - F) = 0 := by omega
    rw [this, Finset.sum_range_zero]
  · rw [forward_output_spec F o hF a b, forward_output_spec F o hF b a]
    exact convolution_sum_comm F o a b

theorem C29_forward_convolution_witness :
    forward_output (2 : Int) (1 : Int)
        (fun k => if k = 0 then (3 : Int) else 5) (fun k => if k = 0 then (7 : Int) else 11)
      = 3 * 11 + 5 * 7 ∧
    forward_output ((2 : Nat) : Int) ((1 : Nat) : Int)
        (fun k => if k = 0 then (3 : Int) else 5) (fun k => if k = 0 then (7 : Int) else 11)
      = forward_output ((2 : Nat) : Int) ((1 : Nat) : Int)
        (fun k => if k = 0 then (7 : Int) else 11) (fun k => if k = 0 then (3 : Int) else 5) :=
  ⟨by decide, (C29_forward_convolution 2 1 (by decide)
    (fun k => if k = 0 then (3 : Int) else 5) (fun k => if k = 0 then (7 : Int) else 11)).2.2.2⟩

/-- Claim C30. Backward pass of the entry convolution (plain), at one neuron position of one
entry, with `F ≥ 1` input feature maps and `2F - 1` output feature maps, in exact
arithmetic: for every input feature map `i` the two sums are
`ga i = Σ_{j<F} b j * err (i + j)` and `gb i = Σ_{j<F} a j * err (i + j)`; they satisfy
`Σ_i a i * ga i = Σ_o err o * forward(a, b) o = Σ_i b i * gb i` with `o` ranging over the
`2F - 1` outputs; every index `i + j` read from the output errors is below `2F - 1`; with
`add_update_to_destination = false` the sums replace the previous contents of the two
destinations and with `true` they are added to them. -/
theorem C30_backward_adjoint {R : Type} [CommRing R] (F : Nat) (hF : 1 ≤ F)
    (a b err : Int → R) :
    (∀ i : Nat, backward_sums (F : Int) (i : Int) a b err
      = (∑ j in Finset.range F, b (j : Int) * err ((i : Int) + (j : Int)),
         ∑ j in Finset.range F, a (j : Int) * err ((i : Int) + (j : Int)))) ∧
    (∑ i in Finset.range F, a (i : Int) * (backward_sums (F : Int) (i : Int) a b err).1
      = ∑ o in Finset.range (2 * F - 1), err (o : Int) * forward_output (F : Int) (o : Int) a b) ∧
    (∑ o in Finset.range (2 * F - 1), err (o : Int) * forward_output (F : Int) (o : Int) a b
      = ∑ i in Finset.range F, b (i : Int) * (backward_sums (F : Int) (i : Int) a b err).2) ∧
    (∀ i j, i < F → j < F → i + j < 2 * F - 1) ∧
    (∀ (i : Nat) (previous1 previous2 : R),
      backward_errors false (F : Int) (i : Int) a b err previous1 previous2
        = backward_sums (F : Int) (i : Int) a b err ∧
      backward_errors true (F : Int) (i : Int) a b err previous1 previous2
        = (previous1 + (backward_sums (F : Int) (i : Int) a b err).1,
           previous2 + (backward_sums (F : Int) (i : Int) a b err).2)) := by
  have hfwd : ∑ o in Finset.range (2 * F - 1), err (o : Int) * forward_output (F : Int) (o : Int) a b
      = ∑ i in Finset.range F, ∑ j in Finset.range F,
          a (i : Int) * b (j : Int) * err ((i : Int) + (j : Int)) := by
    rw [← sum_err_convolution]
    apply Finset.sum_congr rfl
    intro o _
    rw [forward_output_spec F o hF]
  refine ⟨fun i => backward_sums_spec F i a b err, ?_, ?_, ?_, ?_⟩
  · rw [hfwd]
    apply Finset.sum_congr rfl
    intro i _
    rw [backward_sums_spec, Finset.mul_sum]
    apply Finset.sum_congr rfl
    intro j _
    ring
  · rw [hfwd, Finset.sum_comm]
    apply Finset.sum_congr rfl
    intro i _
    rw [backward_sums_spec, Finset.mul_sum]
    apply Finset.sum_congr rfl
    intro j _
    rw [add_comm ((j : Int)) ((i : Int))]
    ring
  · intro i j hi hj
    omega
  · intro i previous1 previous2
    exact ⟨rfl, rfl⟩

theorem C30_backward_adjoint_witness :
    backward_sums ((2 : Nat) : Int) ((0 : Nat) : Int)
        (fun k => if k = 0 then (3 : Int) else 5) (fun k => if k = 0 then (7 : Int) else 11)
        (fun k => if k = 0 then (1 : Int) else if k = 1 then 2 else 4)
      = (7 * 1 + 11 * 2, 3 * 1 + 5 * 2) ∧
    (∀ i j, i < 2 → j < 2 → i + j < 2 * 2 - 1) := by
  obtain ⟨h1, _, _, h4, _⟩ := C30_backward_adjoint 2 (by decide)
    (fun k => if k = 0 then (3 : Int) else 5) (fun k => if k = 0 then (7 : Int) else 11)
    (fun k => if k = 0 then (1 : Int) else if k = 1 then 2 else 4)
  refine ⟨?_, h4⟩
  rw [h1 0]
  decide
